import Mathlib

/-!
# Verification of the YPBank transaction format codec layer

A shallow embedding in Lean 4 of the Rust parser library in
`src/parser` (models, conversion layer, CSV / Text / Binary codecs),
together with theorems settling the claims of the specification.

Strings are modelled as `List Char` (`Str`); byte streams as `List Nat`
with every byte `< 256`; Rust `u64`/`u32` as `Nat` with explicit bounds
in hypotheses; Rust `i64` as `Int` with explicit range hypotheses.
Fallible Rust functions returning `Result<_, ParseError>` are modelled
as `Except ParseError _`.
-/

set_option maxHeartbeats 1000000
set_option maxRecDepth 16384

/-- Strings of the Rust source, modelled as lists of characters. -/
abbrev Str := List Char

/-- Convert a Lean string literal into the `Str` model. -/
def str (s : String) : Str := s.data

/-- The Unicode `White_Space` property, used by Rust `char::is_whitespace`
(and hence `str::trim`). -/
def rustIsWhitespace (c : Char) : Bool :=
  c.toNat = 0x09 ∨ c.toNat = 0x0A ∨ c.toNat = 0x0B ∨ c.toNat = 0x0C ∨
  c.toNat = 0x0D ∨ c.toNat = 0x20 ∨ c.toNat = 0x85 ∨ c.toNat = 0xA0 ∨
  c.toNat = 0x1680 ∨ (0x2000 ≤ c.toNat ∧ c.toNat ≤ 0x200A) ∨
  c.toNat = 0x2028 ∨ c.toNat = 0x2029 ∨ c.toNat = 0x202F ∨
  c.toNat = 0x205F ∨ c.toNat = 0x3000

/-- Rust `str::trim_start`. -/
def trimLeft (s : Str) : Str := s.dropWhile rustIsWhitespace

/-- Rust `str::trim_end`. -/
def trimRight (s : Str) : Str := (s.reverse.dropWhile rustIsWhitespace).reverse

/-- Rust `str::trim`: drop whitespace from both ends. -/
def rustTrim (s : Str) : Str := trimRight (trimLeft s)

/-- Strip a single trailing carriage return, as Rust `str::lines` does on
each produced line. -/
def stripCr (s : Str) : Str :=
  if s.getLast? = some '\r' then s.dropLast else s

/-- Worker for `rustLines`: accumulates the current line (reversed). -/
def linesAux : Str → Str → List Str
  | [], acc => if acc.isEmpty then [] else [stripCr acc.reverse]
  | c :: rest, acc =>
    if c = '\n' then stripCr acc.reverse :: linesAux rest []
    else linesAux rest (c :: acc)

/-- Rust `str::lines`: split on `'\n'`, strip one trailing `'\r'` per line,
no trailing empty line for a final newline. -/
def rustLines (s : Str) : List Str := linesAux s []

/-- `List.intercalate` specialised to `Str` with a single-char separator,
mirroring Rust `join(",")` / `join("\n")`. -/
def joinSep (sep : Char) : List Str → Str
  | [] => []
  | [x] => x
  | x :: y :: rest => x ++ sep :: joinSep sep (y :: rest)

/-- Decimal digit character for a digit value `< 10`. -/
def digitCh (d : Nat) : Char := Char.ofNat (48 + d)

/-- Decimal rendering of a natural number, as Rust `u64::to_string`
(most significant digit first). -/
def natToStr (n : Nat) : Str :=
  if n = 0 then ['0'] else ((Nat.digits 10 n).map digitCh).reverse

/-- ASCII decimal digit test (Rust `u64` parsing accepts ASCII digits). -/
def isAsciiDigit (c : Char) : Bool := 48 ≤ c.toNat ∧ c.toNat ≤ 57

/-- Numeric value of the digits of a string, most significant first. -/
def digitsVal (s : Str) : Nat := s.foldl (fun a c => 10 * a + (c.toNat - 48)) 0

/-- Rust `str::parse::<u64>()`: an optional leading `'+'`, then one or more
ASCII digits, and the value must fit in 64 bits. -/
def parseU64 (s : Str) : Option Nat :=
  let s' := if s.head? = some '+' then s.tail else s
  if s' ≠ [] ∧ s'.all isAsciiDigit then
    let v := digitsVal s'
    if v < 2 ^ 64 then some v else none
  else none

/-- Rust `char::to_uppercase` restricted to its ASCII behaviour; the textual
tokens compared against are all ASCII. -/
def strUpper (s : Str) : Str := s.map Char.toUpper

/-- Byte length of one character encoded in UTF-8. -/
def utf8CharLen (c : Char) : Nat :=
  if c.toNat < 0x80 then 1
  else if c.toNat < 0x800 then 2
  else if c.toNat < 0x10000 then 3
  else 4

/-- Byte length of a string in UTF-8, as Rust `str::len`. -/
def strByteLen (s : Str) : Nat := (s.map utf8CharLen).sum

section BasicLemmas

theorem digitCh_toNat {d : Nat} (h : d < 10) : (digitCh d).toNat = 48 + d := by
  interval_cases d <;> rfl

theorem foldlDigits_shift (s : Str) :
    ∀ x : Nat, s.foldl (fun a c => 10 * a + (c.toNat - 48)) x
      = x * 10 ^ s.length + digitsVal s := by
  induction s with
  | nil => intro x; simp [digitsVal]
  | cons c s' ih =>
    intro x
    simp only [List.foldl_cons, List.length_cons, digitsVal] at *
    rw [ih (10 * x + (c.toNat - 48)), ih (10 * 0 + (c.toNat - 48))]
    ring

theorem digitsVal_append (a b : Str) :
    digitsVal (a ++ b) = digitsVal a * 10 ^ b.length + digitsVal b := by
  simp only [digitsVal, List.foldl_append]
  exact foldlDigits_shift b _

theorem digitsVal_digits (n : Nat) :
    digitsVal (((Nat.digits 10 n).map digitCh).reverse) = n := by
  induction n using Nat.strong_induction_on with
  | _ n ih =>
    rcases Nat.eq_zero_or_pos n with h | h
    · simp [h, digitsVal]
    · rw [Nat.digits_def' (by norm_num : 1 < 10) h]
      simp only [List.map_cons, List.reverse_cons]
      rw [digitsVal_append]
      have hlt : n / 10 < n := Nat.div_lt_self h (by norm_num)
      have hrec := ih (n / 10) hlt
      have hmod : n % 10 < 10 := Nat.mod_lt n (by norm_num)
      have hch : digitsVal [digitCh (n % 10)] = n % 10 := by
        simp only [digitsVal, List.foldl_cons, List.foldl_nil, digitCh_toNat hmod]
        omega
      rw [hrec, hch]
      simp only [List.length_cons, List.length_nil, pow_succ, pow_zero, one_mul]
      omega

theorem digit_isAsciiDigit {d : Nat} (h : d < 10) : isAsciiDigit (digitCh d) := by
  simp only [isAsciiDigit, decide_eq_true_eq, digitCh_toNat h]
  omega

theorem natToStr_all_digits (n : Nat) : (natToStr n).all isAsciiDigit := by
  rw [natToStr]
  split
  · decide
  · rw [List.all_eq_true]
    intro c hc
    rw [List.mem_reverse, List.mem_map] at hc
    obtain ⟨d, hd, rfl⟩ := hc
    exact digit_isAsciiDigit (Nat.digits_lt_base (by norm_num) hd)

theorem natToStr_ne_nil (n : Nat) : natToStr n ≠ [] := by
  rw [natToStr]
  split
  · simp
  · simp only [ne_eq, List.reverse_eq_nil_iff, List.map_eq_nil_iff]
    intro h
    exact (by assumption : ¬ n = 0) (Nat.digits_eq_nil_iff_eq_zero.mp h)

theorem natToStr_head_ne_plus (n : Nat) : (natToStr n).head? ≠ some '+' := by
  intro hplus
  have hall := natToStr_all_digits n
  match hm : natToStr n with
  | [] => rw [hm] at hplus; simp at hplus
  | c :: rest =>
    rw [hm] at hplus hall
    simp only [List.head?_cons, Option.some.injEq] at hplus
    rw [hplus] at hall
    simp [isAsciiDigit] at hall

theorem parseU64_natToStr {n : Nat} (h : n < 2 ^ 64) :
    parseU64 (natToStr n) = some n := by
  have hne := natToStr_ne_nil n
  have hall := natToStr_all_digits n
  have hval : digitsVal (natToStr n) = n := by
    rw [natToStr]
    split
    · simp [digitsVal, *]
    · exact digitsVal_digits n
  rw [parseU64]
  rw [if_neg (natToStr_head_ne_plus n)]
  simp only [ne_eq, hne, not_false_eq_true, hall, and_self, if_true, hval, h, if_pos]

end BasicLemmas

/-! ## Data model (`src/parser/src/models.rs`) -/

/-- `TxType`: transaction type enumeration, `repr(u8)`. -/
inductive TxType
  | deposit
  | transfer
  | withdrawal
deriving DecidableEq, Repr

/-- `TxStatus`: transaction status enumeration, `repr(u8)`. -/
inductive TxStatus
  | success
  | failure
  | pending
deriving DecidableEq, Repr

namespace TxType

/-- `TxType::as_u8` (the `repr` discriminants 0, 1, 2). -/
def as_u8 : TxType → Nat
  | .deposit => 0
  | .transfer => 1
  | .withdrawal => 2

/-- `TxType::from_u8`, generated by the `TxDisplay` derive macro. -/
def from_u8 : Nat → Option TxType
  | 0 => some .deposit
  | 1 => some .transfer
  | 2 => some .withdrawal
  | _ => none

/-- `Display for TxType`: the uppercase variant name. -/
def display : TxType → Str
  | .deposit => str "DEPOSIT"
  | .transfer => str "TRANSFER"
  | .withdrawal => str "WITHDRAWAL"

/-- `FromStr for TxType`: uppercase the input, match the variant names. -/
def fromStr (s : Str) : Option TxType :=
  if strUpper s = str "DEPOSIT" then some .deposit
  else if strUpper s = str "TRANSFER" then some .transfer
  else if strUpper s = str "WITHDRAWAL" then some .withdrawal
  else none

end TxType

namespace TxStatus

/-- `TxStatus::as_u8` (the `repr` discriminants 0, 1, 2). -/
def as_u8 : TxStatus → Nat
  | .success => 0
  | .failure => 1
  | .pending => 2

/-- `TxStatus::from_u8`, generated by the `TxDisplay` derive macro. -/
def from_u8 : Nat → Option TxStatus
  | 0 => some .success
  | 1 => some .failure
  | 2 => some .pending
  | _ => none

/-- `Display for TxStatus`: the uppercase variant name. -/
def display : TxStatus → Str
  | .success => str "SUCCESS"
  | .failure => str "FAILURE"
  | .pending => str "PENDING"

/-- `FromStr for TxStatus`: uppercase the input, match the variant names. -/
def fromStr (s : Str) : Option TxStatus :=
  if strUpper s = str "SUCCESS" then some .success
  else if strUpper s = str "FAILURE" then some .failure
  else if strUpper s = str "PENDING" then some .pending
  else none

end TxStatus

/-- The error taxonomy of `src/parser/src/errors.rs`. The wrapped
`std::io::Error` of `IOError` and the boxed source of `InvalidFormat` are
reduced to their display strings. -/
inductive ParseError
  | ioError (description : Str)
  | sizeLimitExceeded (actual limit : Nat)
  | incorrectField (key : Str)
  | parseError (message : Str) (line column : Nat)
  | parseBinaryError (message : Str)
  | emptyData
  | invalidFormat (expected got : Str)
  | overflowSize (src dst description : Str)
  | unsupportedFormat (invalidFormat : Str)
deriving DecidableEq, Repr

namespace ParseError

/-- `ParseError::parse_err` constructor helper. -/
def parse_err (message : Str) (line column : Nat) : ParseError :=
  .parseError message line column

/-- `ParseError::parse_bin_error` constructor helper. -/
def parse_bin_error (message : Str) : ParseError :=
  .parseBinaryError message

/-- `ParseError::lim_exceed` constructor helper. -/
def lim_exceed (actual limit : Nat) : ParseError :=
  .sizeLimitExceeded actual limit

/-- `ParseError::over_flow_size` constructor helper: builds the description
string from the offending value's display form. -/
def over_flow_size (fromType toType : Str) (value : Str) : ParseError :=
  .overflowSize fromType toType
    (str "Значение " ++ value ++ str " выходит за допустимый диапазон типа " ++ toType)

end ParseError

/-- `YPBankTransaction`: the canonical in-memory record.
`u64` fields are `Nat`; the signed `amount` is `Int`. -/
structure YPBankTransaction where
  tx_id : Nat
  tx_type : TxType
  from_user_id : Nat
  to_user_id : Nat
  amount : Int
  timestamp : Nat
  status : TxStatus
  description : Option Str
deriving DecidableEq, Repr

/-- `YPBankCsvFormat`: the CSV per-format record; `amount` is unsigned,
`description` always present. -/
structure YPBankCsvFormat where
  tx_id : Nat
  tx_type : TxType
  from_user_id : Nat
  to_user_id : Nat
  amount : Nat
  timestamp : Nat
  status : TxStatus
  description : Str
deriving DecidableEq, Repr

/-- `YPBankTextFormat`: the Text per-format record (same physical fields
as the CSV record). -/
structure YPBankTextFormat where
  tx_id : Nat
  tx_type : TxType
  from_user_id : Nat
  to_user_id : Nat
  amount : Nat
  timestamp : Nat
  status : TxStatus
  description : Str
deriving DecidableEq, Repr

/-- `YPBankBinFormat`: the binary per-format record; `amount` signed,
`desc_len` the stored UTF-8 length, `description` optional. -/
structure YPBankBinFormat where
  tx_id : Nat
  tx_type : TxType
  from_user_id : Nat
  to_user_id : Nat
  amount : Int
  timestamp : Nat
  status : TxStatus
  desc_len : Nat
  description : Option Str
deriving DecidableEq, Repr

/-! ## Conversion layer (`impl_try_from_*` macros in `models.rs`) -/

/-- The field list of the record structs (the `YPBankFields` derive macro's
`fields()`: the struct field names uppercased, in declaration order). -/
def csvFields : List Str :=
  [str "TX_ID", str "TX_TYPE", str "FROM_USER_ID", str "TO_USER_ID",
   str "AMOUNT", str "TIMESTAMP", str "STATUS", str "DESCRIPTION"]

/-- `has_field_from_str` from the `YPBankFields` derive macro (CSV and Text
records have the same field list). -/
def has_field_from_str (field : Str) : Bool :=
  csvFields.contains (strUpper field)

/-- `TryFrom<YPBankCsvFormat> for YPBankTransaction`
(`impl_try_from_yp_format_to_transaction!`): checked `u64 → i64` on
`amount`, then force the sign negative for Transfer/Withdrawal when the
value is positive. -/
def csvToTransaction (source : YPBankCsvFormat) : Except ParseError YPBankTransaction :=
  if source.amount < 2 ^ 63 then
    let amount0 : Int := source.amount
    let amount := if (source.tx_type = .transfer ∨ source.tx_type = .withdrawal) ∧ amount0 > 0
      then -amount0 else amount0
    .ok { tx_id := source.tx_id, tx_type := source.tx_type,
          from_user_id := source.from_user_id, to_user_id := source.to_user_id,
          amount := amount, timestamp := source.timestamp, status := source.status,
          description := some source.description }
  else .error (.over_flow_size (str "u64") (str "i64") (natToStr source.amount))

/-- `TryFrom<YPBankTextFormat> for YPBankTransaction` (same macro body). -/
def textToTransaction (source : YPBankTextFormat) : Except ParseError YPBankTransaction :=
  if source.amount < 2 ^ 63 then
    let amount0 : Int := source.amount
    let amount := if (source.tx_type = .transfer ∨ source.tx_type = .withdrawal) ∧ amount0 > 0
      then -amount0 else amount0
    .ok { tx_id := source.tx_id, tx_type := source.tx_type,
          from_user_id := source.from_user_id, to_user_id := source.to_user_id,
          amount := amount, timestamp := source.timestamp, status := source.status,
          description := some source.description }
  else .error (.over_flow_size (str "u64") (str "i64") (natToStr source.amount))

/-- `TryFrom<YPBankBinFormat> for YPBankTransaction` (same macro body; the
`i64 → i64` `try_into` is the identity and infallible, so only the
sign-normalization branch remains). -/
def binToTransaction (source : YPBankBinFormat) : Except ParseError YPBankTransaction :=
  let amount := if (source.tx_type = .transfer ∨ source.tx_type = .withdrawal) ∧ source.amount > 0
    then -source.amount else source.amount
  .ok { tx_id := source.tx_id, tx_type := source.tx_type,
        from_user_id := source.from_user_id, to_user_id := source.to_user_id,
        amount := amount, timestamp := source.timestamp, status := source.status,
        description := source.description }

/-- `TryFrom<YPBankTransaction> for YPBankCsvFormat`
(`impl_try_from_transaction_to_yp_format!`): `None` description becomes
the empty string, `amount` becomes `unsigned_abs`. Never fails. -/
def transactionToCsv (value : YPBankTransaction) : Except ParseError YPBankCsvFormat :=
  .ok { tx_id := value.tx_id, tx_type := value.tx_type,
        from_user_id := value.from_user_id, to_user_id := value.to_user_id,
        amount := value.amount.natAbs, timestamp := value.timestamp,
        status := value.status, description := value.description.getD [] }

/-- `TryFrom<YPBankTransaction> for YPBankTextFormat` (same macro body). -/
def transactionToText (value : YPBankTransaction) : Except ParseError YPBankTextFormat :=
  .ok { tx_id := value.tx_id, tx_type := value.tx_type,
        from_user_id := value.from_user_id, to_user_id := value.to_user_id,
        amount := value.amount.natAbs, timestamp := value.timestamp,
        status := value.status, description := value.description.getD [] }

/-- UTF-8 encoding of one character (scalar value), per the standard
byte layout, as `str::as_bytes` produces. -/
def encodeChar (c : Char) : List Nat :=
  let n := c.toNat
  if n < 0x80 then [n]
  else if n < 0x800 then [0xC0 + n / 0x40, 0x80 + n % 0x40]
  else if n < 0x10000 then
    [0xE0 + n / 0x1000, 0x80 + n / 0x40 % 0x40, 0x80 + n % 0x40]
  else
    [0xF0 + n / 0x40000, 0x80 + n / 0x1000 % 0x40, 0x80 + n / 0x40 % 0x40, 0x80 + n % 0x40]

/-- UTF-8 byte sequence of a string (Rust `str::as_bytes`). -/
def utf8Encode (s : Str) : List Nat := s.flatMap encodeChar

/-- `TryFrom<YPBankTransaction> for YPBankBinFormat`: recompute `desc_len`
from the description's byte length, failing with an overflow error when it
does not fit `u32`; `amount` passes through signed. -/
def transactionToBin (value : YPBankTransaction) : Except ParseError YPBankBinFormat :=
  match value.description with
  | some d =>
    if (utf8Encode d).length < 2 ^ 32 then
      .ok { tx_id := value.tx_id, tx_type := value.tx_type,
            from_user_id := value.from_user_id, to_user_id := value.to_user_id,
            amount := value.amount, timestamp := value.timestamp,
            status := value.status, desc_len := (utf8Encode d).length,
            description := some d }
    else .error (.over_flow_size (str "usize") (str "u32") d)
  | none =>
    .ok { tx_id := value.tx_id, tx_type := value.tx_type,
          from_user_id := value.from_user_id, to_user_id := value.to_user_id,
          amount := value.amount, timestamp := value.timestamp,
          status := value.status, desc_len := 0, description := none }

/-! ## Line utilities (`src/parser/src/format/tools.rs`) -/

/-- `LineUtils::is_empty_line`: the trimmed line is empty. -/
def is_empty_line (s : Str) : Bool := (rustTrim s).isEmpty

/-- `LineUtils::is_hash_marker`: the trimmed line starts with `#`. -/
def is_hash_marker (s : Str) : Bool :=
  match rustTrim s with
  | '#' :: _ => true
  | _ => false

/-- `LineUtils::is_eq`: equality of both sides after trimming. -/
def is_eq (s other : Str) : Bool := rustTrim s = rustTrim other

/-- Left-to-right, non-overlapping replacement of `""` by `"` — Rust
`str::replace("\"\"", "\"")` as used by `clean_quote`. -/
def replaceQQ : Str → Str
  | [] => []
  | c :: rest =>
    if c = '"' then
      match rest with
      | [] => ['"']
      | c2 :: rest2 =>
        if c2 = '"' then '"' :: replaceQQ rest2 else '"' :: replaceQQ (c2 :: rest2)
    else c :: replaceQQ rest

/-- `LineUtils::clean_quote`: strip one pair of surrounding quotes when the
string starts and ends with `"` and has length at least 2, then undouble
internal quotes. -/
def clean_quote (s : Str) : Str :=
  let line := if s.head? = some '"' ∧ s.getLast? = some '"' ∧ 2 ≤ s.length
    then s.dropLast.tail else s
  replaceQQ line

/-- Find the position of the first `':'` — Rust `str::split_once(':')`. -/
def splitOnceColon (s : Str) : Option (Str × Str) :=
  match s with
  | [] => none
  | c :: rest =>
    if c = ':' then some ([], rest)
    else (splitOnceColon rest).map (fun p => (c :: p.1, p.2))

/-- `LineUtils::split_into_key_value`: split at the first `':'`, uppercase
and trim the key, trim and unquote the value; `None` when either side is
empty. -/
def split_into_key_value (s : Str) : Option (Str × Str) :=
  match splitOnceColon s with
  | none => none
  | some (k, v) =>
    let key := strUpper (rustTrim k)
    let value := rustTrim v
    if key.isEmpty ∨ value.isEmpty then none
    else some (key, clean_quote value)

/-- The quoted-field loop of `split_csv_line`: copy characters until an
unmatched closing quote, undoubling `""`, skipping tabs and newlines.
Returns the final buffer (the input may also end without a closing quote,
which the source accepts). -/
def csvQuotedLoop : Str → Str → Str
  | [], buffer => buffer
  | c :: rest, buffer =>
    if c = '"' then
      match rest with
      | [] => buffer
      | c2 :: rest2 =>
        if c2 = '"' then csvQuotedLoop rest2 (buffer ++ ['"']) else buffer
    else if c = '\t' ∨ c = '\n' then csvQuotedLoop rest buffer
    else csvQuotedLoop rest (buffer ++ [c])

/-- Main loop of `split_csv_line` over the remaining characters, with the
current buffer and the fields collected so far. -/
def splitCsvAux : Str → Str → List Str → Option (List Str)
  | [], buffer, fields =>
    let fields := if (rustTrim buffer).isEmpty then fields
      else fields ++ [rustTrim buffer]
    if fields.length < 2 then none else some fields
  | c :: rest, buffer, fields =>
    if c = '"' then
      if ¬ (rustTrim buffer).isEmpty then none
      else some (fields ++ [rustTrim (csvQuotedLoop rest buffer)])
    else if c = ',' then splitCsvAux rest [] (fields ++ [rustTrim buffer])
    else splitCsvAux rest (buffer ++ [c]) fields

/-- `LineUtils::split_csv_line`: comma-separated fields with a final
quoted description field; `None` on a malformed line or fewer than two
fields. -/
def split_csv_line (s : Str) : Option (List Str) := splitCsvAux s [] []

/-- Rust `str::replace('"', "\"\"")` — CSV quote escaping on write. -/
def escQuote (s : Str) : Str := s.flatMap (fun c => if c = '"' then ['"', '"'] else [c])

/-! ## Size limits (`src/parser/src/lib.rs`) -/

/-- One MiB (`MI_B`). -/
def MI_B : Nat := 1048576

/-- `MAX_SIZE_BIN_BYTES`: input ceiling for the binary format. -/
def MAX_SIZE_BIN_BYTES : Nat := 8 * MI_B

/-- `MAX_SIZE_CSV_TXT_BYTES`: input ceiling for CSV and Text. -/
def MAX_SIZE_CSV_TXT_BYTES : Nat := 4 * MI_B

/-- Modelled from the spec: `validate_exceed_max_bytes` is referenced from
`format/bin.rs` but its definition is not under `src/`; per the spec,
exceeding the ceiling fails with `SizeLimitExceeded` carrying the actual
and limit byte counts. -/
def validate_exceed_max_bytes (actual limit : Nat) : Except ParseError Unit :=
  if actual > limit then .error (.lim_exceed actual limit) else .ok ()

/-! ## Field-map construction (`new_from_map`, `get_field_in_map!`) -/

/-- `HashMap<String, String>` lookup, for maps built by successive
insertion: the last inserted value for a key wins. -/
def mapGet (m : List (Str × Str)) (k : Str) : Option Str :=
  (m.reverse.find? (fun p => p.1 == k)).map (fun p => p.2)

/-- `get_field_in_map!` for a `u64` field: a missing key or an unparsable
value is `ParseError::IncorrectField` with that key. -/
def getFieldU64 (m : List (Str × Str)) (k : Str) : Except ParseError Nat :=
  match mapGet m k with
  | none => .error (.incorrectField k)
  | some v =>
    match parseU64 v with
    | none => .error (.incorrectField k)
    | some n => .ok n

/-- `get_field_in_map!` for the `TxType` field. -/
def getFieldTxType (m : List (Str × Str)) (k : Str) : Except ParseError TxType :=
  match mapGet m k with
  | none => .error (.incorrectField k)
  | some v =>
    match TxType.fromStr v with
    | none => .error (.incorrectField k)
    | some t => .ok t

/-- `get_field_in_map!` for the `TxStatus` field. -/
def getFieldTxStatus (m : List (Str × Str)) (k : Str) : Except ParseError TxStatus :=
  match mapGet m k with
  | none => .error (.incorrectField k)
  | some v =>
    match TxStatus.fromStr v with
    | none => .error (.incorrectField k)
    | some t => .ok t

/-- `get_field_in_map!` for a `String` field (`FromStr for String` is the
identity and never fails, but the key must be present). -/
def getFieldString (m : List (Str × Str)) (k : Str) : Except ParseError Str :=
  match mapGet m k with
  | none => .error (.incorrectField k)
  | some v => .ok v

/-- `YPBankCsvFormat::new_from_map`. -/
def csvNewFromMap (m : List (Str × Str)) : Except ParseError YPBankCsvFormat := do
  let tx_id ← getFieldU64 m (str "TX_ID")
  let tx_type ← getFieldTxType m (str "TX_TYPE")
  let from_user_id ← getFieldU64 m (str "FROM_USER_ID")
  let to_user_id ← getFieldU64 m (str "TO_USER_ID")
  let amount ← getFieldU64 m (str "AMOUNT")
  let timestamp ← getFieldU64 m (str "TIMESTAMP")
  let status ← getFieldTxStatus m (str "STATUS")
  let description ← getFieldString m (str "DESCRIPTION")
  return { tx_id, tx_type, from_user_id, to_user_id, amount, timestamp, status, description }

/-- `YPBankTextFormat::new_from_map` (same fields and checks). -/
def textNewFromMap (m : List (Str × Str)) : Except ParseError YPBankTextFormat := do
  let tx_id ← getFieldU64 m (str "TX_ID")
  let tx_type ← getFieldTxType m (str "TX_TYPE")
  let from_user_id ← getFieldU64 m (str "FROM_USER_ID")
  let to_user_id ← getFieldU64 m (str "TO_USER_ID")
  let amount ← getFieldU64 m (str "AMOUNT")
  let timestamp ← getFieldU64 m (str "TIMESTAMP")
  let status ← getFieldTxStatus m (str "STATUS")
  let description ← getFieldString m (str "DESCRIPTION")
  return { tx_id, tx_type, from_user_id, to_user_id, amount, timestamp, status, description }

/-! ## CSV codec (`src/parser/src/format/csv.rs`) -/

/-- Collect a list of fallible results, stopping at the first error
(Rust `collect::<Result<Vec<_>, _>>()`). -/
def collectExcept : List (Except ParseError α) → Except ParseError (List α)
  | [] => .ok []
  | x :: rest => do
    let v ← x
    let vs ← collectExcept rest
    return v :: vs

/-- `YPBankCsvFormat::make_title`: the field names joined with commas. -/
def make_title : Str := joinSep ',' csvFields

/-- `YPBankCsvFormat::makeup_records`: one comma-joined data line, the
description quoted with internal quotes doubled. -/
def makeup_records (records : YPBankCsvFormat) : Str :=
  joinSep ','
    [natToStr records.tx_id, records.tx_type.display,
     natToStr records.from_user_id, natToStr records.to_user_id,
     natToStr records.amount, natToStr records.timestamp,
     records.status.display,
     '"' :: escQuote records.description ++ ['"']]

/-- `YPBankCsvFormat::parse_data_line`. -/
def parse_data_line (titleData : List Str) (line : Str) (countLine : Nat) :
    Except ParseError YPBankCsvFormat :=
  match split_csv_line line with
  | some data =>
    if data.length ≠ titleData.length then
      .error (.parse_err (str "Заголовок не совпадает со строкой: " ++ line) countLine 0)
    else
      csvNewFromMap (titleData.zip data)
  | none => .error (.parse_err (str "Ошибка чтения строки csv") countLine 0)

/-- `YPBankIO::read_executor for YPBankCsvFormat`: header check, then one
record per line. -/
def csvReadExecutor (buffer : Str) : Except ParseError (List YPBankCsvFormat) :=
  match rustLines buffer with
  | [] => .error (.parse_err (str "Ошибка парсинга заголовка csv") 0 0)
  | title_line :: rest =>
    if ¬ is_eq title_line make_title then
      .error (.parse_err (str "Некорректный заголовок csv: " ++ title_line) 0 0)
    else
      match split_csv_line title_line with
      | none => .error (.parse_err (str "Ошибка разбора csv-заголовка") 0 0)
      | some title_data =>
        collectExcept (rest.mapIdx (fun i line => parse_data_line title_data line (i + 1)))

/-- `YPBankIO::write_to for YPBankCsvFormat`: the header line then one
line per record (each `writeln!` appends a newline). Writing into a
memory buffer cannot fail. -/
def csvWriteTo (records : List YPBankCsvFormat) : Str :=
  (make_title ++ ['\n']) ++ records.flatMap (fun r => makeup_records r ++ ['\n'])

/-- The trait-default `YPBankIO::read_from` (`src/parser/src/traits.rs`):
byte-size ceiling check, delegate to the executor, reject an empty
result. -/
def csvReadFrom (buffer : Str) : Except ParseError (List YPBankCsvFormat) :=
  if strByteLen buffer > MAX_SIZE_CSV_TXT_BYTES then
    .error (.lim_exceed (strByteLen buffer) MAX_SIZE_CSV_TXT_BYTES)
  else do
    let transaction ← csvReadExecutor buffer
    if transaction.isEmpty then .error .emptyData else return transaction

/-! ## Text codec (`src/parser/src/format/text.rs`) -/

/-- Modelled from the spec: `escaped_quote` is called by
`YPBankTextFormat::makeup_records` but its definition is not under `src/`;
per the spec the description is written "quoted with doubled internal
quotes", and the outer quotes are supplied by the `Display`
implementation, so `escaped_quote` doubles each internal quote. -/
def escaped_quote (s : Str) : Str := escQuote s

/-- `Display for YPBankTextFormat`: eight `KEY: value` lines, each
newline-terminated, the description wrapped in quotes. -/
def textDisplay (r : YPBankTextFormat) : Str :=
  str "TX_ID: " ++ natToStr r.tx_id ++ ['\n'] ++
  str "TX_TYPE: " ++ r.tx_type.display ++ ['\n'] ++
  str "FROM_USER_ID: " ++ natToStr r.from_user_id ++ ['\n'] ++
  str "TO_USER_ID: " ++ natToStr r.to_user_id ++ ['\n'] ++
  str "AMOUNT: " ++ natToStr r.amount ++ ['\n'] ++
  str "TIMESTAMP: " ++ natToStr r.timestamp ++ ['\n'] ++
  str "STATUS: " ++ r.status.display ++ ['\n'] ++
  str "DESCRIPTION: " ++ '"' :: r.description ++ ['"', '\n']

/-- `YPBankTextFormat::make_title`: `# Record <tx_id mod 10^15> (<TYPE>)`. -/
def text_make_title (records : YPBankTextFormat) : Str :=
  str "# Record " ++ natToStr (records.tx_id % 1000000000000000) ++
  str " (" ++ records.tx_type.display ++ [')']

/-- `YPBankTextFormat::makeup_records`: the title line and the displayed
record with the description quote-escaped. -/
def text_makeup_records (records : YPBankTextFormat) : Str :=
  text_make_title records ++ ['\n'] ++
  textDisplay { records with description := escaped_quote records.description }

/-- `YPBankIO::write_to for YPBankTextFormat`: `writeln!` of each made-up
record (adding one more newline, which separates blocks). -/
def textWriteTo (records : List YPBankTextFormat) : Str :=
  records.flatMap (fun r => text_makeup_records r ++ ['\n'])

/-- The title-line regex `^#\s*Record\s+\d+\s*\((?P<tx_type>[^)]+)\)$` as a
deterministic matcher (its character classes are disjoint, so greedy
matching is deterministic); digits are modelled as ASCII digits. Returns
the captured type token. -/
def matchTitle (l : Str) : Option Str :=
  match l with
  | '#' :: rest =>
    let rest := rest.dropWhile rustIsWhitespace
    if rest.take 6 = str "Record" then
      let rest := rest.drop 6
      if (rest.takeWhile rustIsWhitespace).isEmpty then none
      else
        let rest := rest.dropWhile rustIsWhitespace
        if (rest.takeWhile isAsciiDigit).isEmpty then none
        else
          let rest := (rest.dropWhile isAsciiDigit).dropWhile rustIsWhitespace
          match rest with
          | c :: rest2 =>
            if c = '(' then
              let cap := rest2.takeWhile (fun x => x ≠ ')')
              if cap.isEmpty then none
              else
                match rest2.dropWhile (fun x => x ≠ ')') with
                | [d] => if d = ')' then some cap else none
                | _ => none
            else none
          | [] => none
    else none
  | _ => none

/-- `YPBankTextFormat::parse_title`. -/
def parse_title (line : Str) (count_line : Nat) : Except ParseError Str :=
  match matchTitle line with
  | some t => .ok t
  | none => .error (.parse_err (str "Некорректная строка заголовка: " ++ line) count_line 0)

/-- The field loop of `YPBankTextFormat::parse_block` over the block's
lines past the title, with the running key/value map. -/
def parseBlockLoop : List Str → Nat → Nat → List (Str × Str) →
    Except ParseError (List (Str × Str))
  | [], _, _, fields => .ok fields
  | line :: rest, firstLine, count, fields =>
    match split_into_key_value line with
    | some (key, value) =>
      if ¬ has_field_from_str key then
        .error (.parse_err (str "Некорректный ключ " ++ key ++ str " в строке: " ++ line)
          (firstLine + count) 0)
      else if (mapGet fields key).isSome then
        .error (.parse_err (str "Дублирование ключа: " ++ key ++ str " в строке: " ++ line)
          (firstLine + count) 0)
      else parseBlockLoop rest firstLine (count + 1) (fields ++ [(key, value)])
    | none =>
      .error (.parse_err (str "Неверный формат строки txt: " ++ line) (firstLine + count) 0)

/-- `YPBankTextFormat::parse_block`: parse the lines after the title into
a field map, then build the record. -/
def parse_block (block : List Str) (end_line : Nat) : Except ParseError YPBankTextFormat := do
  let firstLine := end_line - block.length
  let fields ← parseBlockLoop (block.drop 1) firstLine 1 []
  textNewFromMap fields

/-- One step of the `read_executor` line loop for the Text format: the
state is the current block buffer and the records parsed so far. -/
def textProcessLine (st : List Str × List YPBankTextFormat) (count : Nat) (line : Str) :
    Except ParseError (List Str × List YPBankTextFormat) :=
  if is_empty_line line then .ok st
  else
    match st.1.isEmpty, is_hash_marker line with
    | true, true => do
      let t ← parse_title line count
      .ok ([t], st.2)
    | false, true => do
      let block_data ← parse_block st.1 count
      let t ← parse_title line count
      .ok ([t], st.2 ++ [block_data])
    | false, false => .ok (st.1 ++ [line], st.2)
    | true, false =>
      .error (.parse_err (str "Некорректная строка: " ++ line) (count + 1) 0)

/-- `YPBankIO::read_executor for YPBankTextFormat`: segment the input into
title-led blocks and parse each. -/
def textReadExecutor (buffer : Str) : Except ParseError (List YPBankTextFormat) := do
  let lines := rustLines buffer
  let st ← lines.enum.foldlM (fun st p => textProcessLine st p.1 p.2) ([], [])
  if st.1.isEmpty then return st.2
  else do
    let block_data ← parse_block st.1 lines.length
    return st.2 ++ [block_data]

/-- The trait-default `YPBankIO::read_from` for the Text format. -/
def textReadFrom (buffer : Str) : Except ParseError (List YPBankTextFormat) :=
  if strByteLen buffer > MAX_SIZE_CSV_TXT_BYTES then
    .error (.lim_exceed (strByteLen buffer) MAX_SIZE_CSV_TXT_BYTES)
  else do
    let transaction ← textReadExecutor buffer
    if transaction.isEmpty then .error .emptyData else return transaction

/-! ## Binary codec (`src/parser/src/format/bin.rs`) -/

/-- The fixed 4-byte magic constant `MAGIC`. -/
def MAGIC : List Nat := [0x59, 0x50, 0x42, 0x4E]

/-- Big-endian bytes of a `u64` (`u64::to_be_bytes`). -/
def u64be (n : Nat) : List Nat :=
  [n / 2 ^ 56 % 256, n / 2 ^ 48 % 256, n / 2 ^ 40 % 256, n / 2 ^ 32 % 256,
   n / 2 ^ 24 % 256, n / 2 ^ 16 % 256, n / 2 ^ 8 % 256, n % 256]

/-- Big-endian bytes of a `u32` (`u32::to_be_bytes`). -/
def u32be (n : Nat) : List Nat :=
  [n / 2 ^ 24 % 256, n / 2 ^ 16 % 256, n / 2 ^ 8 % 256, n % 256]

/-- Big-endian bytes of an `i64` (`i64::to_be_bytes`): the two's-complement
64-bit pattern. -/
def i64be (a : Int) : List Nat := u64be (a.emod (2 ^ 64)).toNat

/-- Join strings with a string separator (for `{:?}` byte-array output). -/
def joinStr (sep : Str) : List Str → Str
  | [] => []
  | [x] => x
  | x :: y :: rest => x ++ sep ++ joinStr sep (y :: rest)

/-- Rust `{:?}` rendering of a byte array: `[b0, b1, ...]` in decimal. -/
def fmtBytes (l : List Nat) : Str :=
  '[' :: joinStr (str ", ") (l.map natToStr) ++ [']']

/-- `YPBankBinFormat::read_u8`. -/
def readU8 : List Nat → Except ParseError (Nat × List Nat)
  | b :: rest => .ok (b, rest)
  | [] => .error (.parse_bin_error (str "Не удалось прочитать u8"))

/-- `YPBankBinFormat::read_u32be`. -/
def readU32be : List Nat → Except ParseError (Nat × List Nat)
  | b0 :: b1 :: b2 :: b3 :: rest =>
    .ok (b0 * 2 ^ 24 + b1 * 2 ^ 16 + b2 * 2 ^ 8 + b3, rest)
  | _ => .error (.parse_bin_error (str "Не удалось прочитать u32 (Big Endian)"))

/-- `YPBankBinFormat::read_u64_be`. -/
def readU64be : List Nat → Except ParseError (Nat × List Nat)
  | b0 :: b1 :: b2 :: b3 :: b4 :: b5 :: b6 :: b7 :: rest =>
    .ok (b0 * 2 ^ 56 + b1 * 2 ^ 48 + b2 * 2 ^ 40 + b3 * 2 ^ 32 +
         b4 * 2 ^ 24 + b5 * 2 ^ 16 + b6 * 2 ^ 8 + b7, rest)
  | _ => .error (.parse_bin_error (str "Не удалось прочитать u64 (Big Endian)"))

/-- `YPBankBinFormat::read_i64_be`: the `u64` bit pattern reinterpreted as
two's-complement. -/
def readI64be : List Nat → Except ParseError (Int × List Nat)
  | b0 :: b1 :: b2 :: b3 :: b4 :: b5 :: b6 :: b7 :: rest =>
    let n : Nat := b0 * 2 ^ 56 + b1 * 2 ^ 48 + b2 * 2 ^ 40 + b3 * 2 ^ 32 +
             b4 * 2 ^ 24 + b5 * 2 ^ 16 + b6 * 2 ^ 8 + b7
    .ok (if n < 2 ^ 63 then (n : Int) else (n : Int) - 2 ^ 64, rest)
  | _ => .error (.parse_bin_error (str "Не удалось прочитать i64 (Big Endian)"))

/-- One step of strict UTF-8 decoding: the scalar value encoded at the
head of the byte list and the number of bytes it occupies, or `none` when
the head is not a valid encoding (bad continuation bytes, overlong forms,
surrogates and values above `U+10FFFF` are all rejected, as
`String::from_utf8` does). -/
def utf8DecodeOne (l : List Nat) : Option (Nat × Nat) :=
  match l.head? with
  | none => none
  | some b =>
    if b < 0x80 then some (b, 1)
    else if b < 0xC2 then none
    else if b < 0xE0 then
      match l[1]? with
      | some b1 =>
        if 0x80 ≤ b1 ∧ b1 < 0xC0 then some ((b - 0xC0) * 0x40 + (b1 - 0x80), 2) else none
      | none => none
    else if b < 0xF0 then
      match l[1]?, l[2]? with
      | some b1, some b2 =>
        if (0x80 ≤ b1 ∧ b1 < 0xC0) ∧ (0x80 ≤ b2 ∧ b2 < 0xC0) ∧
            (b = 0xE0 → 0xA0 ≤ b1) ∧ (b = 0xED → b1 < 0xA0) then
          some ((b - 0xE0) * 0x1000 + (b1 - 0x80) * 0x40 + (b2 - 0x80), 3)
        else none
      | _, _ => none
    else if b < 0xF5 then
      match l[1]?, l[2]?, l[3]? with
      | some b1, some b2, some b3 =>
        if (0x80 ≤ b1 ∧ b1 < 0xC0) ∧ (0x80 ≤ b2 ∧ b2 < 0xC0) ∧ (0x80 ≤ b3 ∧ b3 < 0xC0) ∧
            (b = 0xF0 → 0x90 ≤ b1) ∧ (b = 0xF4 → b1 < 0x90) then
          some ((b - 0xF0) * 0x40000 + (b1 - 0x80) * 0x1000 + (b2 - 0x80) * 0x40 + (b3 - 0x80), 4)
        else none
      | _, _, _ => none
    else none

theorem utf8DecodeOne_pos {l : List Nat} {v k : Nat}
    (h : utf8DecodeOne l = some (v, k)) : 1 ≤ k := by
  rw [utf8DecodeOne] at h
  repeat' split at h
  all_goals simp_all
  all_goals omega

/-- Strict UTF-8 decoding of a whole byte list (`String::from_utf8`). -/
def utf8Decode (l : List Nat) : Option Str :=
  if hne : l = [] then some []
  else
    match h : utf8DecodeOne l with
    | none => none
    | some (v, k) => (utf8Decode (l.drop k)).map (fun s => Char.ofNat v :: s)
termination_by l.length
decreasing_by
  have hk := utf8DecodeOne_pos h
  have hlen : (l.drop k).length = l.length - k := List.length_drop k l
  have hne0 : l.length ≠ 0 := fun h0 => hne (List.length_eq_zero.mp h0)
  omega

/-- `YPBankBinFormat::new_from_cursor`: decode one record body
field-by-field; returns the record and the unread remainder of the body
(extra bytes are ignored by the caller). -/
def new_from_cursor (cursor : List Nat) : Except ParseError (YPBankBinFormat × List Nat) := do
  let (tx_id, c) ← readU64be cursor
  let (tx_type_byte, c) ← readU8 c
  let tx_type ← match TxType.from_u8 tx_type_byte with
    | some t => Except.ok t
    | none => Except.error (.parse_bin_error (str "Некорректный TX_TYPE"))
  let (from_user_id, c) ← readU64be c
  let (to_user_id, c) ← readU64be c
  let (amount, c) ← readI64be c
  let (timestamp, c) ← readU64be c
  let (status_byte, c) ← readU8 c
  let status ← match TxStatus.from_u8 status_byte with
    | some st => Except.ok st
    | none => Except.error (.parse_bin_error (str "Некорректный TX_STATUS"))
  let (desc_len, c) ← readU32be c
  if 0 < desc_len then
    if c.length < desc_len then
      Except.error (.ioError (str "failed to fill whole buffer"))
    else
      match utf8Decode (c.take desc_len) with
      | some d =>
        Except.ok ({ tx_id, tx_type, from_user_id, to_user_id, amount, timestamp,
                     status, desc_len, description := some d }, c.drop desc_len)
      | none => Except.error (.parse_bin_error (str "Описание невалидная строка UTF-8"))
  else
    Except.ok ({ tx_id, tx_type, from_user_id, to_user_id, amount, timestamp,
                 status, desc_len, description := none }, c)

/-- `YPBankBinFormat::read_executor`: read the body length, check the
cumulative byte count against the ceiling (before touching the body),
read the body and decode it. Returns the record, the new cumulative
count and the unread remainder of the stream. -/
def binReadExecutor (reader : List Nat) (total_read_bytes : Nat) :
    Except ParseError (YPBankBinFormat × Nat × List Nat) :=
  match readU32be reader with
  | .error e => .error e
  | .ok (record_size, c) =>
    if total_read_bytes + (4 + record_size) < 2 ^ 64 then
      let current_bytes := total_read_bytes + (4 + record_size)
      match validate_exceed_max_bytes current_bytes MAX_SIZE_BIN_BYTES with
      | .error e => .error e
      | .ok _ =>
        if c.length < record_size then
          .error (.ioError (str "failed to fill whole buffer"))
        else
          match new_from_cursor (c.take record_size) with
          | .error e => .error e
          | .ok (record, _) => .ok (record, current_bytes, c.drop record_size)
    else .error (.parse_err (str "Превышен размер записи") 0 0)

theorem readU32be_rest_len {l : List Nat} {v : Nat} {c : List Nat}
    (h : readU32be l = .ok (v, c)) : c.length + 4 = l.length := by
  rcases l with _ | ⟨b0, _ | ⟨b1, _ | ⟨b2, _ | ⟨b3, rest'⟩⟩⟩⟩ <;>
    simp only [readU32be] at h
  · exact absurd h (by simp)
  · exact absurd h (by simp)
  · exact absurd h (by simp)
  · exact absurd h (by simp)
  · injection h with h'
    injection h' with _ h2
    rw [← h2]
    simp

theorem binReadExecutor_rest_len {reader : List Nat} {total : Nat}
    {record : YPBankBinFormat} {current : Nat} {rest : List Nat}
    (h : binReadExecutor reader total = .ok (record, current, rest)) :
    rest.length + 4 ≤ reader.length := by
  rw [binReadExecutor] at h
  match hr : readU32be reader with
  | .error e => rw [hr] at h; exact absurd h (by simp)
  | .ok (rs, c) =>
    rw [hr] at h
    have hc : c.length + 4 = reader.length := readU32be_rest_len hr
    simp only [] at h
    split at h
    · split at h
      · exact absurd h (by simp)
      · split at h
        · exact absurd h (by simp)
        · split at h
          · exact absurd h (by simp)
          · injection h with h'
            injection h' with _ h''
            injection h'' with _ h3
            rw [← h3]
            have hd : (c.drop rs).length = c.length - rs := List.length_drop rs c
            omega
    · exact absurd h (by simp)

/-- The frame loop of `YPBankBinFormat::read_from`: an end of stream with
fewer than four bytes left breaks out of the loop (the `UnexpectedEof`
arm), a wrong magic is a structural `ParseError`, otherwise one frame is
decoded and the loop continues. After a frame the source does
`total_read_bytes += record.1` (bin.rs line 63) where `record.1` is the
executor's `current_bytes = total_read_bytes + 4 + record_size` — already
cumulative — so the running total becomes `total + current`, doubling
(plus the frame's own bytes) at every frame rather than accumulating the
consumed byte count. -/
def binReadFromAux (input : List Nat) (total : Nat) (records : List YPBankBinFormat) :
    Except ParseError (List YPBankBinFormat) :=
  if input.length < 4 then .ok records
  else if input.take 4 ≠ MAGIC then
    .error (.parse_err
      (str "Некорректный идентификатор Magic: " ++ fmtBytes (input.take 4) ++
        str " (ожидается: " ++ fmtBytes MAGIC ++ [')']) 0 0)
  else
    match hE : binReadExecutor (input.drop 4) total with
    | .error e => .error e
    | .ok (record, current, rest) =>
      binReadFromAux rest (total + current) (records ++ [record])
termination_by input.length
decreasing_by
  have h1 := binReadExecutor_rest_len hE
  have h2 : (input.drop 4).length = input.length - 4 := List.length_drop 4 input
  omega

/-- `YPBankBinFormat::read_from`. -/
def binReadFrom (input : List Nat) : Except ParseError (List YPBankBinFormat) :=
  binReadFromAux input 0 []

/-- The body assembled by `YPBankBinFormat::write_to` for one record:
`from_user_id` is zeroed for a Deposit and `to_user_id` for a Withdrawal;
`desc_len` is recomputed from the description bytes and must fit `u32`. -/
def binWriteBody (record : YPBankBinFormat) : Except ParseError (List Nat) :=
  let desc_bytes := match record.description with
    | some desc => utf8Encode desc
    | none => []
  if desc_bytes.length < 2 ^ 32 then
    .ok (u64be record.tx_id ++ [record.tx_type.as_u8] ++
         u64be (match record.tx_type with | .deposit => 0 | _ => record.from_user_id) ++
         u64be (match record.tx_type with | .withdrawal => 0 | _ => record.to_user_id) ++
         i64be record.amount ++ u64be record.timestamp ++ [record.status.as_u8] ++
         u32be desc_bytes.length ++ desc_bytes)
  else .error (.over_flow_size (str "usize") (str "u32") (natToStr desc_bytes.length))

/-- One frame on the wire: `MAGIC`, the big-endian body length, the body. -/
def binFrame (body : List Nat) : List Nat := MAGIC ++ u32be body.length ++ body

/-- `YPBankBinFormat::write_to`: emit one frame per record. -/
def binWriteTo : List YPBankBinFormat → Except ParseError (List Nat)
  | [] => .ok []
  | r :: rest => do
    let body ← binWriteBody r
    let out ← binWriteTo rest
    return binFrame body ++ out

/-! ## Helper characterizations of the conversion layer -/

theorem csvToTransaction_ok {r : YPBankCsvFormat} (h : r.amount < 2 ^ 63) :
    csvToTransaction r = .ok
      { tx_id := r.tx_id, tx_type := r.tx_type,
        from_user_id := r.from_user_id, to_user_id := r.to_user_id,
        amount := if (r.tx_type = .transfer ∨ r.tx_type = .withdrawal) ∧ ((r.amount : Int) > 0)
          then -(r.amount : Int) else (r.amount : Int),
        timestamp := r.timestamp, status := r.status,
        description := some r.description } := by
  rw [csvToTransaction, if_pos h]

theorem textToTransaction_ok {r : YPBankTextFormat} (h : r.amount < 2 ^ 63) :
    textToTransaction r = .ok
      { tx_id := r.tx_id, tx_type := r.tx_type,
        from_user_id := r.from_user_id, to_user_id := r.to_user_id,
        amount := if (r.tx_type = .transfer ∨ r.tx_type = .withdrawal) ∧ ((r.amount : Int) > 0)
          then -(r.amount : Int) else (r.amount : Int),
        timestamp := r.timestamp, status := r.status,
        description := some r.description } := by
  rw [textToTransaction, if_pos h]

/-! ## Claim C2: sign normalization of the conversion layer -/

/-- C2: converting a per-format record of unsigned magnitude `m` (fitting
the signed 64-bit range) to canonical yields `+m` for a Deposit and `-m`
for a Transfer or Withdrawal; converting canonical back to a CSV or Text
record stores the absolute value `m` in the unsigned amount field. -/
theorem claim_C2 : ∀ m : Nat, m < 2 ^ 63 →
    (∀ r : YPBankCsvFormat, r.amount = m → ∃ t, csvToTransaction r = .ok t ∧
      (r.tx_type = .deposit → t.amount = (m : Int)) ∧
      ((r.tx_type = .transfer ∨ r.tx_type = .withdrawal) → t.amount = -(m : Int))) ∧
    (∀ r : YPBankTextFormat, r.amount = m → ∃ t, textToTransaction r = .ok t ∧
      (r.tx_type = .deposit → t.amount = (m : Int)) ∧
      ((r.tx_type = .transfer ∨ r.tx_type = .withdrawal) → t.amount = -(m : Int))) ∧
    (∀ t : YPBankTransaction, t.amount = (m : Int) ∨ t.amount = -(m : Int) →
      (∃ rc, transactionToCsv t = .ok rc ∧ rc.amount = m) ∧
      (∃ rt, transactionToText t = .ok rt ∧ rt.amount = m)) := by
  intro m hm
  refine ⟨?_, ?_, ?_⟩
  · intro r hr
    refine ⟨_, csvToTransaction_ok (by omega), ?_, ?_⟩
    · intro hty
      simp only [hty, hr]
      rw [if_neg (by simp)]
    · intro hty
      simp only [hr]
      by_cases hpos : ((m : Int) > 0)
      · rw [if_pos ⟨hty, hpos⟩]
      · rw [if_neg (fun hc => hpos hc.2)]
        omega
  · intro r hr
    refine ⟨_, textToTransaction_ok (by omega), ?_, ?_⟩
    · intro hty
      simp only [hty, hr]
      rw [if_neg (by simp)]
    · intro hty
      simp only [hr]
      by_cases hpos : ((m : Int) > 0)
      · rw [if_pos ⟨hty, hpos⟩]
      · rw [if_neg (fun hc => hpos hc.2)]
        omega
  · intro t ht
    refine ⟨⟨_, rfl, ?_⟩, ⟨_, rfl, ?_⟩⟩
    · show t.amount.natAbs = m
      omega
    · show t.amount.natAbs = m
      omega

/-- Witness for C2 at `m = 100`, Transfer. -/
theorem claim_C2_witness :
    ∃ t, csvToTransaction
      { tx_id := 1, tx_type := .transfer, from_user_id := 1, to_user_id := 2,
        amount := 100, timestamp := 0, status := .success, description := [] }
      = .ok t ∧ t.amount = -(100 : Int) := by
  obtain ⟨ha, _, _⟩ := claim_C2 100 (by norm_num)
  obtain ⟨t, h1, _, h3⟩ := ha
    { tx_id := 1, tx_type := .transfer, from_user_id := 1, to_user_id := 2,
      amount := 100, timestamp := 0, status := .success, description := [] } rfl
  exact ⟨t, h1, h3 (Or.inl rfl)⟩

/-! ## Claim C3: binary amounts through the conversion layer -/

/-- C3 counterexample: a binary record of type Transfer with stored amount
`+100` does *not* pass through unchanged — the conversion macro negates
it, contradicting the claim that the stored signed amount is passed
through unchanged for every binary record and transaction type. -/
theorem claim_C3_counterexample :
    (binToTransaction
      { tx_id := 1, tx_type := .transfer, from_user_id := 1, to_user_id := 2,
        amount := 100, timestamp := 0, status := .success,
        desc_len := 0, description := none }).map (fun t => t.amount)
      = .ok (-100 : Int) ∧ (100 : Int) ≠ (-100 : Int) := by
  constructor
  · rfl
  · decide

/-- C3 (amended): converting a binary record to canonical passes the
stored signed amount through unchanged when the amount is non-positive or
the type is Deposit; a positive amount with type Transfer or Withdrawal
is negated (an already-negative amount is never re-negated). -/
theorem claim_C3 : ∀ source : YPBankBinFormat, ∃ t, binToTransaction source = .ok t ∧
    (source.tx_type = .deposit → t.amount = source.amount) ∧
    (source.amount ≤ 0 → t.amount = source.amount) ∧
    ((source.tx_type = .transfer ∨ source.tx_type = .withdrawal) → 0 < source.amount →
      t.amount = -source.amount) := by
  intro source
  refine ⟨_, rfl, ?_, ?_, ?_⟩
  · intro hty
    show (if _ then _ else _) = source.amount
    rw [if_neg (by simp [hty])]
  · intro hle
    show (if _ then _ else _) = source.amount
    rw [if_neg (fun hc => by omega)]
  · intro hty hpos
    show (if _ then _ else _) = -source.amount
    rw [if_pos ⟨hty, hpos⟩]

/-- Witness for C3 at a concrete Withdrawal record with a negative stored
amount. -/
theorem claim_C3_witness :
    ∃ t, binToTransaction
      { tx_id := 5, tx_type := .withdrawal, from_user_id := 7, to_user_id := 0,
        amount := -25000, timestamp := 3, status := .failure,
        desc_len := 0, description := none } = .ok t ∧ t.amount = (-25000 : Int) := by
  obtain ⟨t, h1, _, h2, _⟩ := claim_C3
    { tx_id := 5, tx_type := .withdrawal, from_user_id := 7, to_user_id := 0,
      amount := -25000, timestamp := 3, status := .failure,
      desc_len := 0, description := none }
  exact ⟨t, h1, h2 (by norm_num)⟩

/-! ## Claim C10: description through the conversion layer -/

/-- C10: canonical-to-CSV/Text conversion always succeeds and maps a
`None` description to the empty string; CSV/Text-to-canonical always
wraps the description in `Some`; hence a canonical `None` description
returns as `Some ""` after a canonical → CSV → canonical round trip. -/
theorem claim_C10 :
    (∀ t : YPBankTransaction, ∃ rc, transactionToCsv t = .ok rc ∧
      rc.description = t.description.getD []) ∧
    (∀ t : YPBankTransaction, ∃ rt, transactionToText t = .ok rt ∧
      rt.description = t.description.getD []) ∧
    (∀ r u, csvToTransaction r = .ok u → u.description = some r.description) ∧
    (∀ r u, textToTransaction r = .ok u → u.description = some r.description) ∧
    (∀ t : YPBankTransaction, t.description = none → t.amount.natAbs < 2 ^ 63 →
      ∀ rc, transactionToCsv t = .ok rc →
        ∃ u, csvToTransaction rc = .ok u ∧ u.description = some []) := by
  refine ⟨fun t => ⟨_, rfl, rfl⟩, fun t => ⟨_, rfl, rfl⟩, ?_, ?_, ?_⟩
  · intro r u h
    rw [csvToTransaction] at h
    split at h
    · injection h with h'
      rw [← h']
    · exact absurd h (by simp)
  · intro r u h
    rw [textToTransaction] at h
    split at h
    · injection h with h'
      rw [← h']
    · exact absurd h (by simp)
  · intro t hdesc habs rc hrc
    rw [transactionToCsv] at hrc
    injection hrc with h'
    refine ⟨_, csvToTransaction_ok ?_, ?_⟩
    · rw [← h']
      exact habs
    · show some rc.description = some []
      rw [← h', hdesc]
      rfl

/-- Witness for C10 at a concrete transaction with a `None` description. -/
theorem claim_C10_witness :
    ∃ u, csvToTransaction
        { tx_id := 9, tx_type := .deposit, from_user_id := 0, to_user_id := 3,
          amount := 100000, timestamp := 1, status := .pending, description := [] }
        = .ok u ∧ u.description = some [] := by
  obtain ⟨_, _, _, _, h5⟩ := claim_C10
  exact h5
    { tx_id := 9, tx_type := .deposit, from_user_id := 0, to_user_id := 3,
      amount := 100000, timestamp := 1, status := .pending, description := none }
    rfl (by norm_num) _ rfl

/-! ## Byte-level lemmas for the binary codec -/

theorem readU8_cons (b : Nat) (rest : List Nat) : readU8 (b :: rest) = .ok (b, rest) := rfl

theorem readU32be_u32be {n : Nat} (h : n < 2 ^ 32) (rest : List Nat) :
    readU32be (u32be n ++ rest) = .ok (n, rest) := by
  simp only [u32be, List.cons_append, List.nil_append, readU32be]
  congr 2
  omega

theorem readU64be_u64be {n : Nat} (h : n < 2 ^ 64) (rest : List Nat) :
    readU64be (u64be n ++ rest) = .ok (n, rest) := by
  simp only [u64be, List.cons_append, List.nil_append, readU64be]
  congr 2
  omega

theorem readI64be_i64be {a : Int} (h1 : -(2 ^ 63) ≤ a) (h2 : a < 2 ^ 63) (rest : List Nat) :
    readI64be (i64be a ++ rest) = .ok (a, rest) := by
  have hmod : a.emod (2 ^ 64) = if 0 ≤ a then a else a + 2 ^ 64 := by
    split
    · exact Int.emod_eq_of_lt (by assumption) (by omega)
    · calc a.emod (2 ^ 64) = (a + 2 ^ 64).emod (2 ^ 64) := (Int.add_mul_emod_self_left a (2 ^ 64) 1).symm.trans (by rw [mul_one]; rfl)
        _ = a + 2 ^ 64 := Int.emod_eq_of_lt (by omega) (by omega)
  have hn : (a.emod (2 ^ 64)).toNat = if 0 ≤ a then a.toNat else (a + 2 ^ 64).toNat := by
    rw [hmod]
    split <;> rfl
  simp only [i64be, u64be, List.cons_append, List.nil_append, readI64be]
  congr 2
  generalize hx : (a.emod (2 ^ 64)).toNat = n at hn
  have hbound : n < 2 ^ 64 := by rw [hn]; split <;> omega
  have hval : n / 2 ^ 56 % 256 * 2 ^ 56 + n / 2 ^ 48 % 256 * 2 ^ 48 +
      n / 2 ^ 40 % 256 * 2 ^ 40 + n / 2 ^ 32 % 256 * 2 ^ 32 + n / 2 ^ 24 % 256 * 2 ^ 24 +
      n / 2 ^ 16 % 256 * 2 ^ 16 + n / 2 ^ 8 % 256 * 2 ^ 8 + n % 256 = n := by
    omega
  rw [hval, hn]
  split <;> split <;> omega

/-! ## UTF-8 round-trip lemmas -/

theorem char_valid_range (c : Char) :
    c.toNat < 0xD800 ∨ (0xDFFF < c.toNat ∧ c.toNat < 0x110000) := by
  have h := c.valid
  rw [UInt32.isValidChar] at h
  rcases h with h | ⟨hl, hr⟩
  · left
    exact_mod_cast h
  · right
    constructor <;> exact_mod_cast ‹_›

theorem utf8DecodeOne_encodeChar (c : Char) (rest : List Nat) :
    utf8DecodeOne (encodeChar c ++ rest) = some (c.toNat, (encodeChar c).length) := by
  have hval := char_valid_range c
  by_cases h1 : c.toNat < 0x80
  · simp only [encodeChar, if_pos h1, List.cons_append, List.nil_append, List.length_cons,
      List.length_nil]
    rw [utf8DecodeOne]
    simp only [List.head?_cons]
    rw [if_pos h1]
  · by_cases h2 : c.toNat < 0x800
    · simp only [encodeChar, if_neg h1, if_pos h2, List.cons_append, List.nil_append,
        List.length_cons, List.length_nil]
      rw [utf8DecodeOne]
      simp only [List.head?_cons, List.getElem?_cons_succ, List.getElem?_cons_zero]
      rw [if_neg (by omega : ¬ (0xC0 + c.toNat / 0x40 < 0x80)),
        if_neg (by omega : ¬ (0xC0 + c.toNat / 0x40 < 0xC2)),
        if_pos (by omega : 0xC0 + c.toNat / 0x40 < 0xE0),
        if_pos (by omega : 0x80 ≤ 0x80 + c.toNat % 0x40 ∧ 0x80 + c.toNat % 0x40 < 0xC0)]
      simp only [Option.some.injEq, Prod.mk.injEq, and_true]
      omega
    · by_cases h3 : c.toNat < 0x10000
      · have hsur : c.toNat < 0xD800 ∨ 0xDFFF < c.toNat := by tauto
        simp only [encodeChar, if_neg h1, if_neg h2, if_pos h3, List.cons_append,
          List.nil_append, List.length_cons, List.length_nil]
        rw [utf8DecodeOne]
        simp only [List.head?_cons, List.getElem?_cons_succ, List.getElem?_cons_zero]
        rw [if_neg (by omega : ¬ (0xE0 + c.toNat / 0x1000 < 0x80)),
          if_neg (by omega : ¬ (0xE0 + c.toNat / 0x1000 < 0xC2)),
          if_neg (by omega : ¬ (0xE0 + c.toNat / 0x1000 < 0xE0)),
          if_pos (by omega : 0xE0 + c.toNat / 0x1000 < 0xF0),
          if_pos (by omega :
            (0x80 ≤ 0x80 + c.toNat / 0x40 % 0x40 ∧ 0x80 + c.toNat / 0x40 % 0x40 < 0xC0) ∧
            (0x80 ≤ 0x80 + c.toNat % 0x40 ∧ 0x80 + c.toNat % 0x40 < 0xC0) ∧
            (0xE0 + c.toNat / 0x1000 = 0xE0 → 0xA0 ≤ 0x80 + c.toNat / 0x40 % 0x40) ∧
            (0xE0 + c.toNat / 0x1000 = 0xED → 0x80 + c.toNat / 0x40 % 0x40 < 0xA0))]
        simp only [Option.some.injEq, Prod.mk.injEq, and_true]
        omega
      · have h4 : c.toNat < 0x110000 := by omega
        simp only [encodeChar, if_neg h1, if_neg h2, if_neg h3, List.cons_append,
          List.nil_append, List.length_cons, List.length_nil]
        rw [utf8DecodeOne]
        simp only [List.head?_cons, List.getElem?_cons_succ, List.getElem?_cons_zero]
        rw [if_neg (by omega : ¬ (0xF0 + c.toNat / 0x40000 < 0x80)),
          if_neg (by omega : ¬ (0xF0 + c.toNat / 0x40000 < 0xC2)),
          if_neg (by omega : ¬ (0xF0 + c.toNat / 0x40000 < 0xE0)),
          if_neg (by omega : ¬ (0xF0 + c.toNat / 0x40000 < 0xF0)),
          if_pos (by omega : 0xF0 + c.toNat / 0x40000 < 0xF5),
          if_pos (by omega :
            (0x80 ≤ 0x80 + c.toNat / 0x1000 % 0x40 ∧ 0x80 + c.toNat / 0x1000 % 0x40 < 0xC0) ∧
            (0x80 ≤ 0x80 + c.toNat / 0x40 % 0x40 ∧ 0x80 + c.toNat / 0x40 % 0x40 < 0xC0) ∧
            (0x80 ≤ 0x80 + c.toNat % 0x40 ∧ 0x80 + c.toNat % 0x40 < 0xC0) ∧
            (0xF0 + c.toNat / 0x40000 = 0xF0 → 0x90 ≤ 0x80 + c.toNat / 0x1000 % 0x40) ∧
            (0xF0 + c.toNat / 0x40000 = 0xF4 → 0x80 + c.toNat / 0x1000 % 0x40 < 0x90))]
        simp only [Option.some.injEq, Prod.mk.injEq, and_true]
        omega

theorem encodeChar_ne_nil (c : Char) : encodeChar c ≠ [] := by
  rw [encodeChar]
  split
  · simp
  · split
    · simp
    · split <;> simp

theorem utf8Decode_encodeChar (c : Char) (rest : List Nat) :
    utf8Decode (encodeChar c ++ rest) = (utf8Decode rest).map (fun s => c :: s) := by
  have hne : encodeChar c ++ rest ≠ [] := by
    intro h
    exact encodeChar_ne_nil c (List.append_eq_nil.mp h).1
  rw [utf8Decode, dif_neg hne]
  split
  · rename_i heq
    rw [utf8DecodeOne_encodeChar] at heq
    exact absurd heq (by simp)
  · rename_i v k heq
    rw [utf8DecodeOne_encodeChar] at heq
    injection heq with heq'
    injection heq' with hv hk
    rw [← hv, ← hk, List.drop_left, Char.ofNat_toNat]

theorem utf8Decode_utf8Encode (s : Str) (rest : List Nat) :
    utf8Decode (utf8Encode s ++ rest) = (utf8Decode rest).map (fun t => s ++ t) := by
  induction s with
  | nil =>
    simp only [utf8Encode, List.flatMap_nil, List.nil_append]
    cases utf8Decode rest <;> rfl
  | cons c s' ih =>
    simp only [utf8Encode, List.flatMap_cons, List.append_assoc] at *
    rw [utf8Decode_encodeChar, ih]
    cases utf8Decode rest <;> rfl

theorem utf8Decode_nil : utf8Decode [] = some [] := by
  rw [utf8Decode]
  rfl

theorem utf8Decode_utf8Encode_nil (s : Str) : utf8Decode (utf8Encode s) = some s := by
  have h := utf8Decode_utf8Encode s []
  rw [List.append_nil, utf8Decode_nil] at h
  simpa using h

theorem encodeChar_length (c : Char) : (encodeChar c).length = utf8CharLen c := by
  rw [encodeChar, utf8CharLen]
  split
  · rfl
  · split
    · rfl
    · split <;> rfl

theorem utf8Encode_length (s : Str) : (utf8Encode s).length = strByteLen s := by
  induction s with
  | nil => rfl
  | cons c s' ih =>
    simp only [utf8Encode, List.flatMap_cons, List.length_append, strByteLen,
      List.map_cons, List.sum_cons] at *
    rw [ih, encodeChar_length]

theorem utf8Encode_eq_nil_iff (s : Str) : utf8Encode s = [] ↔ s = [] := by
  constructor
  · intro h
    cases s with
    | nil => rfl
    | cons c s' =>
      simp only [utf8Encode, List.flatMap_cons, List.append_eq_nil] at h
      exact absurd h.1 (encodeChar_ne_nil c)
  · intro h
    rw [h]
    rfl

/-! ## Decoding a written binary body -/

theorem txType_from_u8_as_u8 (t : TxType) : TxType.from_u8 t.as_u8 = some t := by
  cases t <;> rfl

theorem txStatus_from_u8_as_u8 (t : TxStatus) : TxStatus.from_u8 t.as_u8 = some t := by
  cases t <;> rfl

/-- Decoding a body laid out exactly as `write_to` builds it. -/
theorem new_from_cursor_spec (tx_id : Nat) (ty : TxType) (f g : Nat) (a : Int)
    (ts : Nat) (st : TxStatus) (desc : List Nat)
    (h1 : tx_id < 2 ^ 64) (h2 : f < 2 ^ 64) (h3 : g < 2 ^ 64) (h4 : ts < 2 ^ 64)
    (h5 : -(2 ^ 63) ≤ a) (h6 : a < 2 ^ 63) (hd : desc.length < 2 ^ 32) :
    new_from_cursor (u64be tx_id ++ [ty.as_u8] ++ u64be f ++ u64be g ++
        i64be a ++ u64be ts ++ [st.as_u8] ++ u32be desc.length ++ desc)
      = (if 0 < desc.length then
          (match utf8Decode desc with
          | some d =>
            Except.ok
              ({ tx_id := tx_id, tx_type := ty, from_user_id := f,
                 to_user_id := g, amount := a, timestamp := ts, status := st,
                 desc_len := desc.length, description := some d }, ([] : List Nat))
          | none => Except.error (.parse_bin_error (str "Описание невалидная строка UTF-8")))
        else
          Except.ok
            ({ tx_id := tx_id, tx_type := ty, from_user_id := f,
               to_user_id := g, amount := a, timestamp := ts, status := st,
               desc_len := desc.length, description := none }, desc)) := by
  simp only [new_from_cursor, List.append_assoc, List.singleton_append, List.cons_append,
    List.nil_append, readU64be_u64be h1, readU8_cons, txType_from_u8_as_u8, Bind.bind,
    Except.bind, readU64be_u64be h2, readU64be_u64be h3, readI64be_i64be h5 h6,
    readU64be_u64be h4, txStatus_from_u8_as_u8, readU32be_u32be hd]
  split
  · rw [if_neg (by omega : ¬ desc.length < desc.length), List.take_length, List.drop_length]
  · rfl

/-! ## Claim C4: binary user-id zeroing at write time only -/

/-- C4: in the serialized frame the `from_user_id` bytes decode to 0 for a
Deposit and the `to_user_id` bytes to 0 for a Withdrawal, all other
type/field combinations being written as stored; and the binary reader
returns the stored id bytes unchanged, without re-zeroing. -/
theorem claim_C4 :
    (∀ (r : YPBankBinFormat) (body : List Nat), binWriteBody r = .ok body →
      ((binFrame body).drop 17).take 8
          = u64be (if r.tx_type = .deposit then 0 else r.from_user_id) ∧
      ((binFrame body).drop 25).take 8
          = u64be (if r.tx_type = .withdrawal then 0 else r.to_user_id)) ∧
    (∀ (tx_id : Nat) (ty : TxType) (f g : Nat) (a : Int) (ts : Nat) (st : TxStatus),
      tx_id < 2 ^ 64 → f < 2 ^ 64 → g < 2 ^ 64 → ts < 2 ^ 64 →
      -(2 ^ 63) ≤ a → a < 2 ^ 63 →
      new_from_cursor (u64be tx_id ++ [ty.as_u8] ++ u64be f ++ u64be g ++
          i64be a ++ u64be ts ++ [st.as_u8] ++ u32be 0 ++ ([] : List Nat))
        = .ok ({ tx_id := tx_id, tx_type := ty, from_user_id := f, to_user_id := g,
                 amount := a, timestamp := ts, status := st, desc_len := 0,
                 description := none }, ([] : List Nat))) := by
  constructor
  · intro r body h
    rw [binWriteBody] at h
    split at h
    · injection h with h'
      subst h'
      constructor
      · cases r.tx_type <;>
          simp [binFrame, MAGIC, u64be, u32be, List.drop, List.take]
      · cases r.tx_type <;>
          simp [binFrame, MAGIC, u64be, u32be, List.drop, List.take]
    · exact absurd h (by simp)
  · intro tx_id ty f g a ts st h1 h2 h3 h4 h5 h6
    have hspec := new_from_cursor_spec tx_id ty f g a ts st [] h1 h2 h3 h4 h5 h6
      (by norm_num)
    simpa using hspec

/-- Witness for C4 at a concrete Deposit record with a non-zero
`from_user_id`, plus the reader at a Transfer body with non-zero ids. -/
theorem claim_C4_witness :
    (∀ body, binWriteBody
        { tx_id := 1, tx_type := .deposit, from_user_id := 9999, to_user_id := 1001,
          amount := 5, timestamp := 0, status := .success, desc_len := 0,
          description := none } = .ok body →
      ((binFrame body).drop 17).take 8 = u64be 0) ∧
    new_from_cursor (u64be 1 ++ [TxType.transfer.as_u8] ++ u64be 7 ++ u64be 8 ++
        i64be 5 ++ u64be 0 ++ [TxStatus.success.as_u8] ++ u32be 0 ++ ([] : List Nat))
      = .ok ({ tx_id := 1, tx_type := .transfer, from_user_id := 7, to_user_id := 8,
               amount := 5, timestamp := 0, status := .success, desc_len := 0,
               description := none }, ([] : List Nat)) := by
  constructor
  · intro body h
    have := (claim_C4.1
      { tx_id := 1, tx_type := .deposit, from_user_id := 9999, to_user_id := 1001,
        amount := 5, timestamp := 0, status := .success, desc_len := 0,
        description := none } body h).1
    simpa using this
  · exact claim_C4.2 1 .transfer 7 8 5 0 .success (by norm_num) (by norm_num)
      (by norm_num) (by norm_num) (by norm_num) (by norm_num)

/-! ## Claim C5: binary stream termination and magic checking -/

/-- C5 counterexample: a stream holding only a short (3-byte) truncated
magic is *not* a parse error — `read_exact` hits `UnexpectedEof`, which
the read loop treats as end of stream, returning the records collected so
far (here none). -/
theorem claim_C5_counterexample : binReadFrom [0x59, 0x50, 0x42] = .ok [] := by
  rw [binReadFrom, binReadFromAux]
  norm_num

/-- C5 (amended): binary reading terminates successfully with the records
collected so far whenever the stream ends at a frame boundary (in
particular an empty stream yields an empty list); a present 4-byte magic
differing from the fixed constant fails with a structural `ParseError`
(not a binary-decode error) whose message names the bad bytes; and a
short (1–3 byte) trailing magic fragment is treated as end of stream,
also returning the records collected so far. -/
theorem claim_C5 :
    (∀ (total : Nat) (acc : List YPBankBinFormat),
      binReadFromAux [] total acc = .ok acc) ∧
    (binReadFrom [] = .ok []) ∧
    (∀ (input : List Nat) (total : Nat) (acc : List YPBankBinFormat),
      4 ≤ input.length → input.take 4 ≠ MAGIC →
      binReadFromAux input total acc = .error (.parse_err
        (str "Некорректный идентификатор Magic: " ++ fmtBytes (input.take 4) ++
          str " (ожидается: " ++ fmtBytes MAGIC ++ [')']) 0 0)) ∧
    (∀ (input : List Nat) (total : Nat) (acc : List YPBankBinFormat),
      input.length < 4 → binReadFromAux input total acc = .ok acc) := by
  refine ⟨?_, ?_, ?_, ?_⟩
  · intro total acc
    rw [binReadFromAux]
    norm_num
  · rw [binReadFrom, binReadFromAux]
    norm_num
  · intro input total acc hlen hmagic
    rw [binReadFromAux, if_neg (by omega), if_pos hmagic]
  · intro input total acc hlen
    rw [binReadFromAux, if_pos hlen]

/-- Witness for C5 at a concrete garbled 4-byte magic. -/
theorem claim_C5_witness :
    binReadFromAux [0, 0, 0, 0] 0 [] = .error (.parse_err
      (str "Некорректный идентификатор Magic: " ++ fmtBytes [0, 0, 0, 0] ++
        str " (ожидается: " ++ fmtBytes MAGIC ++ [')']) 0 0) := by
  have h := claim_C5.2.2.1 [0, 0, 0, 0] 0 [] (by norm_num) (by decide)
  simpa using h

/-! ## Claim C7: CSV header validation -/

/-- C7 counterexample: a first line that differs from the fixed header
string by a leading space is accepted — the header comparison trims both
sides (`LineUtils::is_eq`), so "exactly equal" is not required. -/
theorem claim_C7_counterexample :
    csvReadExecutor
        (str " TX_ID,TX_TYPE,FROM_USER_ID,TO_USER_ID,AMOUNT,TIMESTAMP,STATUS,DESCRIPTION")
      = .ok [] ∧
    str " TX_ID,TX_TYPE,FROM_USER_ID,TO_USER_ID,AMOUNT,TIMESTAMP,STATUS,DESCRIPTION"
      ≠ make_title := by
  constructor
  · rfl
  · decide

/-- C7 (amended): CSV parsing fails with a parse error naming the
offending line whenever the first line does not equal the fixed header
string up to whitespace trimming on both sides (including any extra or
missing columns), and proceeds past the header check when it does
(a header-only input parses to an empty record list). -/
theorem claim_C7 :
    (∀ (buffer : Str) (fl : Str) (rest : List Str), rustLines buffer = fl :: rest →
      ¬ is_eq fl make_title →
      csvReadExecutor buffer
        = .error (.parse_err (str "Некорректный заголовок csv: " ++ fl) 0 0)) ∧
    csvReadExecutor make_title = .ok [] := by
  constructor
  · intro buffer fl rest hlines hne
    simp only [csvReadExecutor, hlines]
    rw [if_pos hne]
  · rfl

/-- Witness for C7 at a concrete wrong header line. -/
theorem claim_C7_witness :
    csvReadExecutor (str "WRONG_HEADER,WRONG_TYPE")
      = .error (.parse_err
          (str "Некорректный заголовок csv: " ++ str "WRONG_HEADER,WRONG_TYPE") 0 0) := by
  exact claim_C7.1 (str "WRONG_HEADER,WRONG_TYPE") (str "WRONG_HEADER,WRONG_TYPE") []
    (by rfl) (by decide)

/-! ## Claim C9: Text block key validation -/

theorem mapGet_append_isSome {m : List (Str × Str)} {k : Str}
    (h : (mapGet m k).isSome) (x : Str × Str) : (mapGet (m ++ [x]) k).isSome := by
  rw [mapGet, List.reverse_append] at *
  simp only [List.reverse_cons, List.reverse_nil, List.nil_append, List.cons_append,
    List.find?]
  split
  · simp
  · exact h

/-- Every error produced by the block field loop is a `ParseError` whose
line is `firstLine + count + i` for the `i`-th remaining line. -/
theorem parseBlockLoop_error_shape :
    ∀ (lines : List Str) (firstLine count : Nat) (fields : List (Str × Str))
      (e : ParseError), parseBlockLoop lines firstLine count fields = .error e →
      ∃ msg i, i < lines.length ∧ e = .parseError msg (firstLine + (count + i)) 0 := by
  intro lines
  induction lines with
  | nil =>
    intro firstLine count fields e h
    rw [parseBlockLoop] at h
    exact absurd h (by simp)
  | cons line rest ih =>
    intro firstLine count fields e h
    rw [parseBlockLoop] at h
    split at h
    · split at h
      · injection h with h'
        exact ⟨_, 0, by simp, by rw [← h']; rfl⟩
      · split at h
        · injection h with h'
          exact ⟨_, 0, by simp, by rw [← h']; rfl⟩
        · obtain ⟨msg, i, hi, he⟩ := ih _ _ _ _ h
          exact ⟨msg, i + 1, by simp; omega, by rw [he]; congr 2; omega⟩
    · injection h with h'
      exact ⟨_, 0, by simp, by rw [← h']; rfl⟩

/-- The loop never succeeds when some remaining line is malformed or has
an unrecognized key. -/
theorem parseBlockLoop_bad_line :
    ∀ (lines : List Str) (firstLine count : Nat) (fields : List (Str × Str)),
      (∃ l ∈ lines, split_into_key_value l = none ∨
        ∃ k v, split_into_key_value l = some (k, v) ∧ ¬ has_field_from_str k) →
      ∀ m, parseBlockLoop lines firstLine count fields ≠ .ok m := by
  intro lines
  induction lines with
  | nil =>
    intro _ _ _ hbad m
    obtain ⟨l, hl, _⟩ := hbad
    exact absurd hl (by simp)
  | cons line rest ih =>
    intro firstLine count fields hbad m h
    obtain ⟨l, hl, hcase⟩ := hbad
    rw [parseBlockLoop] at h
    rcases List.mem_cons.mp hl with rfl | hmem
    · rcases hcase with hnone | ⟨k, v, hkv, hnf⟩
      · rw [hnone] at h
        exact absurd h (by simp)
      · rw [hkv] at h
        simp only [] at h
        rw [if_pos hnf] at h
        exact absurd h (by simp)
    · split at h
      · split at h
        · exact absurd h (by simp)
        · split at h
          · exact absurd h (by simp)
          · exact ih _ _ _ ⟨l, hmem, hcase⟩ m h
      · exact absurd h (by simp)

theorem mapGet_append_self (fields : List (Str × Str)) (k v : Str) :
    (mapGet (fields ++ [(k, v)]) k).isSome := by
  rw [mapGet, List.reverse_append]
  simp [List.find?]

/-- The loop never succeeds when a remaining line carries a key already
present in the accumulated field map. -/
theorem parseBlockLoop_dup_key :
    ∀ (lines : List Str) (firstLine count : Nat) (fields : List (Str × Str)) (k : Str),
      (mapGet fields k).isSome →
      (∃ l ∈ lines, ∃ v, split_into_key_value l = some (k, v)) →
      ∀ m, parseBlockLoop lines firstLine count fields ≠ .ok m := by
  intro lines
  induction lines with
  | nil =>
    intro _ _ _ _ _ hmem m
    obtain ⟨l, hl, _⟩ := hmem
    exact absurd hl (by simp)
  | cons line rest ih =>
    intro firstLine count fields k hsome hmem m h
    obtain ⟨l, hl, v, hkv⟩ := hmem
    rw [parseBlockLoop] at h
    rcases List.mem_cons.mp hl with rfl | hmemr
    · rw [hkv] at h
      simp only [] at h
      by_cases hnf : has_field_from_str k
      · rw [if_neg (by simpa using hnf), if_pos (by simpa using hsome)] at h
        exact absurd h (by simp)
      · rw [if_pos (by simpa using hnf)] at h
        exact absurd h (by simp)
    · split at h
      · split at h
        · exact absurd h (by simp)
        · split at h
          · exact absurd h (by simp)
          · exact ih _ _ _ k (mapGet_append_isSome hsome _) ⟨l, hmemr, v, hkv⟩ m h
      · exact absurd h (by simp)

/-- The loop never succeeds on a line list containing two lines with the
same key. -/
theorem parseBlockLoop_two_keys :
    ∀ (xs : List Str) (l1 : Str) (rest : List Str) (firstLine count : Nat)
      (fields : List (Str × Str)) (k v1 : Str),
      split_into_key_value l1 = some (k, v1) →
      (∃ l ∈ rest, ∃ v, split_into_key_value l = some (k, v)) →
      ∀ m, parseBlockLoop (xs ++ l1 :: rest) firstLine count fields ≠ .ok m := by
  intro xs
  induction xs with
  | nil =>
    intro l1 rest firstLine count fields k v1 h1 hmem m h
    rw [List.nil_append, parseBlockLoop, h1] at h
    simp only [] at h
    by_cases hnf : has_field_from_str k
    · rw [if_neg (by simpa using hnf)] at h
      by_cases hdup : ((mapGet fields k).isSome : Prop)
      · rw [if_pos (by simpa using hdup)] at h
        exact absurd h (by simp)
      · rw [if_neg (by simpa using hdup)] at h
        exact parseBlockLoop_dup_key rest _ _ _ k (mapGet_append_self fields k v1) hmem m h
    · rw [if_pos (by simpa using hnf)] at h
      exact absurd h (by simp)
  | cons x xs' ih =>
    intro l1 rest firstLine count fields k v1 h1 hmem m h
    rw [List.cons_append, parseBlockLoop] at h
    split at h
    · split at h
      · exact absurd h (by simp)
      · split at h
        · exact absurd h (by simp)
        · exact ih _ _ _ _ _ k v1 h1 hmem m h
    · exact absurd h (by simp)

/-- C9: Text-block parsing fails with a parse error carrying a source
line number inside the block whenever a body line is not of the
`KEY: value` shape, has an unrecognized key, or repeats a key of another
body line. -/
theorem claim_C9 : ∀ (block : List Str) (end_line : Nat),
    ((∃ l ∈ block.drop 1, split_into_key_value l = none ∨
        ∃ k v, split_into_key_value l = some (k, v) ∧ ¬ has_field_from_str k) ∨
      (∃ xs l1 ys l2 zs k v1 v2, block.drop 1 = xs ++ l1 :: (ys ++ l2 :: zs) ∧
        split_into_key_value l1 = some (k, v1) ∧ split_into_key_value l2 = some (k, v2))) →
    ∃ msg idx, 1 ≤ idx ∧ idx ≤ (block.drop 1).length ∧
      parse_block block end_line
        = .error (.parseError msg (end_line - block.length + idx) 0) := by
  intro block end_line hbad
  have hnotok : ∀ m, parseBlockLoop (block.drop 1) (end_line - block.length) 1 [] ≠ .ok m := by
    rcases hbad with h | ⟨xs, l1, ys, l2, zs, k, v1, v2, hdec, h1, h2⟩
    · exact parseBlockLoop_bad_line _ _ _ _ h
    · rw [hdec]
      exact parseBlockLoop_two_keys xs l1 (ys ++ l2 :: zs) _ _ [] k v1 h1
        ⟨l2, by simp, v2, h2⟩
  cases hres : parseBlockLoop (block.drop 1) (end_line - block.length) 1 [] with
  | ok m => exact (hnotok m hres).elim
  | error e =>
    obtain ⟨msg, i, hi, he⟩ := parseBlockLoop_error_shape _ _ _ _ _ hres
    refine ⟨msg, 1 + i, by omega, by omega, ?_⟩
    simp only [parse_block, hres, Bind.bind, Except.bind]
    rw [he]

/-- Witness for C9: a block holding two `TX_ID:` lines fails to parse. -/
theorem claim_C9_witness :
    ∃ msg idx, 1 ≤ idx ∧ idx ≤ 2 ∧
      parse_block [str "TITLE", str "TX_ID: 1", str "TX_ID: 2"] 3
        = .error (.parseError msg idx 0) := by
  have h := claim_C9 [str "TITLE", str "TX_ID: 1", str "TX_ID: 2"] 3
    (Or.inr ⟨[], str "TX_ID: 1", [], str "TX_ID: 2", [], str "TX_ID",
      str "1", str "2", by rfl, by rfl, by rfl⟩)
  simpa using h

/-! ## Generic helpers for the round-trip proofs -/

/-- `convert_to_transaction` and the writer-side conversions are
`map` + `collect` in the source; `convertList` mirrors that. -/
def convertList (f : α → Except ParseError β) (l : List α) : Except ParseError (List β) :=
  collectExcept (l.map f)

theorem collectExcept_map_ok {f : α → Except ParseError β} {g : α → β} (l : List α)
    (h : ∀ x ∈ l, f x = .ok (g x)) : collectExcept (l.map f) = .ok (l.map g) := by
  induction l with
  | nil => rfl
  | cons x rest ih =>
    simp only [List.map_cons]
    rw [collectExcept, h x (by simp), ih (fun y hy => h y (by simp [hy]))]
    rfl

theorem convertList_ok {f : α → Except ParseError β} {g : α → β} {l : List α}
    (h : ∀ x ∈ l, f x = .ok (g x)) : convertList f l = .ok (l.map g) :=
  collectExcept_map_ok l h

/-- Characters of a rendered number are never special characters. -/
theorem natToStr_not_special {n : Nat} {c : Char} (hc : c ∈ natToStr n) :
    c ≠ ',' ∧ c ≠ '"' ∧ c ≠ '\n' ∧ c ≠ ':' ∧ rustIsWhitespace c = false ∧
    48 ≤ c.toNat ∧ c.toNat ≤ 57 := by
  have hall := natToStr_all_digits n
  rw [List.all_eq_true] at hall
  have hd := hall c hc
  rw [isAsciiDigit, decide_eq_true_eq] at hd
  refine ⟨?_, ?_, ?_, ?_, ?_, hd.1, hd.2⟩
  · intro h; rw [h] at hd; simp at hd
  · intro h; rw [h] at hd; simp at hd
  · intro h; rw [h] at hd; simp at hd
  · intro h; rw [h] at hd; simp at hd
  · rw [rustIsWhitespace]
    simp only [decide_eq_false_iff_not]
    intro hws
    rcases hws with h|h|h|h|h|h|h|h|h|⟨h1,h2⟩|h|h|h|h|h <;> omega

theorem trim_of_no_ws {s : Str} (h : ∀ c ∈ s, rustIsWhitespace c = false) :
    rustTrim s = s := by
  have hl : trimLeft s = s := by
    rw [trimLeft]
    apply List.dropWhile_eq_self_iff.mpr
    intro hne
    simp [h _ (List.getElem_mem hne)]
  have hr : s.reverse.dropWhile rustIsWhitespace = s.reverse := by
    apply List.dropWhile_eq_self_iff.mpr
    intro hne
    have hlen : s.length - 1 < s.length := by
      simp only [List.length_reverse] at hne
      omega
    simp [h _ (List.getElem_mem hlen)]
  rw [rustTrim, hl, trimRight, hr, List.reverse_reverse]

/-! ## `str::lines` on generated output -/

theorem stripCr_of_getLast {l : Str} {c : Char} (h : l.getLast? = some c)
    (hc : c ≠ '\r') : stripCr l = l := by
  rw [stripCr, if_neg]
  rw [h]
  simp [hc]

theorem linesAux_append_nl {l : Str} (hnl : '\n' ∉ l) (rest : Str) :
    ∀ acc, linesAux (l ++ '\n' :: rest) acc
      = stripCr (acc.reverse ++ l) :: linesAux rest [] := by
  induction l with
  | nil =>
    intro acc
    simp [linesAux]
  | cons c l' ih =>
    intro acc
    have hc : c ≠ '\n' := fun h => hnl (by simp [h])
    have hnl' : '\n' ∉ l' := fun h => hnl (by simp [h])
    simp only [List.cons_append, linesAux, if_neg hc, List.append_eq]
    rw [ih hnl' (c :: acc)]
    simp

theorem rustLines_append_nl {l : Str} (hnl : '\n' ∉ l) (rest : Str) :
    rustLines (l ++ '\n' :: rest) = stripCr l :: rustLines rest := by
  rw [rustLines, linesAux_append_nl hnl rest []]
  simp [rustLines]

theorem mem_escQuote {c : Char} {s : Str} (h : c ∈ escQuote s) : c = '"' ∨ c ∈ s := by
  rw [escQuote, List.mem_flatMap] at h
  obtain ⟨a, ha, hc⟩ := h
  by_cases hq : a = '"'
  · rw [if_pos hq] at hc
    simp only [List.mem_cons, List.not_mem_nil, or_false] at hc
    rcases hc with h | h <;> exact Or.inl h
  · rw [if_neg hq] at hc
    simp only [List.mem_singleton] at hc
    exact Or.inr (hc ▸ ha)

theorem mem_joinSep {c : Char} {sep : Char} :
    ∀ {l : List Str}, c ∈ joinSep sep l → c = sep ∨ ∃ x ∈ l, c ∈ x := by
  intro l
  induction l with
  | nil => intro h; exact absurd h (by simp [joinSep])
  | cons x rest ih =>
    intro h
    cases rest with
    | nil =>
      rw [joinSep] at h
      exact Or.inr ⟨x, by simp, h⟩
    | cons y rest' =>
      rw [joinSep] at h
      rw [List.mem_append] at h
      rcases h with h | h
      · exact Or.inr ⟨x, by simp, h⟩
      · rcases List.mem_cons.mp h with rfl | h'
        · exact Or.inl rfl
        · rcases ih h' with h'' | ⟨z, hz, hcz⟩
          · exact Or.inl h''
          · exact Or.inr ⟨z, by simp [hz], hcz⟩

theorem txType_display_no_nl (t : TxType) : '\n' ∉ t.display := by
  cases t <;> decide

theorem txStatus_display_no_nl (t : TxStatus) : '\n' ∉ t.display := by
  cases t <;> decide

theorem natToStr_no_nl (n : Nat) : '\n' ∉ natToStr n := by
  intro h
  have := (natToStr_not_special h).2.2.1
  exact this rfl

/-! ## CSV line split on generated output -/

theorem splitCsvAux_plain_run :
    ∀ (t rest buf : Str) (fields : List Str),
      (∀ c ∈ t, c ≠ '"' ∧ c ≠ ',') →
      splitCsvAux (t ++ rest) buf fields = splitCsvAux rest (buf ++ t) fields := by
  intro t
  induction t with
  | nil =>
    intro rest buf fields _
    simp
  | cons c t' ih =>
    intro rest buf fields h
    have hc := h c (by simp)
    rw [List.cons_append, splitCsvAux, if_neg hc.1, if_neg hc.2]
    rw [ih rest (buf ++ [c]) fields (fun x hx => h x (by simp [hx]))]
    simp

theorem csvQuotedLoop_esc {s : Str} (hs : ∀ c ∈ s, c ≠ '\t' ∧ c ≠ '\n') :
    ∀ buf, csvQuotedLoop (escQuote s ++ ['"']) buf = buf ++ s := by
  induction s with
  | nil =>
    intro buf
    simp only [escQuote, List.flatMap_nil, List.nil_append, List.append_nil]
    rw [csvQuotedLoop, if_pos rfl]
  | cons c s' ih =>
    intro buf
    by_cases hq : c = '"'
    · subst hq
      have hesc : escQuote ('"' :: s') = '"' :: '"' :: escQuote s' := by
        simp [escQuote]
      have hstep : csvQuotedLoop ('"' :: '"' :: (escQuote s' ++ ['"'])) buf
          = csvQuotedLoop (escQuote s' ++ ['"']) (buf ++ ['"']) := by
        rw [csvQuotedLoop.eq_def]
        simp
      rw [hesc, List.cons_append, List.cons_append, hstep,
        ih (fun x hx => hs x (by simp [hx])) (buf ++ ['"'])]
      simp
    · have hesc : escQuote (c :: s') = c :: escQuote s' := by
        simp [escQuote, if_neg hq]
      have hct := hs c (by simp)
      have hstep : csvQuotedLoop (c :: (escQuote s' ++ ['"'])) buf
          = csvQuotedLoop (escQuote s' ++ ['"']) (buf ++ [c]) := by
        rw [csvQuotedLoop.eq_def]
        simp only [if_neg hq, if_neg (by simp [hct.1, hct.2] : ¬ (c = '\t' ∨ c = '\n'))]
      rw [hesc, List.cons_append, hstep,
        ih (fun x hx => hs x (by simp [hx])) (buf ++ [c])]
      simp

theorem splitCsvAux_comma (rest buf : Str) (fields : List Str) :
    splitCsvAux (',' :: rest) buf fields = splitCsvAux rest [] (fields ++ [rustTrim buf]) := by
  rw [splitCsvAux.eq_def]
  simp

theorem splitCsvAux_quote (rest buf : Str) (fields : List Str)
    (hbuf : (rustTrim buf).isEmpty) :
    splitCsvAux ('"' :: rest) buf fields
      = some (fields ++ [rustTrim (csvQuotedLoop rest buf)]) := by
  rw [splitCsvAux.eq_def]
  simp [hbuf]

theorem splitCsvAux_token (t : Str) (ht : ∀ c ∈ t, c ≠ '"' ∧ c ≠ ',')
    (rest : Str) (fields : List Str) :
    splitCsvAux (t ++ ',' :: rest) [] fields
      = splitCsvAux rest [] (fields ++ [rustTrim t]) := by
  rw [splitCsvAux_plain_run t (',' :: rest) [] fields ht, List.nil_append,
    splitCsvAux_comma]

theorem natToStr_token (n : Nat) : ∀ c ∈ natToStr n, c ≠ '"' ∧ c ≠ ',' :=
  fun c hc => ⟨(natToStr_not_special hc).2.1, (natToStr_not_special hc).1⟩

theorem natToStr_trim (n : Nat) : rustTrim (natToStr n) = natToStr n :=
  trim_of_no_ws (fun c hc => (natToStr_not_special hc).2.2.2.2.1)

theorem txType_display_token (t : TxType) : ∀ c ∈ t.display, c ≠ '"' ∧ c ≠ ',' := by
  cases t <;> decide

theorem txStatus_display_token (t : TxStatus) : ∀ c ∈ t.display, c ≠ '"' ∧ c ≠ ',' := by
  cases t <;> decide

theorem txType_display_trim (t : TxType) : rustTrim t.display = t.display := by
  cases t <;> rfl

theorem txStatus_display_trim (t : TxStatus) : rustTrim t.display = t.display := by
  cases t <;> rfl

/-- Splitting a written CSV data line recovers the eight rendered fields. -/
theorem split_csv_line_makeup (r : YPBankCsvFormat)
    (htr : rustTrim r.description = r.description)
    (hnl : '\n' ∉ r.description) (hht : '\t' ∉ r.description) :
    split_csv_line (makeup_records r)
      = some [natToStr r.tx_id, r.tx_type.display, natToStr r.from_user_id,
              natToStr r.to_user_id, natToStr r.amount, natToStr r.timestamp,
              r.status.display, r.description] := by
  rw [split_csv_line, makeup_records]
  simp only [joinSep]
  rw [splitCsvAux_token _ (natToStr_token _),
    splitCsvAux_token _ (txType_display_token r.tx_type),
    splitCsvAux_token _ (natToStr_token _),
    splitCsvAux_token _ (natToStr_token _),
    splitCsvAux_token _ (natToStr_token _),
    splitCsvAux_token _ (natToStr_token _),
    splitCsvAux_token _ (txStatus_display_token r.status)]
  rw [List.cons_append, splitCsvAux_quote _ _ _ (by rfl)]
  rw [csvQuotedLoop_esc (fun c hc => ⟨fun h => hht (h ▸ hc), fun h => hnl (h ▸ hc)⟩) []]
  simp only [List.nil_append]
  rw [htr, natToStr_trim, natToStr_trim, natToStr_trim, natToStr_trim,
    natToStr_trim, txType_display_trim r.tx_type, txStatus_display_trim r.status]
  simp

theorem getFieldU64_some {m : List (Str × Str)} {k : Str} {n : Nat}
    (hm : mapGet m k = some (natToStr n)) (hn : n < 2 ^ 64) :
    getFieldU64 m k = .ok n := by
  rw [getFieldU64, hm]
  simp only [parseU64_natToStr hn]

theorem txType_fromStr_display (t : TxType) : TxType.fromStr t.display = some t := by
  cases t <;> rfl

theorem txStatus_fromStr_display (t : TxStatus) : TxStatus.fromStr t.display = some t := by
  cases t <;> rfl

theorem getFieldTxType_some {m : List (Str × Str)} {k : Str} {t : TxType}
    (hm : mapGet m k = some t.display) : getFieldTxType m k = .ok t := by
  rw [getFieldTxType, hm]
  simp only [txType_fromStr_display]

theorem getFieldTxStatus_some {m : List (Str × Str)} {k : Str} {t : TxStatus}
    (hm : mapGet m k = some t.display) : getFieldTxStatus m k = .ok t := by
  rw [getFieldTxStatus, hm]
  simp only [txStatus_fromStr_display]

theorem getFieldString_some {m : List (Str × Str)} {k : Str} {v : Str}
    (hm : mapGet m k = some v) : getFieldString m k = .ok v := by
  rw [getFieldString, hm]

/-- Rebuilding a CSV record from its own rendered field map. -/
theorem csvNewFromMap_makeup (r : YPBankCsvFormat)
    (h1 : r.tx_id < 2 ^ 64) (h2 : r.from_user_id < 2 ^ 64) (h3 : r.to_user_id < 2 ^ 64)
    (h4 : r.amount < 2 ^ 64) (h5 : r.timestamp < 2 ^ 64) :
    csvNewFromMap (csvFields.zip
      [natToStr r.tx_id, r.tx_type.display, natToStr r.from_user_id,
       natToStr r.to_user_id, natToStr r.amount, natToStr r.timestamp,
       r.status.display, r.description]) = .ok r := by
  have e1 : mapGet (csvFields.zip
      [natToStr r.tx_id, r.tx_type.display, natToStr r.from_user_id,
       natToStr r.to_user_id, natToStr r.amount, natToStr r.timestamp,
       r.status.display, r.description]) (str "TX_ID") = some (natToStr r.tx_id) := rfl
  have e2 : mapGet (csvFields.zip
      [natToStr r.tx_id, r.tx_type.display, natToStr r.from_user_id,
       natToStr r.to_user_id, natToStr r.amount, natToStr r.timestamp,
       r.status.display, r.description]) (str "TX_TYPE") = some r.tx_type.display := rfl
  have e3 : mapGet (csvFields.zip
      [natToStr r.tx_id, r.tx_type.display, natToStr r.from_user_id,
       natToStr r.to_user_id, natToStr r.amount, natToStr r.timestamp,
       r.status.display, r.description]) (str "FROM_USER_ID") = some (natToStr r.from_user_id) := rfl
  have e4 : mapGet (csvFields.zip
      [natToStr r.tx_id, r.tx_type.display, natToStr r.from_user_id,
       natToStr r.to_user_id, natToStr r.amount, natToStr r.timestamp,
       r.status.display, r.description]) (str "TO_USER_ID") = some (natToStr r.to_user_id) := rfl
  have e5 : mapGet (csvFields.zip
      [natToStr r.tx_id, r.tx_type.display, natToStr r.from_user_id,
       natToStr r.to_user_id, natToStr r.amount, natToStr r.timestamp,
       r.status.display, r.description]) (str "AMOUNT") = some (natToStr r.amount) := rfl
  have e6 : mapGet (csvFields.zip
      [natToStr r.tx_id, r.tx_type.display, natToStr r.from_user_id,
       natToStr r.to_user_id, natToStr r.amount, natToStr r.timestamp,
       r.status.display, r.description]) (str "TIMESTAMP") = some (natToStr r.timestamp) := rfl
  have e7 : mapGet (csvFields.zip
      [natToStr r.tx_id, r.tx_type.display, natToStr r.from_user_id,
       natToStr r.to_user_id, natToStr r.amount, natToStr r.timestamp,
       r.status.display, r.description]) (str "STATUS") = some r.status.display := rfl
  have e8 : mapGet (csvFields.zip
      [natToStr r.tx_id, r.tx_type.display, natToStr r.from_user_id,
       natToStr r.to_user_id, natToStr r.amount, natToStr r.timestamp,
       r.status.display, r.description]) (str "DESCRIPTION") = some r.description := rfl
  simp only [csvNewFromMap, getFieldU64_some e1 h1, getFieldTxType_some e2,
    getFieldU64_some e3 h2, getFieldU64_some e4 h3, getFieldU64_some e5 h4,
    getFieldU64_some e6 h5, getFieldTxStatus_some e7, getFieldString_some e8,
    Bind.bind, Except.bind]
  rfl

/-- Parsing one written CSV data line recovers the record. -/
theorem parse_data_line_makeup (r : YPBankCsvFormat) (count : Nat)
    (h1 : r.tx_id < 2 ^ 64) (h2 : r.from_user_id < 2 ^ 64) (h3 : r.to_user_id < 2 ^ 64)
    (h4 : r.amount < 2 ^ 64) (h5 : r.timestamp < 2 ^ 64)
    (htr : rustTrim r.description = r.description)
    (hnl : '\n' ∉ r.description) (hht : '\t' ∉ r.description) :
    parse_data_line csvFields (makeup_records r) count = .ok r := by
  rw [parse_data_line, split_csv_line_makeup r htr hnl hht]
  simp only []
  rw [if_neg (by simp [csvFields])]
  exact csvNewFromMap_makeup r h1 h2 h3 h4 h5

/-- Peeling one head off a nonempty list keeps `getLast?`. -/
theorem getLast?_cons_ne (a : Char) (l : List Char) (h : l ≠ []) :
    (a :: l).getLast? = l.getLast? := by
  rw [show a :: l = [a] ++ l from rfl, List.getLast?_append_of_ne_nil _ h]

/-- The last character of a written CSV data line is the closing quote. -/
theorem makeup_records_getLast (r : YPBankCsvFormat) :
    (makeup_records r).getLast? = some '"' := by
  rw [makeup_records]
  simp only [joinSep]
  rw [List.getLast?_append_of_ne_nil _ (by simp), getLast?_cons_ne _ _ (by simp),
    List.getLast?_append_of_ne_nil _ (by simp), getLast?_cons_ne _ _ (by simp),
    List.getLast?_append_of_ne_nil _ (by simp), getLast?_cons_ne _ _ (by simp),
    List.getLast?_append_of_ne_nil _ (by simp), getLast?_cons_ne _ _ (by simp),
    List.getLast?_append_of_ne_nil _ (by simp), getLast?_cons_ne _ _ (by simp),
    List.getLast?_append_of_ne_nil _ (by simp), getLast?_cons_ne _ _ (by simp),
    List.getLast?_append_of_ne_nil _ (by simp), getLast?_cons_ne _ _ (by simp),
    List.getLast?_concat]

/-- A written CSV data line contains no newline when the description does
not. -/
theorem makeup_records_no_nl (r : YPBankCsvFormat) (hnl : '\n' ∉ r.description) :
    '\n' ∉ makeup_records r := by
  intro hmem
  rw [makeup_records] at hmem
  rcases mem_joinSep hmem with h | ⟨x, hx, hcx⟩
  · simp at h
  · simp only [List.mem_cons, List.not_mem_nil, or_false] at hx
    rcases hx with rfl | rfl | rfl | rfl | rfl | rfl | rfl | rfl
    · exact natToStr_no_nl _ hcx
    · exact txType_display_no_nl r.tx_type hcx
    · exact natToStr_no_nl _ hcx
    · exact natToStr_no_nl _ hcx
    · exact natToStr_no_nl _ hcx
    · exact natToStr_no_nl _ hcx
    · exact txStatus_display_no_nl r.status hcx
    · rcases List.mem_cons.mp hcx with h | h
      · exact absurd h (by decide)
      · simp only [List.append_eq, List.mem_append, List.mem_singleton] at h
        rcases h with h | h
        · rcases mem_escQuote h with heq | h'
          · exact absurd heq (by decide)
          · exact hnl h'
        · exact absurd h (by decide)

/-- `str::lines` of the concatenated written CSV data lines. -/
theorem rustLines_csv_body (rs : List YPBankCsvFormat)
    (h : ∀ r ∈ rs, '\n' ∉ r.description) :
    rustLines (rs.flatMap (fun r => makeup_records r ++ ['\n'])) = rs.map makeup_records := by
  induction rs with
  | nil => rfl
  | cons r rest ih =>
    rw [List.flatMap_cons, List.append_assoc, List.singleton_append,
      rustLines_append_nl (makeup_records_no_nl r (h r (by simp))),
      stripCr_of_getLast (makeup_records_getLast r) (by decide),
      ih (fun x hx => h x (by simp [hx])), List.map_cons]

/-- Per-record side conditions under which the CSV codec round-trips: the
numeric fields fit `u64` and the description survives the field trimming
and the line/field splitting of the reader. -/
def CsvRecOk (r : YPBankCsvFormat) : Prop :=
  r.tx_id < 2 ^ 64 ∧ r.from_user_id < 2 ^ 64 ∧ r.to_user_id < 2 ^ 64 ∧
  r.amount < 2 ^ 64 ∧ r.timestamp < 2 ^ 64 ∧
  rustTrim r.description = r.description ∧ '\n' ∉ r.description ∧ '\t' ∉ r.description

/-- Collecting the indexed parses of the written data lines yields the
records back, whatever the starting index. -/
theorem collectExcept_parse_csv (rs : List YPBankCsvFormat) (n : Nat)
    (h : ∀ r ∈ rs, CsvRecOk r) :
    collectExcept (((rs.map makeup_records).enumFrom n).map
      (fun p => parse_data_line csvFields p.2 (p.1 + 1))) = .ok rs := by
  induction rs generalizing n with
  | nil => rfl
  | cons r rest ih =>
    obtain ⟨h1, h2, h3, h4, h5, htr, hnl, hht⟩ := h r (by simp)
    simp only [List.map_cons, List.enumFrom_cons]
    rw [collectExcept, parse_data_line_makeup r (n + 1) h1 h2 h3 h4 h5 htr hnl hht,
      ih (n + 1) (fun x hx => h x (by simp [hx]))]
    rfl

/-- The CSV reader parses the CSV writer's output back to the same record
list. -/
theorem csvReadExecutor_csvWriteTo (rs : List YPBankCsvFormat)
    (h : ∀ r ∈ rs, CsvRecOk r) :
    csvReadExecutor (csvWriteTo rs) = .ok rs := by
  have hlines : rustLines (csvWriteTo rs) = make_title :: rs.map makeup_records := by
    rw [csvWriteTo, List.append_assoc, List.singleton_append,
      rustLines_append_nl (by decide),
      rustLines_csv_body rs (fun r hr => (h r hr).2.2.2.2.2.2.1)]
    rw [show stripCr make_title = make_title from by decide]
  rw [csvReadExecutor, hlines]
  simp only []
  rw [if_neg (by decide)]
  rw [show split_csv_line make_title = some csvFields from by decide]
  simp only []
  rw [List.mapIdx_eq_enum_map, List.enum]
  have := collectExcept_parse_csv rs 0 h
  simp only [] at this ⊢
  convert this using 2


/-! ## Text round-trip machinery -/

/-- `replaceQQ` on a non-quote head just keeps it. -/
theorem replaceQQ_cons_ne {c : Char} (hc : ¬ c = '"') (rest : Str) :
    replaceQQ (c :: rest) = c :: replaceQQ rest := by
  rw [replaceQQ.eq_def]
  simp only []
  rw [if_neg hc]

/-- `replaceQQ` undoubles a leading doubled quote. -/
theorem replaceQQ_qq (rest : Str) :
    replaceQQ ('"' :: '"' :: rest) = '"' :: replaceQQ rest := by
  rw [replaceQQ.eq_def]
  simp only []
  simp only [if_true]

/-- `replace("\"\"","\"")` is the identity on quote-free strings. -/
theorem replaceQQ_no_quote {s : Str} (h : '"' ∉ s) : replaceQQ s = s := by
  induction s with
  | nil => rfl
  | cons c rest ih =>
    simp only [List.mem_cons, not_or] at h
    rw [replaceQQ_cons_ne (fun he => h.1 he.symm) rest, ih h.2]

/-- Undoubling quotes inverts the write-side quote doubling. -/
theorem replaceQQ_escQuote (s : Str) : replaceQQ (escQuote s) = s := by
  induction s with
  | nil => rfl
  | cons c rest ih =>
    rw [escQuote, List.flatMap_cons]
    by_cases hc : c = '"'
    · subst hc
      rw [if_pos rfl]
      show replaceQQ ('"' :: '"' :: escQuote rest) = _
      rw [replaceQQ_qq, ih]
    · rw [if_neg hc]
      show replaceQQ (c :: escQuote rest) = _
      rw [replaceQQ_cons_ne hc, ih]

/-- `split_once(':')` on a key with no colon followed by `':'`. -/
theorem splitOnceColon_append (k v : Str) (hk : ':' ∉ k) :
    splitOnceColon (k ++ ':' :: v) = some (k, v) := by
  induction k with
  | nil => rfl
  | cons c rest ih =>
    simp only [List.mem_cons, not_or] at hk
    rw [List.cons_append, splitOnceColon, if_neg (fun h => hk.1 h.symm), ih hk.2]
    rfl

/-- Trimming ignores a leading whitespace character. -/
theorem rustTrim_cons_ws {c : Char} (hc : rustIsWhitespace c = true) (s : Str) :
    rustTrim (c :: s) = rustTrim s := by
  rw [rustTrim, rustTrim, trimLeft, trimLeft, List.dropWhile_cons, if_pos hc]

/-- A string whose first and last characters are not whitespace is its own
trim. -/
theorem trim_of_ends {s : Str} {a b : Char} (h1 : s.head? = some a)
    (ha : rustIsWhitespace a = false) (h2 : s.getLast? = some b)
    (hb : rustIsWhitespace b = false) : rustTrim s = s := by
  cases s with
  | nil => simp at h1
  | cons c t =>
    have hca : c = a := by simpa using h1
    obtain ⟨x, y, hr⟩ : ∃ x y, (c :: t).reverse = x :: y := by
      cases hrr : (c :: t).reverse with
      | nil => simp at hrr
      | cons x y => exact ⟨x, y, rfl⟩
    have hxb : x = b := by
      have hh : (c :: t).getLast? = some x := by
        rw [List.getLast?_eq_head?_reverse, hr, List.head?_cons]
      rw [h2] at hh
      exact (Option.some_inj.mp hh).symm
    rw [rustTrim, trimLeft, List.dropWhile_cons, if_neg (by simp [hca, ha]), trimRight, hr,
      List.dropWhile_cons, if_neg (by simp [hxb, hb]), ← hr, List.reverse_reverse]

/-- `split_into_key_value` on a generated `KEY: value` line with an
unquoted, quote-free, trim-stable value. -/
theorem split_into_key_value_plain (k v : Str) (hk : ':' ∉ k)
    (hk2 : ¬ (strUpper (rustTrim k)).isEmpty)
    (hv : rustTrim v = v) (hvne : ¬ v.isEmpty) (hvq : '"' ∉ v) :
    split_into_key_value (k ++ ':' :: ' ' :: v) = some (strUpper (rustTrim k), v) := by
  rw [split_into_key_value, splitOnceColon_append k (' ' :: v) hk]
  show (if (strUpper (rustTrim k)).isEmpty = true ∨ (rustTrim (' ' :: v)).isEmpty = true
      then none else some (strUpper (rustTrim k), clean_quote (rustTrim (' ' :: v))))
    = some (strUpper (rustTrim k), v)
  rw [rustTrim_cons_ws (by decide) v, hv, if_neg (by simp [hk2, hvne]), clean_quote]
  show some (strUpper (rustTrim k),
      replaceQQ (if v.head? = some '"' ∧ v.getLast? = some '"' ∧ 2 ≤ v.length
        then v.dropLast.tail else v))
    = some (strUpper (rustTrim k), v)
  have hhead : ¬ (v.head? = some '"' ∧ v.getLast? = some '"' ∧ 2 ≤ v.length) := by
    rintro ⟨hh, -, -⟩
    cases v with
    | nil => simp at hh
    | cons c t =>
      simp only [List.head?_cons, Option.some.injEq] at hh
      exact hvq (by simp [hh])
  rw [if_neg hhead, replaceQQ_no_quote hvq]

/-- `split_into_key_value` on the generated description line: the outer
quotes are stripped and the doubled quotes undone. -/
theorem split_into_key_value_quoted (k d : Str) (hk : ':' ∉ k)
    (hk2 : ¬ (strUpper (rustTrim k)).isEmpty) :
    split_into_key_value (k ++ ':' :: ' ' :: '"' :: (escQuote d ++ ['"']))
      = some (strUpper (rustTrim k), d) := by
  rw [split_into_key_value, splitOnceColon_append k _ hk]
  show (if (strUpper (rustTrim k)).isEmpty = true
        ∨ (rustTrim (' ' :: '"' :: (escQuote d ++ ['"']))).isEmpty = true
      then none
      else some (strUpper (rustTrim k), clean_quote (rustTrim (' ' :: '"' :: (escQuote d ++ ['"'])))))
    = some (strUpper (rustTrim k), d)
  have hlast : ('"' :: (escQuote d ++ ['"'])).getLast? = some '"' := by
    rw [getLast?_cons_ne _ _ (by simp), List.getLast?_append_of_ne_nil _ (by simp)]
    rfl
  rw [rustTrim_cons_ws (by decide),
    trim_of_ends (List.head?_cons) (by decide) hlast (by decide),
    if_neg (by simp [hk2]), clean_quote]
  show some (strUpper (rustTrim k),
      replaceQQ (if ('"' :: (escQuote d ++ ['"'])).head? = some '"'
          ∧ ('"' :: (escQuote d ++ ['"'])).getLast? = some '"'
          ∧ 2 ≤ ('"' :: (escQuote d ++ ['"'])).length
        then ('"' :: (escQuote d ++ ['"'])).dropLast.tail
        else '"' :: (escQuote d ++ ['"'])))
    = some (strUpper (rustTrim k), d)
  rw [if_pos ⟨List.head?_cons, hlast, by simp⟩]
  rw [show ('"' :: (escQuote d ++ ['"'])).dropLast.tail = escQuote d from ?_,
    replaceQQ_escQuote]
  rw [show ('"' :: (escQuote d ++ ['"'])) = ('"' :: escQuote d) ++ ['"'] from by simp,
    List.dropLast_concat, List.tail_cons]

/-- One successful step of the `parse_block` field loop. -/
theorem parseBlockLoop_cons_ok {line key value : Str}
    (he : split_into_key_value line = some (key, value))
    (hf : has_field_from_str key = true)
    (rest : List Str) (firstLine count : Nat) (fields : List (Str × Str))
    (hdup : (mapGet fields key).isSome = false) :
    parseBlockLoop (line :: rest) firstLine count fields
      = parseBlockLoop rest firstLine (count + 1) (fields ++ [(key, value)]) := by
  rw [parseBlockLoop, he]
  show (if ¬ has_field_from_str key = true then _
    else if (mapGet fields key).isSome = true then _
    else parseBlockLoop rest firstLine (count + 1) (fields ++ [(key, value)])) = _
  rw [if_neg (by simp [hf]), if_neg (by simp [hdup])]

/-- The `parse_block` field loop over the eight generated `KEY: value`
lines builds exactly the written field map. -/
theorem parseBlockLoop_makeup (r : YPBankTextFormat) (firstLine : Nat) :
    parseBlockLoop
      [str "TX_ID: " ++ natToStr r.tx_id,
       str "TX_TYPE: " ++ r.tx_type.display,
       str "FROM_USER_ID: " ++ natToStr r.from_user_id,
       str "TO_USER_ID: " ++ natToStr r.to_user_id,
       str "AMOUNT: " ++ natToStr r.amount,
       str "TIMESTAMP: " ++ natToStr r.timestamp,
       str "STATUS: " ++ r.status.display,
       str "DESCRIPTION: " ++ '"' :: (escQuote r.description ++ ['"'])]
      firstLine 1 []
    = .ok (csvFields.zip
        [natToStr r.tx_id, r.tx_type.display, natToStr r.from_user_id,
         natToStr r.to_user_id, natToStr r.amount, natToStr r.timestamp,
         r.status.display, r.description]) := by
  have hnum : ∀ (k : String) (n : Nat), ':' ∉ (str k) →
      ¬ (strUpper (rustTrim (str k))).isEmpty = true →
      split_into_key_value (str k ++ ':' :: ' ' :: natToStr n)
        = some (strUpper (rustTrim (str k)), natToStr n) := by
    intro k n hk hk2
    exact split_into_key_value_plain _ _ hk hk2 (natToStr_trim n)
      (by simp [natToStr_ne_nil]) (fun hq => (natToStr_token n '"' hq).1 rfl)
  have e1 : split_into_key_value (str "TX_ID: " ++ natToStr r.tx_id)
      = some (str "TX_ID", natToStr r.tx_id) := by
    have := hnum "TX_ID" r.tx_id (by decide) (by decide)
    rw [show strUpper (rustTrim (str "TX_ID")) = str "TX_ID" from by decide] at this
    exact this
  have e3 : split_into_key_value (str "FROM_USER_ID: " ++ natToStr r.from_user_id)
      = some (str "FROM_USER_ID", natToStr r.from_user_id) := by
    have := hnum "FROM_USER_ID" r.from_user_id (by decide) (by decide)
    rw [show strUpper (rustTrim (str "FROM_USER_ID")) = str "FROM_USER_ID" from by decide] at this
    exact this
  have e4 : split_into_key_value (str "TO_USER_ID: " ++ natToStr r.to_user_id)
      = some (str "TO_USER_ID", natToStr r.to_user_id) := by
    have := hnum "TO_USER_ID" r.to_user_id (by decide) (by decide)
    rw [show strUpper (rustTrim (str "TO_USER_ID")) = str "TO_USER_ID" from by decide] at this
    exact this
  have e5 : split_into_key_value (str "AMOUNT: " ++ natToStr r.amount)
      = some (str "AMOUNT", natToStr r.amount) := by
    have := hnum "AMOUNT" r.amount (by decide) (by decide)
    rw [show strUpper (rustTrim (str "AMOUNT")) = str "AMOUNT" from by decide] at this
    exact this
  have e6 : split_into_key_value (str "TIMESTAMP: " ++ natToStr r.timestamp)
      = some (str "TIMESTAMP", natToStr r.timestamp) := by
    have := hnum "TIMESTAMP" r.timestamp (by decide) (by decide)
    rw [show strUpper (rustTrim (str "TIMESTAMP")) = str "TIMESTAMP" from by decide] at this
    exact this
  have e2 : split_into_key_value (str "TX_TYPE: " ++ r.tx_type.display)
      = some (str "TX_TYPE", r.tx_type.display) := by
    have := split_into_key_value_plain (str "TX_TYPE") r.tx_type.display (by decide) (by decide)
      (txType_display_trim r.tx_type) (by cases r.tx_type <;> decide)
      (fun hq => (txType_display_token r.tx_type '"' hq).1 rfl)
    rw [show strUpper (rustTrim (str "TX_TYPE")) = str "TX_TYPE" from by decide] at this
    exact this
  have e7 : split_into_key_value (str "STATUS: " ++ r.status.display)
      = some (str "STATUS", r.status.display) := by
    have := split_into_key_value_plain (str "STATUS") r.status.display (by decide) (by decide)
      (txStatus_display_trim r.status) (by cases r.status <;> decide)
      (fun hq => (txStatus_display_token r.status '"' hq).1 rfl)
    rw [show strUpper (rustTrim (str "STATUS")) = str "STATUS" from by decide] at this
    exact this
  have e8 : split_into_key_value
        (str "DESCRIPTION: " ++ '"' :: (escQuote r.description ++ ['"']))
      = some (str "DESCRIPTION", r.description) := by
    have := split_into_key_value_quoted (str "DESCRIPTION") r.description (by decide) (by decide)
    rw [show strUpper (rustTrim (str "DESCRIPTION")) = str "DESCRIPTION" from by decide] at this
    exact this
  rw [parseBlockLoop_cons_ok e1 (by decide) _ _ _ _ (by rfl),
    parseBlockLoop_cons_ok e2 (by decide) _ _ _ _ (by rfl),
    parseBlockLoop_cons_ok e3 (by decide) _ _ _ _ (by rfl),
    parseBlockLoop_cons_ok e4 (by decide) _ _ _ _ (by rfl),
    parseBlockLoop_cons_ok e5 (by decide) _ _ _ _ (by rfl),
    parseBlockLoop_cons_ok e6 (by decide) _ _ _ _ (by rfl),
    parseBlockLoop_cons_ok e7 (by decide) _ _ _ _ (by rfl),
    parseBlockLoop_cons_ok e8 (by decide) _ _ _ _ (by rfl),
    parseBlockLoop]
  rfl

/-- `textNewFromMap` on the written field map rebuilds the record. -/
theorem textNewFromMap_makeup (r : YPBankTextFormat)
    (h1 : r.tx_id < 2 ^ 64) (h2 : r.from_user_id < 2 ^ 64) (h3 : r.to_user_id < 2 ^ 64)
    (h4 : r.amount < 2 ^ 64) (h5 : r.timestamp < 2 ^ 64) :
    textNewFromMap (csvFields.zip
      [natToStr r.tx_id, r.tx_type.display, natToStr r.from_user_id,
       natToStr r.to_user_id, natToStr r.amount, natToStr r.timestamp,
       r.status.display, r.description]) = .ok r := by
  have e1 : mapGet (csvFields.zip
      [natToStr r.tx_id, r.tx_type.display, natToStr r.from_user_id,
       natToStr r.to_user_id, natToStr r.amount, natToStr r.timestamp,
       r.status.display, r.description]) (str "TX_ID") = some (natToStr r.tx_id) := rfl
  have e2 : mapGet (csvFields.zip
      [natToStr r.tx_id, r.tx_type.display, natToStr r.from_user_id,
       natToStr r.to_user_id, natToStr r.amount, natToStr r.timestamp,
       r.status.display, r.description]) (str "TX_TYPE") = some r.tx_type.display := rfl
  have e3 : mapGet (csvFields.zip
      [natToStr r.tx_id, r.tx_type.display, natToStr r.from_user_id,
       natToStr r.to_user_id, natToStr r.amount, natToStr r.timestamp,
       r.status.display, r.description]) (str "FROM_USER_ID") = some (natToStr r.from_user_id) := rfl
  have e4 : mapGet (csvFields.zip
      [natToStr r.tx_id, r.tx_type.display, natToStr r.from_user_id,
       natToStr r.to_user_id, natToStr r.amount, natToStr r.timestamp,
       r.status.display, r.description]) (str "TO_USER_ID") = some (natToStr r.to_user_id) := rfl
  have e5 : mapGet (csvFields.zip
      [natToStr r.tx_id, r.tx_type.display, natToStr r.from_user_id,
       natToStr r.to_user_id, natToStr r.amount, natToStr r.timestamp,
       r.status.display, r.description]) (str "AMOUNT") = some (natToStr r.amount) := rfl
  have e6 : mapGet (csvFields.zip
      [natToStr r.tx_id, r.tx_type.display, natToStr r.from_user_id,
       natToStr r.to_user_id, natToStr r.amount, natToStr r.timestamp,
       r.status.display, r.description]) (str "TIMESTAMP") = some (natToStr r.timestamp) := rfl
  have e7 : mapGet (csvFields.zip
      [natToStr r.tx_id, r.tx_type.display, natToStr r.from_user_id,
       natToStr r.to_user_id, natToStr r.amount, natToStr r.timestamp,
       r.status.display, r.description]) (str "STATUS") = some r.status.display := rfl
  have e8 : mapGet (csvFields.zip
      [natToStr r.tx_id, r.tx_type.display, natToStr r.from_user_id,
       natToStr r.to_user_id, natToStr r.amount, natToStr r.timestamp,
       r.status.display, r.description]) (str "DESCRIPTION") = some r.description := rfl
  simp only [textNewFromMap, getFieldU64_some e1 h1, getFieldTxType_some e2,
    getFieldU64_some e3 h2, getFieldU64_some e4 h3, getFieldU64_some e5 h4,
    getFieldU64_some e6 h5, getFieldTxStatus_some e7, getFieldString_some e8,
    Bind.bind, Except.bind]
  rfl


/-- `parse_block` on a written block (title plus the eight generated
lines) rebuilds the record. -/
theorem parse_block_makeup (r : YPBankTextFormat) (t : Str) (end_line : Nat)
    (h1 : r.tx_id < 2 ^ 64) (h2 : r.from_user_id < 2 ^ 64) (h3 : r.to_user_id < 2 ^ 64)
    (h4 : r.amount < 2 ^ 64) (h5 : r.timestamp < 2 ^ 64) :
    parse_block
      [t,
       str "TX_ID: " ++ natToStr r.tx_id,
       str "TX_TYPE: " ++ r.tx_type.display,
       str "FROM_USER_ID: " ++ natToStr r.from_user_id,
       str "TO_USER_ID: " ++ natToStr r.to_user_id,
       str "AMOUNT: " ++ natToStr r.amount,
       str "TIMESTAMP: " ++ natToStr r.timestamp,
       str "STATUS: " ++ r.status.display,
       str "DESCRIPTION: " ++ '"' :: (escQuote r.description ++ ['"'])]
      end_line = .ok r := by
  simp only [parse_block, List.drop_succ_cons, List.drop_zero,
    parseBlockLoop_makeup r _, Bind.bind, Except.bind,
    textNewFromMap_makeup r h1 h2 h3 h4 h5]

/-- The generated title line matches the title regex, capturing the
type token. -/
theorem matchTitle_make_title (r : YPBankTextFormat) :
    matchTitle (text_make_title r) = some r.tx_type.display := by
  have hne := natToStr_ne_nil (r.tx_id % 1000000000000000)
  have hdig : ∀ x ∈ natToStr (r.tx_id % 1000000000000000), isAsciiDigit x = true := by
    have h := natToStr_all_digits (r.tx_id % 1000000000000000)
    rw [List.all_eq_true] at h
    exact h
  have hws : ∀ x ∈ natToStr (r.tx_id % 1000000000000000),
      rustIsWhitespace x = false := fun x hx => (natToStr_not_special hx).2.2.2.2.1
  have hform : text_make_title r
      = '#' :: (' ' :: 'R' :: 'e' :: 'c' :: 'o' :: 'r' :: 'd' :: ' '
        :: (natToStr (r.tx_id % 1000000000000000)
            ++ ' ' :: '(' :: (r.tx_type.display ++ [')']))) := by
    rw [text_make_title,
      show str "# Record " = ['#',' ','R','e','c','o','r','d',' '] from rfl,
      show str " (" = [' ','('] from rfl]
    simp [List.append_assoc]
  have hdw : List.dropWhile rustIsWhitespace
        (natToStr (r.tx_id % 1000000000000000)
          ++ ' ' :: '(' :: (r.tx_type.display ++ [')']))
      = natToStr (r.tx_id % 1000000000000000)
        ++ ' ' :: '(' :: (r.tx_type.display ++ [')']) := by
    obtain ⟨c, cs, hN⟩ : ∃ c cs, natToStr (r.tx_id % 1000000000000000) = c :: cs := by
      cases h : natToStr (r.tx_id % 1000000000000000) with
      | nil => exact absurd h hne
      | cons c cs => exact ⟨c, cs, rfl⟩
    rw [hN, List.cons_append, List.dropWhile_cons,
      if_neg (by simp [hws c (by rw [hN]; exact List.mem_cons_self c cs)])]
  have htw : List.takeWhile isAsciiDigit
        (natToStr (r.tx_id % 1000000000000000)
          ++ ' ' :: '(' :: (r.tx_type.display ++ [')']))
      = natToStr (r.tx_id % 1000000000000000) := by
    rw [List.takeWhile_append_of_pos hdig]
    rw [show List.takeWhile isAsciiDigit (' ' :: '(' :: (r.tx_type.display ++ [')'])) = []
      from rfl, List.append_nil]
  have hdd : List.dropWhile isAsciiDigit
        (natToStr (r.tx_id % 1000000000000000)
          ++ ' ' :: '(' :: (r.tx_type.display ++ [')']))
      = ' ' :: '(' :: (r.tx_type.display ++ [')']) := by
    rw [List.dropWhile_append_of_pos hdig]
    rfl
  rw [hform, matchTitle.eq_def]
  simp only []
  rw [show List.dropWhile rustIsWhitespace
      (' ' :: 'R' :: 'e' :: 'c' :: 'o' :: 'r' :: 'd' :: ' '
        :: (natToStr (r.tx_id % 1000000000000000)
            ++ ' ' :: '(' :: (r.tx_type.display ++ [')'])))
    = 'R' :: 'e' :: 'c' :: 'o' :: 'r' :: 'd' :: ' '
        :: (natToStr (r.tx_id % 1000000000000000)
            ++ ' ' :: '(' :: (r.tx_type.display ++ [')'])) from rfl]
  rw [show List.take 6
      ('R' :: 'e' :: 'c' :: 'o' :: 'r' :: 'd' :: ' '
        :: (natToStr (r.tx_id % 1000000000000000)
            ++ ' ' :: '(' :: (r.tx_type.display ++ [')'])))
    = str "Record" from rfl]
  rw [if_pos rfl]
  rw [show List.drop 6
      ('R' :: 'e' :: 'c' :: 'o' :: 'r' :: 'd' :: ' '
        :: (natToStr (r.tx_id % 1000000000000000)
            ++ ' ' :: '(' :: (r.tx_type.display ++ [')'])))
    = ' ' :: (natToStr (r.tx_id % 1000000000000000)
            ++ ' ' :: '(' :: (r.tx_type.display ++ [')'])) from rfl]
  rw [show List.takeWhile rustIsWhitespace
      (' ' :: (natToStr (r.tx_id % 1000000000000000)
            ++ ' ' :: '(' :: (r.tx_type.display ++ [')'])))
    = ' ' :: List.takeWhile rustIsWhitespace
        (natToStr (r.tx_id % 1000000000000000)
            ++ ' ' :: '(' :: (r.tx_type.display ++ [')'])) from rfl]
  rw [if_neg (by simp)]
  rw [show List.dropWhile rustIsWhitespace
      (' ' :: (natToStr (r.tx_id % 1000000000000000)
            ++ ' ' :: '(' :: (r.tx_type.display ++ [')'])))
    = List.dropWhile rustIsWhitespace
        (natToStr (r.tx_id % 1000000000000000)
            ++ ' ' :: '(' :: (r.tx_type.display ++ [')'])) from rfl]
  rw [hdw, htw]
  rw [if_neg (by simp [List.isEmpty_iff, hne])]
  rw [hdd]
  rw [show List.dropWhile rustIsWhitespace
      (' ' :: '(' :: (r.tx_type.display ++ [')']))
    = '(' :: (r.tx_type.display ++ [')']) from rfl]
  cases r.tx_type <;> rfl

/-- The eight `KEY: value` lines the Text writer emits for one record (the
lines of `textDisplay` with the description quote-escaped). -/
def textBodyLines (r : YPBankTextFormat) : List Str :=
  [str "TX_ID: " ++ natToStr r.tx_id,
   str "TX_TYPE: " ++ r.tx_type.display,
   str "FROM_USER_ID: " ++ natToStr r.from_user_id,
   str "TO_USER_ID: " ++ natToStr r.to_user_id,
   str "AMOUNT: " ++ natToStr r.amount,
   str "TIMESTAMP: " ++ natToStr r.timestamp,
   str "STATUS: " ++ r.status.display,
   str "DESCRIPTION: " ++ '"' :: (escQuote r.description ++ ['"'])]

/-- Per-record side conditions under which the Text codec round-trips. -/
def TextRecOk (r : YPBankTextFormat) : Prop :=
  r.tx_id < 2 ^ 64 ∧ r.from_user_id < 2 ^ 64 ∧ r.to_user_id < 2 ^ 64 ∧
  r.amount < 2 ^ 64 ∧ r.timestamp < 2 ^ 64 ∧ '\n' ∉ r.description

/-- The rendered number ends in a digit: not whitespace, `'\r'`, `'#'`. -/
theorem natToStr_getLast (n : Nat) :
    ∃ b, (natToStr n).getLast? = some b ∧ rustIsWhitespace b = false ∧ b ≠ '\r' := by
  have hne := natToStr_ne_nil n
  refine ⟨(natToStr n).getLast hne, List.getLast?_eq_getLast _ hne, ?_, ?_⟩
  · exact (natToStr_not_special (List.getLast_mem hne)).2.2.2.2.1
  · have h := (natToStr_not_special (List.getLast_mem hne)).2.2.2.2.2
    intro hb
    rw [hb] at h
    exact absurd h (by decide)

/-- The written description line ends in the closing quote. -/
theorem descLine_getLast (d : Str) :
    (str "DESCRIPTION: " ++ '"' :: (escQuote d ++ ['"'])).getLast? = some '"' := by
  rw [List.getLast?_append_of_ne_nil _ (by simp), getLast?_cons_ne _ _ (by simp),
    List.getLast?_append_of_ne_nil _ (by simp)]
  rfl

/-- The generated title line has no newline. -/
theorem make_title_no_nl (r : YPBankTextFormat) : '\n' ∉ text_make_title r := by
  intro h
  rw [text_make_title] at h
  simp only [List.append_assoc, List.mem_append, List.mem_cons, List.not_mem_nil,
    or_false] at h
  rcases h with h | h | h | h | h
  · exact absurd h (by decide)
  · exact natToStr_no_nl _ h
  · exact absurd h (by decide)
  · exact txType_display_no_nl r.tx_type h
  · exact absurd h (by decide)

/-- `str::lines` of one written Text block followed by more input. -/
theorem rustLines_text_group (r : YPBankTextFormat) (hnl : '\n' ∉ r.description)
    (rest : Str) :
    rustLines (text_makeup_records r ++ '\n' :: rest)
      = text_make_title r :: (textBodyLines r ++ ([] : Str) :: rustLines rest) := by
  have hsplit : text_makeup_records r ++ '\n' :: rest
      = text_make_title r ++ '\n' :: ((str "TX_ID: " ++ natToStr r.tx_id) ++ '\n' ::
        ((str "TX_TYPE: " ++ r.tx_type.display) ++ '\n' ::
        ((str "FROM_USER_ID: " ++ natToStr r.from_user_id) ++ '\n' ::
        ((str "TO_USER_ID: " ++ natToStr r.to_user_id) ++ '\n' ::
        ((str "AMOUNT: " ++ natToStr r.amount) ++ '\n' ::
        ((str "TIMESTAMP: " ++ natToStr r.timestamp) ++ '\n' ::
        ((str "STATUS: " ++ r.status.display) ++ '\n' ::
        ((str "DESCRIPTION: " ++ '"' :: (escQuote r.description ++ ['"'])) ++ '\n' ::
        (([] : Str) ++ '\n' :: rest))))))))) := by
    simp [text_makeup_records, textDisplay, escaped_quote, List.append_assoc]
  have hnlnum : ∀ (k : String) (n : Nat), '\n' ∉ str k → '\n' ∉ str k ++ natToStr n := by
    intro k n hk h
    rcases List.mem_append.mp h with h | h
    · exact hk h
    · exact natToStr_no_nl _ h
  have hlastnum : ∀ (k : String) (n : Nat),
      ∃ b, (str k ++ natToStr n).getLast? = some b ∧ b ≠ '\r' := by
    intro k n
    obtain ⟨b, hb, -, hbr⟩ := natToStr_getLast n
    exact ⟨b, by rw [List.getLast?_append_of_ne_nil _ (natToStr_ne_nil n)]; exact hb, hbr⟩
  obtain ⟨b1, hb1, hr1⟩ := hlastnum "TX_ID: " r.tx_id
  obtain ⟨b3, hb3, hr3⟩ := hlastnum "FROM_USER_ID: " r.from_user_id
  obtain ⟨b4, hb4, hr4⟩ := hlastnum "TO_USER_ID: " r.to_user_id
  obtain ⟨b5, hb5, hr5⟩ := hlastnum "AMOUNT: " r.amount
  obtain ⟨b6, hb6, hr6⟩ := hlastnum "TIMESTAMP: " r.timestamp
  have hb2 : ∃ b, (str "TX_TYPE: " ++ r.tx_type.display).getLast? = some b ∧ b ≠ '\r' := by
    cases r.tx_type <;> exact ⟨_, rfl, by decide⟩
  obtain ⟨b2, hb2, hr2⟩ := hb2
  have hb7 : ∃ b, (str "STATUS: " ++ r.status.display).getLast? = some b ∧ b ≠ '\r' := by
    cases r.status <;> exact ⟨_, rfl, by decide⟩
  obtain ⟨b7, hb7, hr7⟩ := hb7
  have hnl2 : '\n' ∉ str "TX_TYPE: " ++ r.tx_type.display := by
    intro h
    rcases List.mem_append.mp h with h | h
    · exact absurd h (by decide)
    · exact txType_display_no_nl r.tx_type h
  have hnl7 : '\n' ∉ str "STATUS: " ++ r.status.display := by
    intro h
    rcases List.mem_append.mp h with h | h
    · exact absurd h (by decide)
    · exact txStatus_display_no_nl r.status h
  have hnl8 : '\n' ∉ str "DESCRIPTION: " ++ '"' :: (escQuote r.description ++ ['"']) := by
    intro h
    rcases List.mem_append.mp h with h | h
    · exact absurd h (by decide)
    · rcases List.mem_cons.mp h with h | h
      · exact absurd h (by decide)
      · rcases List.mem_append.mp h with h | h
        · rcases mem_escQuote h with h | h
          · exact absurd h (by decide)
          · exact hnl h
        · exact absurd h (by decide)
  have htitle_last : (text_make_title r).getLast? = some ')' := by
    rw [text_make_title, List.getLast?_concat]
  rw [hsplit,
    rustLines_append_nl (make_title_no_nl r),
    stripCr_of_getLast htitle_last (by decide),
    rustLines_append_nl (hnlnum "TX_ID: " r.tx_id (by decide)),
    stripCr_of_getLast hb1 hr1,
    rustLines_append_nl hnl2,
    stripCr_of_getLast hb2 hr2,
    rustLines_append_nl (hnlnum "FROM_USER_ID: " r.from_user_id (by decide)),
    stripCr_of_getLast hb3 hr3,
    rustLines_append_nl (hnlnum "TO_USER_ID: " r.to_user_id (by decide)),
    stripCr_of_getLast hb4 hr4,
    rustLines_append_nl (hnlnum "AMOUNT: " r.amount (by decide)),
    stripCr_of_getLast hb5 hr5,
    rustLines_append_nl (hnlnum "TIMESTAMP: " r.timestamp (by decide)),
    stripCr_of_getLast hb6 hr6,
    rustLines_append_nl hnl7,
    stripCr_of_getLast hb7 hr7,
    rustLines_append_nl hnl8,
    stripCr_of_getLast (descLine_getLast r.description) (by decide),
    rustLines_append_nl (by simp : '\n' ∉ ([] : Str))]
  rfl

/-- `str::lines` of the Text writer's whole output: per record the title,
the eight field lines, and the separating blank line. -/
theorem rustLines_textWriteTo (rs : List YPBankTextFormat)
    (h : ∀ r ∈ rs, '\n' ∉ r.description) :
    rustLines (textWriteTo rs)
      = rs.flatMap (fun r => text_make_title r :: (textBodyLines r ++ [([] : Str)])) := by
  induction rs with
  | nil => rfl
  | cons r rest ih =>
    rw [textWriteTo, List.flatMap_cons, List.append_assoc, List.singleton_append,
      rustLines_text_group r (h r (by simp)) _, List.flatMap_cons]
    rw [show textWriteTo rest = rest.flatMap (fun x => text_makeup_records x ++ ['\n']) from rfl]
      at ih
    rw [ih (fun x hx => h x (by simp [hx]))]
    simp

/-- `parse_title` accepts the generated title line. -/
theorem parse_title_make_title (r : YPBankTextFormat) (count : Nat) :
    parse_title (text_make_title r) count = .ok r.tx_type.display := by
  rw [parse_title, matchTitle_make_title]

/-- The generated title line starts with the hash. -/
theorem make_title_head (r : YPBankTextFormat) :
    (text_make_title r).head? = some '#' := by
  rw [text_make_title]
  rfl

/-- The generated title line ends with the closing parenthesis. -/
theorem make_title_getLast (r : YPBankTextFormat) :
    (text_make_title r).getLast? = some ')' := by
  rw [text_make_title, List.getLast?_concat]

/-- The generated title line is not blank. -/
theorem make_title_not_empty_line (r : YPBankTextFormat) :
    is_empty_line (text_make_title r) = false := by
  rw [is_empty_line,
    trim_of_ends (make_title_head r) (by decide) (make_title_getLast r) (by decide)]
  cases h : text_make_title r with
  | nil =>
    have := make_title_head r
    rw [h] at this
    simp at this
  | cons c t => rfl

/-- The generated title line is a hash marker. -/
theorem make_title_hash_marker (r : YPBankTextFormat) :
    is_hash_marker (text_make_title r) = true := by
  rw [is_hash_marker.eq_def,
    trim_of_ends (make_title_head r) (by decide) (make_title_getLast r) (by decide)]
  obtain ⟨t, ht⟩ : ∃ t, text_make_title r = '#' :: t := by
    have hh := make_title_head r
    cases h : text_make_title r with
    | nil => rw [h] at hh; simp at hh
    | cons c t =>
      rw [h] at hh
      simp only [List.head?_cons, Option.some.injEq] at hh
      exact ⟨t, by rw [hh]⟩
  rw [ht]
  rfl

/-- A line whose trim keeps a non-hash head is neither blank nor a hash
marker: the step just appends it to the current block. -/
theorem textProcessLine_body {line : Str} (hel : is_empty_line line = false)
    (hhm : is_hash_marker line = false) (block : List Str)
    (hb : block.isEmpty = false) (recs : List YPBankTextFormat) (count : Nat) :
    textProcessLine (block, recs) count line = .ok (block ++ [line], recs) := by
  rw [textProcessLine, if_neg (by simp [hel])]
  rw [show ((block, recs) : List Str × List YPBankTextFormat).1.isEmpty = false from hb, hhm]

/-- The step on a generated title line with an empty block buffer starts a
new block holding the captured type token. -/
theorem textProcessLine_title_nil (r : YPBankTextFormat)
    (recs : List YPBankTextFormat) (count : Nat) :
    textProcessLine (([] : List Str), recs) count (text_make_title r)
      = .ok ([r.tx_type.display], recs) := by
  rw [textProcessLine, if_neg (by simp [make_title_not_empty_line r]),
    make_title_hash_marker r]
  simp only [parse_title_make_title, Bind.bind, Except.bind]
  rfl

/-- The step on a generated title line with a pending written block parses
that block and starts the next one. -/
theorem textProcessLine_title_block (r q : YPBankTextFormat)
    (recs : List YPBankTextFormat) (count : Nat)
    (h1 : q.tx_id < 2 ^ 64) (h2 : q.from_user_id < 2 ^ 64) (h3 : q.to_user_id < 2 ^ 64)
    (h4 : q.amount < 2 ^ 64) (h5 : q.timestamp < 2 ^ 64) :
    textProcessLine (q.tx_type.display :: textBodyLines q, recs) count (text_make_title r)
      = .ok ([r.tx_type.display], recs ++ [q]) := by
  rw [textProcessLine, if_neg (by simp [make_title_not_empty_line r]),
    make_title_hash_marker r]
  simp only [textBodyLines]
  simp only [show ((q.tx_type.display :: [str "TX_ID: " ++ natToStr q.tx_id,
      str "TX_TYPE: " ++ q.tx_type.display,
      str "FROM_USER_ID: " ++ natToStr q.from_user_id,
      str "TO_USER_ID: " ++ natToStr q.to_user_id,
      str "AMOUNT: " ++ natToStr q.amount,
      str "TIMESTAMP: " ++ natToStr q.timestamp,
      str "STATUS: " ++ q.status.display,
      str "DESCRIPTION: " ++ '"' :: (escQuote q.description ++ ['"'])]).isEmpty)
    = false from rfl]
  simp only [parse_block_makeup q q.tx_type.display count h1 h2 h3 h4 h5,
    parse_title_make_title, Bind.bind, Except.bind]

/-- A line whose first and last characters are not whitespace and whose
first character is not `'#'` is neither blank nor a hash marker. -/
theorem bodyLine_flags {line : Str} {c b : Char}
    (hhead : line.head? = some c) (hc : rustIsWhitespace c = false)
    (hlast : line.getLast? = some b) (hb : rustIsWhitespace b = false)
    (hch : c ≠ '#') :
    is_empty_line line = false ∧ is_hash_marker line = false := by
  have htrim := trim_of_ends hhead hc hlast hb
  obtain ⟨t, ht⟩ : ∃ t, line = c :: t := by
    cases h : line with
    | nil => rw [h] at hhead; simp at hhead
    | cons x t =>
      rw [h] at hhead
      simp only [List.head?_cons, Option.some.injEq] at hhead
      exact ⟨t, by rw [hhead]⟩
  constructor
  · rw [is_empty_line, htrim, ht]
    rfl
  · rw [is_hash_marker.eq_def, htrim, ht]
    split
    · rename_i heq
      injection heq with h1 h2
      exact absurd h1 hch
    · rfl

/-- Every generated field line is neither blank nor a hash marker. -/
theorem textBodyLines_flags (r : YPBankTextFormat) :
    ∀ l ∈ textBodyLines r, is_empty_line l = false ∧ is_hash_marker l = false := by
  intro l hl
  simp only [textBodyLines, List.mem_cons, List.not_mem_nil, or_false] at hl
  rcases hl with rfl | rfl | rfl | rfl | rfl | rfl | rfl | rfl
  · obtain ⟨b, hb, hws', -⟩ := natToStr_getLast r.tx_id
    exact bodyLine_flags rfl (by decide)
      (by rw [List.getLast?_append_of_ne_nil _ (natToStr_ne_nil _)]; exact hb) hws' (by decide)
  · obtain ⟨b, hb, hws'⟩ : ∃ b, (str "TX_TYPE: " ++ r.tx_type.display).getLast? = some b
        ∧ rustIsWhitespace b = false := by
      cases r.tx_type <;> exact ⟨_, rfl, by decide⟩
    exact bodyLine_flags rfl (by decide) hb hws' (by decide)
  · obtain ⟨b, hb, hws', -⟩ := natToStr_getLast r.from_user_id
    exact bodyLine_flags rfl (by decide)
      (by rw [List.getLast?_append_of_ne_nil _ (natToStr_ne_nil _)]; exact hb) hws' (by decide)
  · obtain ⟨b, hb, hws', -⟩ := natToStr_getLast r.to_user_id
    exact bodyLine_flags rfl (by decide)
      (by rw [List.getLast?_append_of_ne_nil _ (natToStr_ne_nil _)]; exact hb) hws' (by decide)
  · obtain ⟨b, hb, hws', -⟩ := natToStr_getLast r.amount
    exact bodyLine_flags rfl (by decide)
      (by rw [List.getLast?_append_of_ne_nil _ (natToStr_ne_nil _)]; exact hb) hws' (by decide)
  · obtain ⟨b, hb, hws', -⟩ := natToStr_getLast r.timestamp
    exact bodyLine_flags rfl (by decide)
      (by rw [List.getLast?_append_of_ne_nil _ (natToStr_ne_nil _)]; exact hb) hws' (by decide)
  · obtain ⟨b, hb, hws'⟩ : ∃ b, (str "STATUS: " ++ r.status.display).getLast? = some b
        ∧ rustIsWhitespace b = false := by
      cases r.status <;> exact ⟨_, rfl, by decide⟩
    exact bodyLine_flags rfl (by decide) hb hws' (by decide)
  · exact bodyLine_flags rfl (by decide) (descLine_getLast r.description) (by decide)
      (by decide)

/-- A blank line leaves the state unchanged. -/
theorem textProcessLine_empty (st : List Str × List YPBankTextFormat) (count : Nat) :
    textProcessLine st count [] = .ok st := rfl

/-- Folding the step function over the eight field lines and the blank
separator collects the block. -/
theorem textFold_body (r : YPBankTextFormat) (n : Nat) (recs : List YPBankTextFormat) :
    List.foldlM (fun st (p : Nat × Str) => textProcessLine st p.1 p.2)
      (([r.tx_type.display] : List Str), recs)
      ((textBodyLines r ++ [([] : Str)]).enumFrom n)
    = .ok (r.tx_type.display :: textBodyLines r, recs) := by
  have hf := textBodyLines_flags r
  simp only [textBodyLines, List.mem_cons, List.not_mem_nil, or_false] at hf
  have f1 := hf _ (Or.inl rfl)
  have f2 := hf _ (Or.inr (Or.inl rfl))
  have f3 := hf _ (Or.inr (Or.inr (Or.inl rfl)))
  have f4 := hf _ (Or.inr (Or.inr (Or.inr (Or.inl rfl))))
  have f5 := hf _ (Or.inr (Or.inr (Or.inr (Or.inr (Or.inl rfl)))))
  have f6 := hf _ (Or.inr (Or.inr (Or.inr (Or.inr (Or.inr (Or.inl rfl))))))
  have f7 := hf _ (Or.inr (Or.inr (Or.inr (Or.inr (Or.inr (Or.inr (Or.inl rfl)))))))
  have f8 := hf _ (Or.inr (Or.inr (Or.inr (Or.inr (Or.inr (Or.inr (Or.inr rfl)))))))
  simp only [textBodyLines, List.cons_append, List.nil_append, List.enumFrom_cons,
    List.foldlM_cons, List.foldlM_nil,
    textProcessLine_body f1.1 f1.2, textProcessLine_body f2.1 f2.2,
    textProcessLine_body f3.1 f3.2, textProcessLine_body f4.1 f4.2,
    textProcessLine_body f5.1 f5.2, textProcessLine_body f6.1 f6.2,
    textProcessLine_body f7.1 f7.2, textProcessLine_body f8.1 f8.2,
    textProcessLine_empty, List.isEmpty_cons, Bind.bind, Except.bind]
  rfl

/-- Folding the step function over one written block's lines from an
empty buffer collects the block. -/
theorem textFold_group_nil (r : YPBankTextFormat) (n : Nat) (recs : List YPBankTextFormat) :
    List.foldlM (fun st (p : Nat × Str) => textProcessLine st p.1 p.2)
      (([] : List Str), recs)
      ((text_make_title r :: (textBodyLines r ++ [([] : Str)])).enumFrom n)
    = .ok (r.tx_type.display :: textBodyLines r, recs) := by
  simp only [List.enumFrom_cons, List.foldlM_cons, textProcessLine_title_nil r recs n,
    Bind.bind, Except.bind]
  exact textFold_body r (n + 1) recs

/-- Folding the step function over one written block's lines with a
pending written block first parses the pending block. -/
theorem textFold_group_block (r q : YPBankTextFormat) (n : Nat)
    (recs : List YPBankTextFormat)
    (h1 : q.tx_id < 2 ^ 64) (h2 : q.from_user_id < 2 ^ 64) (h3 : q.to_user_id < 2 ^ 64)
    (h4 : q.amount < 2 ^ 64) (h5 : q.timestamp < 2 ^ 64) :
    List.foldlM (fun st (p : Nat × Str) => textProcessLine st p.1 p.2)
      ((q.tx_type.display :: textBodyLines q : List Str), recs)
      ((text_make_title r :: (textBodyLines r ++ [([] : Str)])).enumFrom n)
    = .ok (r.tx_type.display :: textBodyLines r, recs ++ [q]) := by
  simp only [List.enumFrom_cons, List.foldlM_cons,
    textProcessLine_title_block r q recs n h1 h2 h3 h4 h5,
    Bind.bind, Except.bind]
  exact textFold_body r (n + 1) (recs ++ [q])

/-- Folding the step function over the remaining written blocks with a
pending block: every block but the last is flushed into the record list,
the last stays pending. -/
theorem textFold_pending (rest : List YPBankTextFormat) :
    ∀ (q : YPBankTextFormat) (recs : List YPBankTextFormat) (n : Nat),
    (∀ x ∈ rest, TextRecOk x) → TextRecOk q →
    List.foldlM (fun st (p : Nat × Str) => textProcessLine st p.1 p.2)
      ((q.tx_type.display :: textBodyLines q : List Str), recs)
      ((rest.flatMap (fun r => text_make_title r :: (textBodyLines r ++ [([] : Str)]))).enumFrom n)
    = .ok ((rest.getLastD q).tx_type.display :: textBodyLines (rest.getLastD q),
           recs ++ (q :: rest).dropLast) := by
  induction rest with
  | nil =>
    intro q recs n hrest hq
    simp only [List.flatMap_nil, List.enumFrom_nil, List.foldlM_nil, List.getLastD_nil,
      List.dropLast_single, List.append_nil]
    rfl
  | cons r2 rest2 ih =>
    intro q recs n hrest hq
    obtain ⟨hq1, hq2, hq3, hq4, hq5, -⟩ := hq
    rw [List.flatMap_cons, List.enumFrom_append, List.foldlM_append,
      textFold_group_block r2 q n recs hq1 hq2 hq3 hq4 hq5]
    simp only [Bind.bind, Except.bind]
    rw [ih r2 (recs ++ [q]) _ (fun x hx => hrest x (by simp [hx])) (hrest r2 (by simp))]
    rw [List.getLastD_cons, List.dropLast_cons₂]
    simp [List.append_assoc]

/-- The Text reader parses the Text writer's output back to the same
record list. -/
theorem textReadExecutor_textWriteTo (rs : List YPBankTextFormat)
    (h : ∀ r ∈ rs, TextRecOk r) :
    rs ≠ [] → textReadExecutor (textWriteTo rs) = .ok rs := by
  intro hne
  obtain ⟨r, rest, rfl⟩ : ∃ r rest, rs = r :: rest := by
    cases rs with
    | nil => exact absurd rfl hne
    | cons r rest => exact ⟨r, rest, rfl⟩
  have hlines := rustLines_textWriteTo (r :: rest) (fun x hx => (h x hx).2.2.2.2.2)
  rw [textReadExecutor, hlines]
  rw [List.enum, List.flatMap_cons, List.enumFrom_append, List.foldlM_append,
    textFold_group_nil r 0 []]
  simp only [Bind.bind, Except.bind]
  rw [textFold_pending rest r [] _ (fun x hx => h x (by simp [hx])) (h r (by simp))]
  simp only [List.nil_append]
  rw [show ((rest.getLastD r).tx_type.display :: textBodyLines (rest.getLastD r),
      (r :: rest).dropLast).1.isEmpty = false from rfl]
  simp only [Bool.false_eq_true, if_false]
  obtain ⟨hl1, hl2, hl3, hl4, hl5, -⟩ := h (rest.getLastD r) (List.getLastD_mem_cons rest r)
  simp only [textBodyLines]
  rw [parse_block_makeup (rest.getLastD r) (rest.getLastD r).tx_type.display _
    hl1 hl2 hl3 hl4 hl5]
  simp only [Bind.bind, Except.bind]
  rw [show rest.getLastD r = (r :: rest).getLast (List.cons_ne_nil r rest) from
    (List.getLast_eq_getLastD r rest (List.cons_ne_nil r rest)).symm]
  rw [List.dropLast_concat_getLast (List.cons_ne_nil r rest)]
  rfl

/-! ## Binary round-trip machinery -/

/-- Per-record side conditions under which the binary codec round-trips:
bounds, the write-time zeroing convention already satisfied, no
present-but-empty description, and a `desc_len` that matches the
description's UTF-8 byte length. -/
def BinRecOk (r : YPBankBinFormat) : Prop :=
  r.tx_id < 2 ^ 64 ∧ r.from_user_id < 2 ^ 64 ∧ r.to_user_id < 2 ^ 64 ∧
  r.timestamp < 2 ^ 64 ∧ -(2 ^ 63) ≤ r.amount ∧ r.amount < 2 ^ 63 ∧
  (r.tx_type = .deposit → r.from_user_id = 0) ∧
  (r.tx_type = .withdrawal → r.to_user_id = 0) ∧
  r.description ≠ some [] ∧
  r.desc_len = (utf8Encode (r.description.getD [])).length ∧
  (utf8Encode (r.description.getD [])).length < 2 ^ 32

/-- The body the binary writer emits for one well-formed record. -/
def binBodyOf (r : YPBankBinFormat) : List Nat :=
  u64be r.tx_id ++ [r.tx_type.as_u8] ++
  u64be (match r.tx_type with | .deposit => 0 | _ => r.from_user_id) ++
  u64be (match r.tx_type with | .withdrawal => 0 | _ => r.to_user_id) ++
  i64be r.amount ++ u64be r.timestamp ++ [r.status.as_u8] ++
  u32be (utf8Encode (r.description.getD [])).length ++
  utf8Encode (r.description.getD [])

/-- The writer produces exactly `binBodyOf` on a well-formed record. -/
theorem binWriteBody_ok (r : YPBankBinFormat) (h : BinRecOk r) :
    binWriteBody r = .ok (binBodyOf r) := by
  obtain ⟨-, -, -, -, -, -, -, -, -, -, hlen⟩ := h
  rw [binWriteBody, binBodyOf]
  cases hdesc : r.description with
  | none =>
    rw [hdesc] at hlen
    simp only [Option.getD_none] at hlen ⊢
    rw [if_pos (by simpa using hlen)]
    rfl
  | some d =>
    rw [hdesc] at hlen
    simp only [Option.getD_some] at hlen ⊢
    rw [if_pos hlen]

/-- The length of the emitted body: 46 framing bytes plus the
description's UTF-8 byte length. -/
theorem binBodyOf_length (r : YPBankBinFormat) :
    (binBodyOf r).length = 46 + (utf8Encode (r.description.getD [])).length := by
  rw [binBodyOf]
  simp [u64be, u32be, i64be]
  omega

/-- Decoding the emitted body recovers the record exactly. -/
theorem new_from_cursor_binBodyOf (r : YPBankBinFormat) (h : BinRecOk r) :
    new_from_cursor (binBodyOf r) = .ok (r, ([] : List Nat)) := by
  obtain ⟨h1, h2, h3, h4, h5, h6, hzf, hzt, hne, hdl, hlen⟩ := h
  have hf : (match r.tx_type with | TxType.deposit => 0 | _ => r.from_user_id) < 2 ^ 64 := by
    cases r.tx_type
    · exact Nat.two_pow_pos 64
    · exact h2
    · exact h2
  have hg : (match r.tx_type with | TxType.withdrawal => 0 | _ => r.to_user_id) < 2 ^ 64 := by
    cases r.tx_type
    · exact h3
    · exact h3
    · exact Nat.two_pow_pos 64
  rw [binBodyOf, new_from_cursor_spec r.tx_id r.tx_type _ _ r.amount r.timestamp r.status
    (utf8Encode (r.description.getD [])) h1 hf hg h4 h5 h6 hlen]
  cases hdesc : r.description with
  | none =>
    simp only [hdesc, Option.getD_none]
    rw [if_neg (by simp [utf8Encode])]
    have hfeq : (match r.tx_type with | TxType.deposit => 0 | _ => r.from_user_id)
        = r.from_user_id := by
      cases ht : r.tx_type
      · rw [hzf ht]
      · rfl
      · rfl
    have hgeq : (match r.tx_type with | TxType.withdrawal => 0 | _ => r.to_user_id)
        = r.to_user_id := by
      cases ht : r.tx_type
      · rfl
      · rfl
      · rw [hzt ht]
    rw [hfeq, hgeq]
    rw [hdesc] at hdl
    simp only [Option.getD_none] at hdl
    rcases r with ⟨ri, rt, rf, rg, ra, rts, rst, rdl, rd⟩
    simp only [] at hdesc hdl ⊢
    rw [hdesc, hdl]
    rfl
  | some d =>
    have hdne : d ≠ [] := fun hd => hne (by rw [hdesc, hd])
    simp only [hdesc, Option.getD_some]
    rw [if_pos (by
      rcases hd : utf8Encode d with _ | ⟨x, xs⟩
      · exact absurd ((utf8Encode_eq_nil_iff d).mp hd) hdne
      · simp)]
    rw [utf8Decode_utf8Encode_nil d]
    have hfeq : (match r.tx_type with | TxType.deposit => 0 | _ => r.from_user_id)
        = r.from_user_id := by
      cases ht : r.tx_type
      · rw [hzf ht]
      · rfl
      · rfl
    have hgeq : (match r.tx_type with | TxType.withdrawal => 0 | _ => r.to_user_id)
        = r.to_user_id := by
      cases ht : r.tx_type
      · rfl
      · rfl
      · rw [hzt ht]
    rw [hfeq, hgeq]
    rw [hdesc] at hdl
    simp only [Option.getD_some] at hdl
    rcases r with ⟨ri, rt, rf, rg, ra, rts, rst, rdl, rd⟩
    simp only [] at hdesc hdl ⊢
    rw [hdesc, hdl]

/-- The binary writer succeeds on well-formed records, emitting one frame
per record. -/
theorem binWriteTo_ok (rs : List YPBankBinFormat) (h : ∀ r ∈ rs, BinRecOk r) :
    binWriteTo rs = .ok (rs.flatMap (fun r => binFrame (binBodyOf r))) := by
  induction rs with
  | nil => rfl
  | cons r rest ih =>
    rw [binWriteTo, binWriteBody_ok r (h r (by simp)),
      ih (fun x hx => h x (by simp [hx]))]
    simp only [Bind.bind, Except.bind, List.flatMap_cons]
    rfl

/-- The running check values of the frame loop: before each frame the
executor checks `total + (4 + record_size)` against the ceiling, and the
loop then adds that already-cumulative figure back into the running total
(`total_read_bytes += record.1`, bin.rs line 63), so the accumulator
passed to the next frame is `total + (total + c)`. `binAccOk cs total`
holds when every check along a stream whose frames contribute the
countable byte figures `cs` passes. -/
def binAccOk : List Nat → Nat → Bool
  | [], _ => true
  | c :: rest, total =>
    decide (total + c ≤ MAX_SIZE_BIN_BYTES) && binAccOk rest (total + (total + c))

/-- A minimal well-formed binary record: all fields zero, no description
(46 body bytes, 54 frame bytes). -/
def minBinRec : YPBankBinFormat :=
  ⟨0, .deposit, 0, 0, 0, 0, .success, 0, none⟩

/-- One passing frame of the loop: the record is decoded and the running
total becomes `total + (total + (4 + body_len))` — the source adds the
executor's already-cumulative `current_bytes` into the total, so the
accumulator doubles per frame instead of tracking consumed bytes. -/
theorem binReadFromAux_frame_step (r : YPBankBinFormat) (hr : BinRecOk r)
    (X : List Nat) (total : Nat) (recs : List YPBankBinFormat)
    (hok : total + (4 + (binBodyOf r).length) ≤ MAX_SIZE_BIN_BYTES) :
    binReadFromAux (binFrame (binBodyOf r) ++ X) total recs
      = binReadFromAux X (total + (total + (4 + (binBodyOf r).length))) (recs ++ [r]) := by
  have hbodylen : (binBodyOf r).length = 46 + (utf8Encode (r.description.getD [])).length :=
    binBodyOf_length r
  have hM : MAX_SIZE_BIN_BYTES = 8388608 := rfl
  simp only [binFrame, List.append_assoc]
  rw [binReadFromAux,
    if_neg (by rw [List.length_append, show MAGIC.length = 4 from rfl]; omega),
    if_neg (by rw [List.take_left' (show MAGIC.length = 4 from rfl)]; simp),
    List.drop_left' (show MAGIC.length = 4 from rfl)]
  have hexec : binReadExecutor (u32be (binBodyOf r).length ++ (binBodyOf r ++ X)) total
      = .ok (r, total + (4 + (binBodyOf r).length), X) := by
    rw [binReadExecutor, readU32be_u32be (by rw [hbodylen]; omega) _]
    simp only []
    rw [if_pos (by omega)]
    rw [show validate_exceed_max_bytes (total + (4 + (binBodyOf r).length))
        MAX_SIZE_BIN_BYTES = .ok () from by
      rw [validate_exceed_max_bytes, if_neg (by omega)]]
    rw [if_neg (by rw [List.length_append]; omega)]
    rw [List.take_left, List.drop_left, new_from_cursor_binBodyOf r hr]
  rw [hexec]

/-- One failing frame of the loop: when the checked figure exceeds the
ceiling (but fits the `checked_add`), the loop fails with
`SizeLimitExceeded` carrying that figure, before the frame body is read. -/
theorem binReadFromAux_frame_fail (r : YPBankBinFormat) (hr : BinRecOk r)
    (X : List Nat) (total : Nat) (recs : List YPBankBinFormat)
    (h32 : (binBodyOf r).length < 2 ^ 32)
    (hbig : total + (4 + (binBodyOf r).length) > MAX_SIZE_BIN_BYTES)
    (hov : total + (4 + (binBodyOf r).length) < 2 ^ 64) :
    binReadFromAux (binFrame (binBodyOf r) ++ X) total recs
      = .error (.lim_exceed (total + (4 + (binBodyOf r).length)) MAX_SIZE_BIN_BYTES) := by
  simp only [binFrame, List.append_assoc]
  rw [binReadFromAux,
    if_neg (by rw [List.length_append, show MAGIC.length = 4 from rfl]; omega),
    if_neg (by rw [List.take_left' (show MAGIC.length = 4 from rfl)]; simp),
    List.drop_left' (show MAGIC.length = 4 from rfl)]
  have hexec : binReadExecutor (u32be (binBodyOf r).length ++ (binBodyOf r ++ X)) total
      = .error (.lim_exceed (total + (4 + (binBodyOf r).length)) MAX_SIZE_BIN_BYTES) := by
    rw [binReadExecutor, readU32be_u32be h32 _]
    simp only []
    rw [if_pos hov]
    rw [show validate_exceed_max_bytes (total + (4 + (binBodyOf r).length))
        MAX_SIZE_BIN_BYTES
        = .error (.lim_exceed (total + (4 + (binBodyOf r).length)) MAX_SIZE_BIN_BYTES) from by
      rw [validate_exceed_max_bytes, if_pos (by omega)]]
  rw [hexec]

/-- The frame loop decodes a sequence of well-formed frames, appending the
records to the accumulator, provided every frame's check of the doubling
byte accumulator passes. -/
theorem binReadFromAux_frames (rs : List YPBankBinFormat) :
    ∀ (total : Nat) (recs : List YPBankBinFormat),
    (∀ r ∈ rs, BinRecOk r) →
    binAccOk (rs.map (fun r => 4 + (binBodyOf r).length)) total = true →
    binReadFromAux (rs.flatMap (fun r => binFrame (binBodyOf r))) total recs
      = .ok (recs ++ rs) := by
  induction rs with
  | nil =>
    intro total recs h hacc
    rw [List.flatMap_nil, binReadFromAux, if_pos (by simp)]
    simp
  | cons r rest ih =>
    intro total recs h hacc
    rw [List.map_cons, binAccOk, Bool.and_eq_true, decide_eq_true_eq] at hacc
    rw [List.flatMap_cons,
      binReadFromAux_frame_step r (h r (by simp)) _ total recs hacc.1,
      ih (total + (total + (4 + (binBodyOf r).length))) (recs ++ [r])
        (fun x hx => h x (by simp [hx])) hacc.2]
    simp

/-! ## Full pipelines (convert, write, read, convert back) -/

/-- The CSV record `TryFrom<YPBankTransaction>` actually builds (the
conversion never fails). -/
def toCsvRec (t : YPBankTransaction) : YPBankCsvFormat :=
  { tx_id := t.tx_id, tx_type := t.tx_type, from_user_id := t.from_user_id,
    to_user_id := t.to_user_id, amount := t.amount.natAbs, timestamp := t.timestamp,
    status := t.status, description := t.description.getD [] }

/-- The Text record the conversion builds. -/
def toTextRec (t : YPBankTransaction) : YPBankTextFormat :=
  { tx_id := t.tx_id, tx_type := t.tx_type, from_user_id := t.from_user_id,
    to_user_id := t.to_user_id, amount := t.amount.natAbs, timestamp := t.timestamp,
    status := t.status, description := t.description.getD [] }

/-- The binary record the conversion builds when the description's byte
length fits `u32`. -/
def toBinRec (t : YPBankTransaction) : YPBankBinFormat :=
  { tx_id := t.tx_id, tx_type := t.tx_type, from_user_id := t.from_user_id,
    to_user_id := t.to_user_id, amount := t.amount, timestamp := t.timestamp,
    status := t.status, desc_len := (utf8Encode (t.description.getD [])).length,
    description := t.description }

/-- The canonical-model invariants of the spec (§3): `u64` fields in
range, `amount` in the `i64` range (excluding `i64::MIN`, whose magnitude
does not fit back), the sign convention, and the zeroed unused id side. -/
def ValidTransaction (t : YPBankTransaction) : Prop :=
  t.tx_id < 2 ^ 64 ∧ t.from_user_id < 2 ^ 64 ∧ t.to_user_id < 2 ^ 64 ∧
  t.timestamp < 2 ^ 64 ∧ -(2 ^ 63) < t.amount ∧ t.amount < 2 ^ 63 ∧
  (t.tx_type = .deposit → 0 ≤ t.amount ∧ t.from_user_id = 0) ∧
  (t.tx_type = .withdrawal → t.to_user_id = 0) ∧
  ((t.tx_type = .transfer ∨ t.tx_type = .withdrawal) → t.amount ≤ 0)

/-- Description condition for the CSV round trip: present, stable under
trimming, and free of the characters the CSV field splitter discards. -/
def DescCsvOk (t : YPBankTransaction) : Prop :=
  ∃ s, t.description = some s ∧ rustTrim s = s ∧ '\n' ∉ s ∧ '\t' ∉ s

/-- Description condition for the Text round trip: present and free of
newlines. -/
def DescTextOk (t : YPBankTransaction) : Prop :=
  ∃ s, t.description = some s ∧ '\n' ∉ s

/-- Description condition for the binary round trip: not present-but-empty
(the reader maps a zero length back to `None`) and fitting `u32`. -/
def DescBinOk (t : YPBankTransaction) : Prop :=
  t.description ≠ some [] ∧ strByteLen (t.description.getD []) < 2 ^ 32

/-- The full CSV pipeline of the drivers: convert, write, read, convert
back. -/
def csvPipeline (ts : List YPBankTransaction) : Except ParseError (List YPBankTransaction) := do
  let rs ← convertList transactionToCsv ts
  let rs2 ← csvReadFrom (csvWriteTo rs)
  convertList csvToTransaction rs2

/-- The full Text pipeline. -/
def textPipeline (ts : List YPBankTransaction) : Except ParseError (List YPBankTransaction) := do
  let rs ← convertList transactionToText ts
  let rs2 ← textReadFrom (textWriteTo rs)
  convertList textToTransaction rs2

/-- The full binary pipeline. -/
def binPipeline (ts : List YPBankTransaction) : Except ParseError (List YPBankTransaction) := do
  let rs ← convertList transactionToBin ts
  let out ← binWriteTo rs
  let rs2 ← binReadFrom out
  convertList binToTransaction rs2

/-- Converting back from the CSV record recovers a valid transaction with
a present description. -/
theorem csvToTransaction_toCsvRec (t : YPBankTransaction) (hv : ValidTransaction t)
    {s : Str} (hs : t.description = some s) :
    csvToTransaction (toCsvRec t) = .ok t := by
  obtain ⟨-, -, -, -, ha1, ha2, hdep, -, hneg⟩ := hv
  rcases t with ⟨ti, ty, tf, tg, ta, tts, tst, td⟩
  simp only [] at ha1 ha2 hdep hneg hs ⊢
  rw [csvToTransaction, toCsvRec]
  simp only []
  rw [if_pos (by omega)]
  rw [hs]
  simp only [Option.getD_some]
  congr 1
  have hamt : (if (ty = TxType.transfer ∨ ty = TxType.withdrawal) ∧ (ta.natAbs : Int) > 0
      then -(ta.natAbs : Int) else (ta.natAbs : Int)) = ta := by
    by_cases hty : ty = TxType.transfer ∨ ty = TxType.withdrawal
    · have hle : ta ≤ 0 := hneg hty
      by_cases h0 : ta = 0
      · rw [if_neg (by omega)]
        omega
      · rw [if_pos ⟨hty, by omega⟩]
        omega
    · rw [if_neg (by simp [hty])]
      have : ty = TxType.deposit := by cases ty <;> simp_all
      have := (hdep this).1
      omega
  rw [hamt]

/-- Converting back from the Text record recovers the transaction. -/
theorem textToTransaction_toTextRec (t : YPBankTransaction) (hv : ValidTransaction t)
    {s : Str} (hs : t.description = some s) :
    textToTransaction (toTextRec t) = .ok t := by
  obtain ⟨-, -, -, -, ha1, ha2, hdep, -, hneg⟩ := hv
  rcases t with ⟨ti, ty, tf, tg, ta, tts, tst, td⟩
  simp only [] at ha1 ha2 hdep hneg hs ⊢
  rw [textToTransaction, toTextRec]
  simp only []
  rw [if_pos (by omega)]
  rw [hs]
  simp only [Option.getD_some]
  congr 1
  have hamt : (if (ty = TxType.transfer ∨ ty = TxType.withdrawal) ∧ (ta.natAbs : Int) > 0
      then -(ta.natAbs : Int) else (ta.natAbs : Int)) = ta := by
    by_cases hty : ty = TxType.transfer ∨ ty = TxType.withdrawal
    · have hle : ta ≤ 0 := hneg hty
      by_cases h0 : ta = 0
      · rw [if_neg (by omega)]
        omega
      · rw [if_pos ⟨hty, by omega⟩]
        omega
    · rw [if_neg (by simp [hty])]
      have : ty = TxType.deposit := by cases ty <;> simp_all
      have := (hdep this).1
      omega
  rw [hamt]

/-- The binary-record conversion succeeds when the description fits `u32`. -/
theorem transactionToBin_ok (t : YPBankTransaction)
    (h : (utf8Encode (t.description.getD [])).length < 2 ^ 32) :
    transactionToBin t = .ok (toBinRec t) := by
  rcases t with ⟨ti, ty, tf, tg, ta, tts, tst, td⟩
  cases td with
  | none => rfl
  | some d =>
    simp only [Option.getD_some] at h
    rw [transactionToBin]
    simp only []
    rw [if_pos h]
    rfl

/-- Converting back from the binary record recovers the transaction. -/
theorem binToTransaction_toBinRec (t : YPBankTransaction) (hv : ValidTransaction t) :
    binToTransaction (toBinRec t) = .ok t := by
  obtain ⟨-, -, -, -, ha1, ha2, hdep, -, hneg⟩ := hv
  rcases t with ⟨ti, ty, tf, tg, ta, tts, tst, td⟩
  simp only [] at ha1 ha2 hdep hneg ⊢
  rw [binToTransaction, toBinRec]
  simp only []
  congr 1
  have hamt : (if (ty = TxType.transfer ∨ ty = TxType.withdrawal) ∧ ta > 0
      then -ta else ta) = ta := by
    by_cases hty : ty = TxType.transfer ∨ ty = TxType.withdrawal
    · have hle : ta ≤ 0 := hneg hty
      rw [if_neg (by omega)]
    · rw [if_neg (by simp [hty])]
  rw [hamt]

/-- Converting a mapped list back element-by-element. -/
theorem convertList_map_ok {f : β → Except ParseError α} {g : α → β} {l : List α}
    (h : ∀ x ∈ l, f (g x) = .ok x) : convertList f (l.map g) = .ok l := by
  induction l with
  | nil => rfl
  | cons x rest ih =>
    rw [convertList, List.map_cons, List.map_cons, collectExcept, h x (by simp)]
    rw [show collectExcept (List.map f (List.map g rest)) = convertList f (List.map g rest)
      from rfl, ih (fun y hy => h y (by simp [hy]))]
    rfl

/-- A valid transaction with a CSV-compatible description yields a CSV
record satisfying the CSV round-trip conditions. -/
theorem toCsvRec_ok (t : YPBankTransaction) (hv : ValidTransaction t) (hd : DescCsvOk t) :
    CsvRecOk (toCsvRec t) := by
  obtain ⟨h1, h2, h3, h4, ha1, ha2, -, -, -⟩ := hv
  obtain ⟨s, hs, htr, hnl, hht⟩ := hd
  refine ⟨h1, h2, h3, by simp only [toCsvRec]; omega, h4, ?_, ?_, ?_⟩ <;>
    simp only [toCsvRec, hs, Option.getD_some]
  · exact htr
  · exact hnl
  · exact hht

/-- A valid transaction with a Text-compatible description yields a Text
record satisfying the Text round-trip conditions. -/
theorem toTextRec_ok (t : YPBankTransaction) (hv : ValidTransaction t) (hd : DescTextOk t) :
    TextRecOk (toTextRec t) := by
  obtain ⟨h1, h2, h3, h4, ha1, ha2, -, -, -⟩ := hv
  obtain ⟨s, hs, hnl⟩ := hd
  refine ⟨h1, h2, h3, by simp only [toTextRec]; omega, h4, ?_⟩
  simp only [toTextRec, hs, Option.getD_some]
  exact hnl

/-- A valid transaction with a binary-compatible description yields a
binary record satisfying the binary round-trip conditions. -/
theorem toBinRec_ok (t : YPBankTransaction) (hv : ValidTransaction t) (hd : DescBinOk t) :
    BinRecOk (toBinRec t) := by
  obtain ⟨h1, h2, h3, h4, ha1, ha2, hdep, hwit, -⟩ := hv
  obtain ⟨hne, hlen⟩ := hd
  rw [← utf8Encode_length] at hlen
  exact ⟨h1, h2, h3, h4, by simp only [toBinRec]; omega, ha2,
    fun ht => (hdep ht).2, hwit, hne, rfl, hlen⟩

/-- The CSV pipeline reproduces every valid transaction list whose
descriptions are CSV-compatible and whose serialized form fits the size
ceiling. -/
theorem csvPipeline_roundtrip (ts : List YPBankTransaction)
    (hv : ∀ t ∈ ts, ValidTransaction t ∧ DescCsvOk t) (hne : ts ≠ [])
    (hsz : ¬ strByteLen (csvWriteTo (ts.map toCsvRec)) > MAX_SIZE_CSV_TXT_BYTES) :
    csvPipeline ts = .ok ts := by
  rw [csvPipeline,
    show convertList transactionToCsv ts = .ok (ts.map toCsvRec) from
      collectExcept_map_ok ts (fun x _ => rfl)]
  simp only [Bind.bind, Except.bind]
  have hrec : ∀ r ∈ ts.map toCsvRec, CsvRecOk r := by
    intro r hr
    obtain ⟨x, hx, rfl⟩ := List.mem_map.mp hr
    exact toCsvRec_ok x (hv x hx).1 (hv x hx).2
  rw [csvReadFrom, if_neg hsz, csvReadExecutor_csvWriteTo _ hrec]
  simp only [Bind.bind, Except.bind]
  rw [if_neg (by simp [List.isEmpty_iff, hne])]
  show convertList csvToTransaction (ts.map toCsvRec) = .ok ts
  exact convertList_map_ok (fun x hx => by
    obtain ⟨s, hs, -, -, -⟩ := (hv x hx).2
    exact csvToTransaction_toCsvRec x (hv x hx).1 hs)

/-- The Text pipeline reproduces every valid transaction list whose
descriptions are Text-compatible and whose serialized form fits the size
ceiling. -/
theorem textPipeline_roundtrip (ts : List YPBankTransaction)
    (hv : ∀ t ∈ ts, ValidTransaction t ∧ DescTextOk t) (hne : ts ≠ [])
    (hsz : ¬ strByteLen (textWriteTo (ts.map toTextRec)) > MAX_SIZE_CSV_TXT_BYTES) :
    textPipeline ts = .ok ts := by
  rw [textPipeline,
    show convertList transactionToText ts = .ok (ts.map toTextRec) from
      collectExcept_map_ok ts (fun x _ => rfl)]
  simp only [Bind.bind, Except.bind]
  have hrec : ∀ r ∈ ts.map toTextRec, TextRecOk r := by
    intro r hr
    obtain ⟨x, hx, rfl⟩ := List.mem_map.mp hr
    exact toTextRec_ok x (hv x hx).1 (hv x hx).2
  rw [textReadFrom, if_neg hsz,
    textReadExecutor_textWriteTo _ hrec (by simp [hne])]
  simp only [Bind.bind, Except.bind]
  rw [if_neg (by simp [List.isEmpty_iff, hne])]
  show convertList textToTransaction (ts.map toTextRec) = .ok ts
  exact convertList_map_ok (fun x hx => by
    obtain ⟨s, hs, -⟩ := (hv x hx).2
    exact textToTransaction_toTextRec x (hv x hx).1 hs)

/-- The binary pipeline reproduces every valid transaction list whose
descriptions are binary-compatible and whose total frame size fits the
ceiling. -/
theorem binPipeline_roundtrip (ts : List YPBankTransaction)
    (hv : ∀ t ∈ ts, ValidTransaction t ∧ DescBinOk t)
    (hacc : binAccOk (ts.map (fun t => 50 + strByteLen (t.description.getD []))) 0 = true) :
    binPipeline ts = .ok ts := by
  rw [binPipeline,
    show convertList transactionToBin ts = .ok (ts.map toBinRec) from
      collectExcept_map_ok ts (fun x hx => transactionToBin_ok x (by
        rw [utf8Encode_length]; exact (hv x hx).2.2))]
  simp only [Bind.bind, Except.bind]
  have hrec : ∀ r ∈ ts.map toBinRec, BinRecOk r := by
    intro r hr
    obtain ⟨x, hx, rfl⟩ := List.mem_map.mp hr
    exact toBinRec_ok x (hv x hx).1 (hv x hx).2
  rw [binWriteTo_ok _ hrec]
  simp only [Bind.bind, Except.bind]
  have hlists : (ts.map toBinRec).map (fun r => 4 + (binBodyOf r).length)
      = ts.map (fun t => 50 + strByteLen (t.description.getD [])) := by
    rw [List.map_map]
    apply List.map_congr_left
    intro x hx
    show 4 + (binBodyOf (toBinRec x)).length = 50 + strByteLen (x.description.getD [])
    rw [binBodyOf_length,
      show (toBinRec x).description = x.description from rfl, utf8Encode_length]
    omega
  rw [binReadFrom, binReadFromAux_frames (ts.map toBinRec) 0 [] hrec
    (by rw [hlists]; exact hacc)]
  simp only [List.nil_append, Bind.bind, Except.bind]
  show convertList binToTransaction (ts.map toBinRec) = .ok ts
  exact convertList_map_ok (fun x hx => binToTransaction_toBinRec x (hv x hx).1)

/-! ## Claim C1: write-then-read round trip for the three formats -/

/-- C1 counterexample: a valid canonical transaction whose description is
`None` comes back from the CSV pipeline with description `Some ""` —
the list is not reproduced field-for-field. -/
theorem claim_C1_counterexample :
    ValidTransaction ⟨0, .deposit, 0, 0, 0, 0, .success, none⟩ ∧
    csvPipeline [⟨0, .deposit, 0, 0, 0, 0, .success, none⟩]
      = .ok [⟨0, .deposit, 0, 0, 0, 0, .success, some []⟩] ∧
    (⟨0, .deposit, 0, 0, 0, 0, .success, some []⟩ : YPBankTransaction)
      ≠ ⟨0, .deposit, 0, 0, 0, 0, .success, none⟩ := by
  refine ⟨?_, rfl, by decide⟩
  unfold ValidTransaction
  decide

/-- C1 (amended): the convert-write-read-convert pipeline reproduces a
valid transaction list field-for-field for each format, provided every
description satisfies that format's conditions (present and free of the
characters the format's reader discards for CSV/Text; absent or nonempty
and `u32`-sized for binary), the list is nonempty for CSV/Text (their
reader rejects an empty result), the serialized form fits the CSV/Text
size ceiling, and for binary every check of the reader's byte accumulator
passes — the loop adds the executor's already-cumulative figure back into
the running total (`binAccOk`), so the checked quantity doubles per frame
rather than tracking the consumed bytes, and even small streams of about
nineteen frames fail the ceiling. -/
theorem claim_C1 :
    (∀ ts : List YPBankTransaction,
      (∀ t ∈ ts, ValidTransaction t ∧ DescCsvOk t) → ts ≠ [] →
      ¬ strByteLen (csvWriteTo (ts.map toCsvRec)) > MAX_SIZE_CSV_TXT_BYTES →
      csvPipeline ts = .ok ts) ∧
    (∀ ts : List YPBankTransaction,
      (∀ t ∈ ts, ValidTransaction t ∧ DescTextOk t) → ts ≠ [] →
      ¬ strByteLen (textWriteTo (ts.map toTextRec)) > MAX_SIZE_CSV_TXT_BYTES →
      textPipeline ts = .ok ts) ∧
    (∀ ts : List YPBankTransaction,
      (∀ t ∈ ts, ValidTransaction t ∧ DescBinOk t) →
      binAccOk (ts.map (fun t => 50 + strByteLen (t.description.getD []))) 0 = true →
      binPipeline ts = .ok ts) :=
  ⟨csvPipeline_roundtrip, textPipeline_roundtrip, binPipeline_roundtrip⟩

/-- C1 witness: the three pipelines at a concrete valid one-element list. -/
theorem claim_C1_witness :
    csvPipeline [⟨0, .deposit, 0, 0, 0, 0, .success, some ['h']⟩]
      = .ok [⟨0, .deposit, 0, 0, 0, 0, .success, some ['h']⟩] ∧
    textPipeline [⟨0, .deposit, 0, 0, 0, 0, .success, some ['h']⟩]
      = .ok [⟨0, .deposit, 0, 0, 0, 0, .success, some ['h']⟩] ∧
    binPipeline [⟨0, .deposit, 0, 0, 0, 0, .success, some ['h']⟩]
      = .ok [⟨0, .deposit, 0, 0, 0, 0, .success, some ['h']⟩] :=
  ⟨claim_C1.1 _
    (by
      intro t ht
      simp only [List.mem_singleton] at ht
      subst ht
      exact ⟨by unfold ValidTransaction; decide, ⟨['h'], rfl, by decide, by decide, by decide⟩⟩)
    (by decide) (by decide),
   claim_C1.2.1 _
    (by
      intro t ht
      simp only [List.mem_singleton] at ht
      subst ht
      exact ⟨by unfold ValidTransaction; decide, ⟨['h'], rfl, by decide⟩⟩)
    (by decide) (by decide),
   claim_C1.2.2 _
    (by
      intro t ht
      simp only [List.mem_singleton] at ht
      subst ht
      exact ⟨by unfold ValidTransaction; decide, by decide, by decide⟩)
    (by decide)⟩

/-! ## Claim C8: quote-escaping round trip of the description field -/

/-- C8 counterexample: a description containing `"` and `,` together with
a newline is not recovered — the CSV quoted-field loop silently drops the
newline, so writing then parsing yields a different string. -/
theorem claim_C8_counterexample :
    ('"' ∈ (['"', ',', '\n', 'x'] : Str)) ∧ (',' ∈ (['"', ',', '\n', 'x'] : Str)) ∧
    split_csv_line (makeup_records ⟨0, .deposit, 0, 0, 0, 0, .success, ['"', ',', '\n', 'x']⟩)
      = some [['0'], str "DEPOSIT", ['0'], ['0'], ['0'], ['0'], str "SUCCESS", ['"', ',', 'x']] ∧
    (['"', ',', 'x'] : Str) ≠ ['"', ',', '\n', 'x'] := by
  refine ⟨by decide, by decide, by decide, by decide⟩

/-- C8 (amended): splitting a written CSV data line recovers every field
verbatim — in particular a description containing `"` and `,` — provided
the description is trim-stable and free of the newline and tab characters
the quoted-field loop drops; on the Text side the written description line
is recovered verbatim for every description (the key/value splitter strips
the quotes and undoubles `""` exactly). -/
theorem claim_C8 :
    (∀ r : YPBankCsvFormat, rustTrim r.description = r.description →
      '\n' ∉ r.description → '\t' ∉ r.description →
      split_csv_line (makeup_records r)
        = some [natToStr r.tx_id, r.tx_type.display, natToStr r.from_user_id,
                natToStr r.to_user_id, natToStr r.amount, natToStr r.timestamp,
                r.status.display, r.description]) ∧
    (∀ r : YPBankTextFormat,
      split_into_key_value (str "DESCRIPTION: " ++ '"' :: (escQuote r.description ++ ['"']))
        = some (str "DESCRIPTION", r.description)) := by
  refine ⟨fun r h1 h2 h3 => split_csv_line_makeup r h1 h2 h3, fun r => ?_⟩
  have h := split_into_key_value_quoted (str "DESCRIPTION") r.description
    (by decide) (by decide)
  rw [show strUpper (rustTrim (str "DESCRIPTION")) = str "DESCRIPTION" from by decide] at h
  exact h

/-- C8 witness: a concrete description containing both `"` and `,` is
recovered verbatim by both the CSV field splitter and the Text key/value
splitter. -/
theorem claim_C8_witness :
    split_csv_line (makeup_records ⟨0, .deposit, 0, 0, 0, 0, .success, ['a', '"', ',', 'b']⟩)
      = some [['0'], str "DEPOSIT", ['0'], ['0'], ['0'], ['0'], str "SUCCESS",
              ['a', '"', ',', 'b']] ∧
    split_into_key_value (str "DESCRIPTION: "
        ++ '"' :: (escQuote (['a', '"', ',', 'b'] : Str) ++ ['"']))
      = some (str "DESCRIPTION", ['a', '"', ',', 'b']) := by
  constructor
  · have h := claim_C8.1 ⟨0, .deposit, 0, 0, 0, 0, .success, ['a', '"', ',', 'b']⟩
      (by decide) (by decide) (by decide)
    rw [h]
    rfl
  · exact claim_C8.2 ⟨0, .deposit, 0, 0, 0, 0, .success, ['a', '"', ',', 'b']⟩

/-! ## Claim C6: input size ceilings -/

/-- C6 counterexample: nineteen minimal 54-byte frames — 1026 bytes in
all, far under the 8 MiB ceiling — fail with `SizeLimitExceeded`
reporting 13107200 "read" bytes: the loop adds the executor's
already-cumulative figure back into its running total
(`total_read_bytes += record.1`, bin.rs line 63), so the checked quantity
is a doubling accumulator, not the cumulative bytes consumed. -/
theorem claim_C6_counterexample :
    ((List.replicate 19 minBinRec).flatMap (fun r => binFrame (binBodyOf r))).length = 1026 ∧
    1026 ≤ MAX_SIZE_BIN_BYTES ∧
    binReadFrom ((List.replicate 19 minBinRec).flatMap (fun r => binFrame (binBodyOf r)))
      = .error (.lim_exceed 13107200 MAX_SIZE_BIN_BYTES) ∧
    13107200 > MAX_SIZE_BIN_BYTES := by
  have hminrec : BinRecOk minBinRec := by
    unfold BinRecOk
    decide
  refine ⟨by decide, by decide, ?_, by decide⟩
  rw [binReadFrom,
    show List.replicate 19 minBinRec
      = [minBinRec, minBinRec, minBinRec, minBinRec, minBinRec, minBinRec, minBinRec,
         minBinRec, minBinRec, minBinRec, minBinRec, minBinRec, minBinRec, minBinRec,
         minBinRec, minBinRec, minBinRec, minBinRec, minBinRec] from rfl]
  simp only [List.flatMap_cons, List.flatMap_nil]
  rw [binReadFromAux_frame_step minBinRec hminrec _ 0 _ (by decide),
    show (0 : Nat) + (0 + (4 + (binBodyOf minBinRec).length)) = 50 from by decide]
  rw [binReadFromAux_frame_step minBinRec hminrec _ 50 _ (by decide),
    show (50 : Nat) + (50 + (4 + (binBodyOf minBinRec).length)) = 150 from by decide]
  rw [binReadFromAux_frame_step minBinRec hminrec _ 150 _ (by decide),
    show (150 : Nat) + (150 + (4 + (binBodyOf minBinRec).length)) = 350 from by decide]
  rw [binReadFromAux_frame_step minBinRec hminrec _ 350 _ (by decide),
    show (350 : Nat) + (350 + (4 + (binBodyOf minBinRec).length)) = 750 from by decide]
  rw [binReadFromAux_frame_step minBinRec hminrec _ 750 _ (by decide),
    show (750 : Nat) + (750 + (4 + (binBodyOf minBinRec).length)) = 1550 from by decide]
  rw [binReadFromAux_frame_step minBinRec hminrec _ 1550 _ (by decide),
    show (1550 : Nat) + (1550 + (4 + (binBodyOf minBinRec).length)) = 3150 from by decide]
  rw [binReadFromAux_frame_step minBinRec hminrec _ 3150 _ (by decide),
    show (3150 : Nat) + (3150 + (4 + (binBodyOf minBinRec).length)) = 6350 from by decide]
  rw [binReadFromAux_frame_step minBinRec hminrec _ 6350 _ (by decide),
    show (6350 : Nat) + (6350 + (4 + (binBodyOf minBinRec).length)) = 12750 from by decide]
  rw [binReadFromAux_frame_step minBinRec hminrec _ 12750 _ (by decide),
    show (12750 : Nat) + (12750 + (4 + (binBodyOf minBinRec).length)) = 25550 from by decide]
  rw [binReadFromAux_frame_step minBinRec hminrec _ 25550 _ (by decide),
    show (25550 : Nat) + (25550 + (4 + (binBodyOf minBinRec).length)) = 51150 from by decide]
  rw [binReadFromAux_frame_step minBinRec hminrec _ 51150 _ (by decide),
    show (51150 : Nat) + (51150 + (4 + (binBodyOf minBinRec).length)) = 102350 from by decide]
  rw [binReadFromAux_frame_step minBinRec hminrec _ 102350 _ (by decide),
    show (102350 : Nat) + (102350 + (4 + (binBodyOf minBinRec).length)) = 204750 from by decide]
  rw [binReadFromAux_frame_step minBinRec hminrec _ 204750 _ (by decide),
    show (204750 : Nat) + (204750 + (4 + (binBodyOf minBinRec).length)) = 409550 from by decide]
  rw [binReadFromAux_frame_step minBinRec hminrec _ 409550 _ (by decide),
    show (409550 : Nat) + (409550 + (4 + (binBodyOf minBinRec).length)) = 819150 from by decide]
  rw [binReadFromAux_frame_step minBinRec hminrec _ 819150 _ (by decide),
    show (819150 : Nat) + (819150 + (4 + (binBodyOf minBinRec).length)) = 1638350 from by decide]
  rw [binReadFromAux_frame_step minBinRec hminrec _ 1638350 _ (by decide),
    show (1638350 : Nat) + (1638350 + (4 + (binBodyOf minBinRec).length)) = 3276750 from by decide]
  rw [binReadFromAux_frame_step minBinRec hminrec _ 3276750 _ (by decide),
    show (3276750 : Nat) + (3276750 + (4 + (binBodyOf minBinRec).length)) = 6553550 from by decide]
  rw [binReadFromAux_frame_step minBinRec hminrec _ 6553550 _ (by decide),
    show (6553550 : Nat) + (6553550 + (4 + (binBodyOf minBinRec).length)) = 13107150 from by decide]
  rw [binReadFromAux_frame_fail minBinRec hminrec _ 13107150 _
    (by decide) (by decide) (by decide)]
  rfl

/-- C6 (amended): an oversized CSV/Text buffer fails with
`SizeLimitExceeded` (carrying the actual and limit byte counts) whatever
its content — before any record is parsed; during binary reading, before
each frame's body is read, the executor checks `total + 4 + record_size`
against the 8 MiB ceiling and fails with `SizeLimitExceeded` carrying
that figure even when the body is absent from the stream — but the loop
then adds this already-cumulative figure back into its running total, so
the quantity checked at the next frame is `total + (total + 4 +
record_size)`: a doubling accumulator, not the cumulative bytes consumed
frame-by-frame. -/
theorem claim_C6 :
    (∀ buffer : Str, strByteLen buffer > MAX_SIZE_CSV_TXT_BYTES →
      csvReadFrom buffer
          = .error (.sizeLimitExceeded (strByteLen buffer) MAX_SIZE_CSV_TXT_BYTES) ∧
      textReadFrom buffer
          = .error (.sizeLimitExceeded (strByteLen buffer) MAX_SIZE_CSV_TXT_BYTES)) ∧
    (∀ (rs : Nat) (tail : List Nat) (total : Nat), rs < 2 ^ 32 →
      total + (4 + rs) < 2 ^ 64 → total + (4 + rs) > MAX_SIZE_BIN_BYTES →
      binReadExecutor (u32be rs ++ tail) total
        = .error (.sizeLimitExceeded (total + (4 + rs)) MAX_SIZE_BIN_BYTES)) ∧
    (∀ (r : YPBankBinFormat) (X : List Nat) (total : Nat) (recs : List YPBankBinFormat),
      BinRecOk r →
      total + (4 + (binBodyOf r).length) ≤ MAX_SIZE_BIN_BYTES →
      binReadFromAux (binFrame (binBodyOf r) ++ X) total recs
        = binReadFromAux X (total + (total + (4 + (binBodyOf r).length))) (recs ++ [r])) ∧
    (∀ (r : YPBankBinFormat) (X : List Nat) (total : Nat) (recs : List YPBankBinFormat),
      BinRecOk r → (binBodyOf r).length < 2 ^ 32 →
      total + (4 + (binBodyOf r).length) > MAX_SIZE_BIN_BYTES →
      total + (4 + (binBodyOf r).length) < 2 ^ 64 →
      binReadFromAux (binFrame (binBodyOf r) ++ X) total recs
        = .error (.lim_exceed (total + (4 + (binBodyOf r).length)) MAX_SIZE_BIN_BYTES)) := by
  refine ⟨?_, ?_, ?_, ?_⟩
  · intro buffer hsz
    constructor
    · rw [csvReadFrom, if_pos hsz]
      rfl
    · rw [textReadFrom, if_pos hsz]
      rfl
  · intro rs tail total h32 hof hlim
    simp only [binReadExecutor, readU32be_u32be h32, if_pos hof,
      validate_exceed_max_bytes, if_pos hlim, ParseError.lim_exceed]
  · intro r X total recs hr hok
    exact binReadFromAux_frame_step r hr X total recs hok
  · intro r X total recs hr h32 hbig hov
    exact binReadFromAux_frame_fail r hr X total recs h32 hbig hov

/-- Witness for C6: the limit at a concrete oversized CSV buffer and a
concrete oversized frame declaration, one passing loop step showing the
doubled accumulator, and one failing loop step. -/
theorem claim_C6_witness :
    binReadExecutor (u32be 9437184 ++ []) 0
      = .error (.sizeLimitExceeded 9437188 MAX_SIZE_BIN_BYTES) ∧
    csvReadFrom (List.replicate 4194305 'a')
      = .error (.sizeLimitExceeded 4194305 MAX_SIZE_CSV_TXT_BYTES) ∧
    binReadFromAux (binFrame (binBodyOf minBinRec) ++ []) 100 []
      = binReadFromAux [] (100 + (100 + (4 + (binBodyOf minBinRec).length))) [minBinRec] ∧
    binReadFromAux (binFrame (binBodyOf minBinRec) ++ []) 8388600 []
      = .error (.lim_exceed (8388600 + (4 + (binBodyOf minBinRec).length))
          MAX_SIZE_BIN_BYTES) := by
  have hminrec : BinRecOk minBinRec := by
    unfold BinRecOk
    decide
  refine ⟨?_, ?_, ?_, ?_⟩
  · have h := claim_C6.2.1 9437184 [] 0 (by norm_num) (by norm_num)
      (by norm_num [MAX_SIZE_BIN_BYTES, MI_B])
    simpa using h
  · have hlen : strByteLen (List.replicate 4194305 'a') = 4194305 := by
      rw [strByteLen, List.map_replicate, show utf8CharLen 'a' = 1 from rfl,
        List.sum_replicate, smul_eq_mul, mul_one]
    have h := (claim_C6.1 (List.replicate 4194305 'a')
      (by rw [hlen]; norm_num [MAX_SIZE_CSV_TXT_BYTES, MI_B])).1
    rw [hlen] at h
    exact h
  · exact claim_C6.2.2.1 minBinRec [] 100 [] hminrec (by decide)
  · exact claim_C6.2.2.2 minBinRec [] 8388600 [] hminrec (by decide) (by decide) (by decide)
